import Mathlib

/-!
# typegraph: criteria engine and type discovery

A shallow embedding of `inclusions.go` and `typegraph.go`.

* Package-level variables (`inclusions`, `exclusions`, `prog`, `structs`) are
  passed explicitly.
* Go maps are association lists; a `range` over a map is a traversal of the
  list, and statements about "any iteration order" quantify over the lists.
* The libraries the program calls (`regexp`, `go/types`, the loader) are not
  part of the repository.  The regular-expression library is a parameter
  (`RegexpLib`); `goRegexp` is an executable instance for a documented
  fragment of the pattern syntax.
-/

namespace Typegraph

/-! ## The regular-expression library -/

/-- The part of Go's `regexp` package used by `inclusions.go`: the type of
compiled expressions, `regexp.Compile` and `(*Regexp).FindString`. -/
structure RegexpLib where
  Regexp : Type
  Error : Type
  Compile : String → Except Error Regexp
  FindString : Regexp → String → String

namespace GoRegexp

/-- A single-character matcher: a literal character, or `.` (any character
except newline, the default without the `s` flag). -/
inductive Atom where
  | lit (c : Char)
  | anyCharNotNL
  deriving DecidableEq, Repr

/-- An atom, or an atom under the greedy `*`. -/
inductive Piece where
  | one (a : Atom)
  | star (a : Atom)
  deriving DecidableEq, Repr

/-- A compiled expression of the fragment: an alternation (in source order)
of concatenations of pieces. -/
structure Regexp where
  alts : List (List Piece)
  deriving DecidableEq, Repr

/-- Errors of `Compile`.  `missingRepeatArgument` and `invalidRepeatOp` are
the errors of `regexp/syntax` with these names; `outsideFragment` marks a
pattern that uses syntax this fragment does not cover. -/
inductive ParseError where
  | missingRepeatArgument
  | invalidRepeatOp
  | outsideFragment
  deriving DecidableEq, Repr

/-- The characters with a special meaning in patterns (those escaped by
`regexp.QuoteMeta`). -/
def isMeta (c : Char) : Bool :=
  c ∈ ['\\', '.', '+', '*', '?', '(', ')', '|', '[', ']', '\x7b', '\x7d', '^', '$']

/-- The parse loop over the pattern text.  `done` holds the finished
alternatives and `cur` the pieces of the alternative being read, both newest
first; `lastRepeat` tells whether the previous token was a repetition
operator (stacked repetition such as `a**` is an error under Perl flags). -/
def parseLoop : List Char → List (List Piece) → List Piece → Bool →
    Except ParseError Regexp
  | [], done, cur, _ => .ok ⟨(cur.reverse :: done).reverse⟩
  | c :: t, done, cur, lastRepeat =>
    if c = '|' then parseLoop t (cur.reverse :: done) [] false
    else if c = '.' then parseLoop t done (Piece.one Atom.anyCharNotNL :: cur) false
    else if c = '*' then
      if lastRepeat then .error .invalidRepeatOp
      else
        match cur with
        | Piece.one a :: cur1 => parseLoop t done (Piece.star a :: cur1) true
        | _ => .error .missingRepeatArgument
    else if isMeta c then .error .outsideFragment
    else parseLoop t done (Piece.one (Atom.lit c) :: cur) false

/-- The model of `regexp.Compile` on the fragment: literal characters, `.`,
postfix `*` and `|`. -/
def Compile (expr : String) : Except ParseError Regexp :=
  parseLoop expr.data [] [] false

/-- Does the atom accept the character. -/
def atomMatches : Atom → Char → Bool
  | Atom.lit c, d => c == d
  | Atom.anyCharNotNL, d => d != '\n'

/-- Greedy repetition of an atom followed by the continuation `k`, as a
backtracking search explores it: take one more character first, and fall back
to the continuation only if that fails.  Returns the matched text. -/
def matchStar (a : Atom) (k : List Char → Option (List Char)) :
    List Char → Option (List Char)
  | [] => k []
  | c :: s =>
    if atomMatches a c then
      match matchStar a k s with
      | some m => some (c :: m)
      | none => k (c :: s)
    else k (c :: s)

/-- The text matched by a concatenation at the start of the input, as found
first by a backtracking search. -/
def matchPieces : List Piece → List Char → Option (List Char)
  | [], _ => some []
  | Piece.one a :: ps, s =>
    match s with
    | [] => none
    | c :: s1 => if atomMatches a c then (matchPieces ps s1).map (c :: ·) else none
  | Piece.star a :: ps, s => matchStar a (matchPieces ps) s

/-- The alternatives are tried in source order; the first that matches at the
start of the input wins (leftmost-first). -/
def matchAlts : List (List Piece) → List Char → Option (List Char)
  | [], _ => none
  | ps :: rest, s =>
    match matchPieces ps s with
    | some m => some m
    | none => matchAlts rest s

/-- The leftmost match: the earliest start position at which the expression
matches. -/
def find (re : Regexp) : List Char → Option (List Char)
  | [] => matchAlts re.alts []
  | c :: s =>
    match matchAlts re.alts (c :: s) with
    | some m => some m
    | none => find re s

/-- The model of `(*Regexp).FindString`: the text of the leftmost match, or
the empty string when there is no match. -/
def FindString (re : Regexp) (s : String) : String :=
  match find re s.data with
  | some m => String.mk m
  | none => ""

/-- Repetition of an atom followed by `k`, as a language. -/
def starAccepts (a : Atom) (k : List Char → Bool) : List Char → Bool
  | [] => k []
  | c :: s => k (c :: s) || (atomMatches a c && starAccepts a k s)

/-- Does the concatenation generate exactly the whole input. -/
def piecesAccept : List Piece → List Char → Bool
  | [], s => s.isEmpty
  | Piece.one a :: ps, s =>
    match s with
    | [] => false
    | c :: s1 => atomMatches a c && piecesAccept ps s1
  | Piece.star a :: ps, s => starAccepts a (piecesAccept ps) s

/-- Whole-string matching: the expression anchored at both ends matches `s`,
i.e. `s` belongs to the language of the expression. -/
def fullMatch (re : Regexp) (s : String) : Bool :=
  re.alts.any (fun ps => piecesAccept ps s.data)

end GoRegexp

/-- The executable instance of the library for the fragment. -/
def goRegexp : RegexpLib where
  Regexp := GoRegexp.Regexp
  Error := GoRegexp.ParseError
  Compile := GoRegexp.Compile
  FindString := GoRegexp.FindString

/-! ## inclusions.go -/

/-- The struct `criteria`; a nil `*regexp.Regexp` is `none`. -/
structure criteria (L : RegexpLib) where
  text : String
  pkgExpr : Option L.Regexp
  typeExpr : Option L.Regexp

/-- Scan for `strings.LastIndexByte`: `i` is the index of the head of the
list, `acc` the last index found so far. -/
def lastIndexFrom (c : Char) : List Char → Nat → Int → Int
  | [], _, acc => acc
  | d :: t, i, acc => lastIndexFrom c t (i + 1) (if d = c then (i : Int) else acc)

/-- The model of `strings.LastIndexByte(s, c)` for an ASCII `c`: the index of
the last occurrence of `c` in `s`, or `-1`.  Indices count characters; since
`c` is ASCII the two slices taken at the index are the same texts as with
byte indices. -/
def LastIndexByte (s : String) (c : Char) : Int :=
  lastIndexFrom c s.data 0 (-1)

/-- The function `matches`. -/
def matches_ (L : RegexpLib) (c : criteria L) (pkgName typeName : String) : Bool :=
  if (match c.pkgExpr with
      | some re => L.FindString re pkgName != pkgName
      | none => false) then false
  else if (match c.typeExpr with
      | some re => L.FindString re typeName != typeName
      | none => false) then false
  else true

/-- The function `compileCriteria`; the result pairs the criteria with the
error (`none` for a nil error). -/
def compileCriteria (L : RegexpLib) (s : String) : criteria L × Option L.Error :=
  let c : criteria L := { text := s, pkgExpr := none, typeExpr := none }
  let ind := LastIndexByte s ':'
  let pkg : String := if ind = -1 then s else String.mk (s.data.take ind.toNat)
  let typ : String := if ind = -1 then "" else String.mk (s.data.drop (ind.toNat + 1))
  if pkg.length > 0 then
    match L.Compile pkg with
    | .error err => (c, some err)
    | .ok re =>
      let c1 : criteria L := { c with pkgExpr := some re }
      if typ.length > 0 then
        match L.Compile typ with
        | .error err => (c1, some err)
        | .ok re2 => ({ c1 with typeExpr := some re2 }, none)
      else (c1, none)
  else
    if typ.length > 0 then
      match L.Compile typ with
      | .error err => (c, some err)
      | .ok re2 => ({ c with typeExpr := some re2 }, none)
    else (c, none)

/-- The part of `compileCriteria` after the split, as a function of the two
halves `pkg` and `typ`. -/
def compileHalves (L : RegexpLib) (s pkg typ : String) : criteria L × Option L.Error :=
  let c : criteria L := { text := s, pkgExpr := none, typeExpr := none }
  if pkg.length > 0 then
    match L.Compile pkg with
    | .error err => (c, some err)
    | .ok re =>
      let c1 : criteria L := { c with pkgExpr := some re }
      if typ.length > 0 then
        match L.Compile typ with
        | .error err => (c1, some err)
        | .ok re2 => ({ c1 with typeExpr := some re2 }, none)
      else (c1, none)
  else
    if typ.length > 0 then
      match L.Compile typ with
      | .error err => (c, some err)
      | .ok re2 => ({ c with typeExpr := some re2 }, none)
    else (c, none)

/-- The two halves of a pattern, as the specification words the split: the
text before and after the last `:`; without a `:` the whole pattern is the
first half and the second is empty. -/
def IsSplit (s pkg typ : String) : Prop :=
  (':' ∉ s.data ∧ pkg = s ∧ typ = "") ∨ (s = pkg ++ ":" ++ typ ∧ ':' ∉ typ.data)

/-- The pattern of one half, as the specification words it: absent for an
empty half, otherwise the compiled half. -/
def HalfPattern (L : RegexpLib) (half : String) (e : Option L.Regexp) : Prop :=
  if half = "" then e = none else ∃ re, L.Compile half = .ok re ∧ e = some re

/-- The half does not compile. -/
def HalfFails (L : RegexpLib) (half : String) : Prop :=
  half ≠ "" ∧ ∃ err, L.Compile half = .error err

/-- The function `addInclusion`, on the variable `inclusions`. -/
def addInclusion (L : RegexpLib) (inclusions : List (criteria L)) (s : String) :
    List (criteria L) × Option L.Error :=
  match compileCriteria L s with
  | (_, some err) => (inclusions, some err)
  | (c, none) => (inclusions ++ [c], none)

/-- The function `addExclusion`, on the variable `exclusions`. -/
def addExclusion (L : RegexpLib) (exclusions : List (criteria L)) (s : String) :
    List (criteria L) × Option L.Error :=
  match compileCriteria L s with
  | (_, some err) => (exclusions, some err)
  | (c, none) => (exclusions ++ [c], none)

/-! ## go/types and the loader, as far as typegraph.go reads them -/

/-- A named type (`*types.Named`): the path of `Obj().Pkg()` (`none` for a
nil package, as for the built-in `error`) and `Obj().Name()`. -/
structure Named where
  pkg : Option String
  name : String
  deriving DecidableEq, Repr

/-- A type (`types.Type`).  The last four constructors are the kinds that
`findNamedTypes` does not look into; they carry their printed form. -/
inductive GoType where
  | named (n : Named)
  | array (len : Nat) (elem : GoType)
  | chan (elem : GoType)
  | map (key : GoType) (elem : GoType)
  | pointer (elem : GoType)
  | slice (elem : GoType)
  | basic (name : String)
  | signature (desc : String)
  | struct (desc : String)
  | interface (desc : String)
  deriving DecidableEq, Repr

/-- A struct field (`*types.Var`): `Name()` and `Type()`. -/
structure Var where
  name : String
  type : GoType
  deriving DecidableEq, Repr

/-- An interface method (`*types.Func`): `Name()` and the printed form of its
signature; `Type()` of a method is always a `*types.Signature`. -/
structure Func where
  name : String
  sig : String
  deriving DecidableEq, Repr

/-- The method's `Type()`. -/
def Func.type (m : Func) : GoType := GoType.signature m.sig

/-- The underlying type of a named type, by the cases `addStruct` switches
on: `*types.Struct` with `Field(0..NumFields()-1)`, `*types.Interface` with
`Method(0..NumMethods()-1)`, or anything else. -/
inductive Underlying where
  | struct (fields : List Var)
  | interface (methods : List Func)
  | other
  deriving DecidableEq, Repr

/-- A named type of the loaded program together with its `Underlying()`. -/
structure TypeDecl where
  named : Named
  underlying : Underlying
  deriving DecidableEq, Repr

/-- A value of the map `PackageInfo.Defs`: a `*types.TypeName` with `Name()`,
whether `Parent()` is the package scope, and `Type()`; or any other object. -/
inductive Object where
  | typeName (name : String) (atPackageScope : Bool) (type : GoType)
  | other
  deriving DecidableEq, Repr

/-- The struct `loader.PackageInfo`: `Pkg.Path()` and the values of `Defs` in
the order the `range` visits them. -/
structure PackageInfo where
  Pkg : String
  Defs : List Object
  deriving DecidableEq, Repr

/-- The struct `loader.Program`: the map `Imported` (key and value, in the
order the `range` visits them) and the named types of the program. -/
structure Program where
  Imported : List (String × PackageInfo)
  types : List TypeDecl
  deriving DecidableEq, Repr

/-- The method `(*types.Named).Underlying`. -/
def Program.Underlying (prog : Program) (n : Named) : Underlying :=
  match prog.types.find? (fun d => d.named = n) with
  | some d => d.underlying
  | none => Underlying.other

/-- The method `(*types.Named).String`: the package path and a dot (both
omitted for a nil package or an empty path), then the name. -/
def Named.String (n : Named) : String :=
  match n.pkg with
  | some p => if p = "" then n.name else p ++ "." ++ n.name
  | none => n.name

/-- The package-level variables read during discovery, and the printer of
`go/types`: `TypeString t (some pkg)` is
`types.TypeString(t, types.RelativeTo(pkg))` and `TypeString t none` is
`t.String()`. -/
structure Env (L : RegexpLib) where
  inclusions : List (criteria L)
  exclusions : List (criteria L)
  prog : Program
  TypeString : GoType → Option String → String

/-- The function `include`. -/
def include_ {L : RegexpLib} (G : Env L) (pkgName typeName : String) : Bool :=
  if G.exclusions.any (fun exc => matches_ L exc pkgName typeName) then false
  else if (G.prog.Imported.lookup pkgName).isSome then true
  else if G.inclusions.any (fun inc => matches_ L inc pkgName typeName) then true
  else false

/-! ## typegraph.go -/

/-- The struct `field`. -/
structure field where
  Name : String
  Type_ : GoType
  TypeName : String
  FullType : String
  deriving DecidableEq, Repr

/-- The struct `structType`; `pkg` is the path of the package. -/
structure structType where
  pkg : String
  Name : String
  FullName : String
  PkgName : String
  Fields : List field
  Depth : Nat
  Orphan : Bool
  deriving DecidableEq, Repr

/-- The struct `useInfo`. -/
structure useInfo where
  FromStruct : String
  FromField : String
  ToStruct : String
  deriving DecidableEq, Repr

/-- The map `structs`, with the log `followed` of the invocations of `follow`
(the full name of the type each was invoked for, newest first).  The log is
not a variable of the program; nothing reads it. -/
structure State where
  structs : List (String × structType)
  followed : List String
  deriving DecidableEq, Repr

/-- The state at program start: `structs = make(map[string]*structType)`. -/
def State.empty : State := { structs := [], followed := [] }

/-- The map assignment `m[k] = v`. -/
def mapSet (m : List (String × structType)) (k : String) (v : structType) :
    List (String × structType) :=
  (k, v) :: m.filter (fun e => e.1 != k)

/-- The keys of the map. -/
def keys (m : List (String × structType)) : List String := m.map Prod.fst

/-- How an execution of the model can fail: the recursion budget of the
model is used up, or a type assertion panics. -/
inductive Fault where
  | outOfFuel
  | typeAssertion
  deriving DecidableEq, Repr

/-- The function `findNamedTypes`. -/
def findNamedTypes : GoType → List Named
  | GoType.named n => [n]
  | GoType.array _ e => findNamedTypes e
  | GoType.chan e => findNamedTypes e
  | GoType.map k e => findNamedTypes k ++ findNamedTypes e
  | GoType.pointer e => findNamedTypes e
  | GoType.slice e => findNamedTypes e
  | _ => []

/-- Split at every `/`, as `strings.Split(s, "/")` does. -/
def splitSlash : List Char → List (List Char)
  | [] => [[]]
  | c :: t =>
    if c = '/' then [] :: splitSlash t
    else
      match splitSlash t with
      | h :: r => (c :: h) :: r
      | [] => [[c]]

/-- The last element of `strings.Split(path, "/")`. -/
def lastPathPart (path : String) : String :=
  match (splitSlash path.data).getLast? with
  | some p => String.mk p
  | none => ""

/-- The `field` built in `addStruct` from a name and a type. -/
def mkField {L : RegexpLib} (G : Env L) (pkg : String) (name : String) (t : GoType) : field :=
  { Name := name
    TypeName := G.TypeString t (some pkg)
    FullType := G.TypeString t none
    Type_ := t }

/-- The inner loop of `follow` over the named types of one field; `call` is
`addStruct`. -/
def followNames {L : RegexpLib} (G : Env L)
    (call : Nat → String → String → Underlying → State → Except Fault State)
    (depth : Nat) : List Named → State → Except Fault State
  | [], s => .ok s
  | name :: rest, s =>
    match name.pkg with
    | none => followNames G call depth rest s
    | some pkg =>
      match call depth pkg name.name (G.prog.Underlying name) s with
      | .ok s1 => followNames G call depth rest s1
      | .error e => .error e

/-- The outer loop of `follow` over the fields of the struct. -/
def followFields {L : RegexpLib} (G : Env L)
    (call : Nat → String → String → Underlying → State → Except Fault State)
    (depth : Nat) : List Var → State → Except Fault State
  | [], s => .ok s
  | f :: rest, s =>
    match followNames G call depth (findNamedTypes f.type) s with
    | .ok s1 => followFields G call depth rest s1
    | .error e => .error e

/-- The body of `follow`, with `addStruct` as the parameter `call`; the
invocation is recorded in the log. -/
def followWith {L : RegexpLib} (G : Env L)
    (call : Nat → String → String → Underlying → State → Except Fault State)
    (depth : Nat) (sourcePkg typName : String) (str : List Var) (s : State) :
    Except Fault State :=
  followFields G call depth str
    { s with followed := (sourcePkg ++ "." ++ typName) :: s.followed }

/-- The `structType` that `addStruct` builds for a struct: the literal, then
one `field` appended per field of the struct. -/
def structEntity {L : RegexpLib} (G : Env L) (depth : Nat) (pkg typName : String)
    (fields : List Var) : structType :=
  { pkg := pkg, Name := typName, FullName := pkg ++ "." ++ typName
    PkgName := lastPathPart pkg, Depth := depth, Orphan := false
    Fields := fields.map (fun f => mkField G pkg f.name f.type) }

/-- The `structType` that `addStruct` builds for an interface: the literal,
then one `field` appended per method. -/
def ifaceEntity {L : RegexpLib} (G : Env L) (depth : Nat) (pkg typName : String)
    (methods : List Func) : structType :=
  { pkg := pkg, Name := typName, FullName := pkg ++ "." ++ typName
    PkgName := lastPathPart pkg, Depth := depth, Orphan := false
    Fields := methods.map (fun m => mkField G pkg m.name m.type) }

/-- The function `addStruct`.  The first argument bounds the depth of the
recursion through `follow`. -/
def addStruct {L : RegexpLib} (G : Env L) :
    Nat → Nat → String → String → Underlying → State → Except Fault State
  | 0, _, _, _, _, _ => .error Fault.outOfFuel
  | fuel + 1, depth, pkg, typName, underlying, s =>
    let fullName := pkg ++ "." ++ typName
    if (s.structs.lookup fullName).isSome then .ok s
    else if !include_ G pkg typName then .ok s
    else
      match underlying with
      | Underlying.struct fields =>
        followWith G (addStruct G fuel) (depth + 1) pkg typName fields
          { s with structs := mapSet s.structs fullName
                     (structEntity G depth pkg typName fields) }
      | Underlying.interface methods =>
        .ok { s with structs := mapSet s.structs fullName
                       (ifaceEntity G depth pkg typName methods) }
      | Underlying.other => .ok s

/-- The function `follow`. -/
def follow {L : RegexpLib} (G : Env L) (fuel depth : Nat) (sourcePkg typName : String)
    (str : List Var) (s : State) : Except Fault State :=
  followWith G (addStruct G fuel) depth sourcePkg typName str s

/-- The loop of `findStructs` over the definitions of the package. -/
def findStructsLoop {L : RegexpLib} (G : Env L) (fuel : Nat) (pkg : String) :
    List Object → State → Except Fault State
  | [], s => .ok s
  | Object.other :: rest, s => findStructsLoop G fuel pkg rest s
  | Object.typeName name atPackageScope type :: rest, s =>
    if !atPackageScope then findStructsLoop G fuel pkg rest s
    else
      match type with
      | GoType.named n =>
        match addStruct G fuel 0 pkg name (G.prog.Underlying n) s with
        | .ok s1 => findStructsLoop G fuel pkg rest s1
        | .error e => .error e
      | _ => .error Fault.typeAssertion

/-- The function `findStructs`. -/
def findStructs {L : RegexpLib} (G : Env L) (fuel : Nat) (pkg : PackageInfo) (s : State) :
    Except Fault State :=
  findStructsLoop G fuel pkg.Pkg pkg.Defs s

/-- The loop of `main` over `prog.Imported`. -/
def discover {L : RegexpLib} (G : Env L) (fuel : Nat) :
    List (String × PackageInfo) → State → Except Fault State
  | [], s => .ok s
  | (_, pkg) :: rest, s =>
    match findStructs G fuel pkg s with
    | .ok s1 => discover G fuel rest s1
    | .error e => .error e

/-- The variables `links` and `nonOrphans` of `main`; `nonOrphans` lists the
keys of the map (every stored value is `true`). -/
structure LinkAcc where
  links : List useInfo
  nonOrphans : List String
  deriving DecidableEq, Repr

/-- The innermost loop of the link construction, over the named types of one
field. -/
def linkNames (structs : List (String × structType)) (str : structType) (f : field) :
    List Named → LinkAcc → LinkAcc
  | [], acc => acc
  | name :: rest, acc =>
    let fullName := name.String
    if (structs.lookup fullName).isSome then
      linkNames structs str f rest
        { nonOrphans := fullName :: str.FullName :: acc.nonOrphans
          links := acc.links ++
            [{ FromStruct := str.FullName, FromField := f.Name, ToStruct := fullName }] }
    else linkNames structs str f rest acc

/-- The loop of the link construction over the fields of one struct. -/
def linkFields (structs : List (String × structType)) (str : structType) :
    List field → LinkAcc → LinkAcc
  | [], acc => acc
  | f :: rest, acc =>
    linkFields structs str rest (linkNames structs str f (findNamedTypes f.Type_) acc)

/-- The loop of the link construction over `structs`; the second argument is
the map in the order the `range` visits it. -/
def linkStructs (structs : List (String × structType)) :
    List (String × structType) → LinkAcc → LinkAcc
  | [], acc => acc
  | (_, str) :: rest, acc =>
    linkStructs structs rest (linkFields structs str str.Fields acc)

/-- The assignment `str.Orphan = !nonOrphans[str.FullName]`. -/
def markOrphan (nonOrphans : List String) (str : structType) : structType :=
  { str with Orphan := !(nonOrphans.contains str.FullName) }

/-- The export loop of `main`: the structs handed to `structTmpl`, in the
order visited. -/
def exportNodes (includeOrphans : Bool) (nonOrphans : List String) :
    List (String × structType) → List structType
  | [] => []
  | (_, str) :: rest =>
    let str1 := markOrphan nonOrphans str
    if includeOrphans || !str1.Orphan then
      str1 :: exportNodes includeOrphans nonOrphans rest
    else exportNodes includeOrphans nonOrphans rest

/-- The command line after `flag.Parse()`. -/
structure Flags where
  include_ : List String
  exclude : List String
  includeOrphans : Bool
  args : List String
  deriving DecidableEq, Repr

/-- What `main` obtains from outside the program: the loader
(`conf.FromArgs` and `conf.Load`, `none` when either fails), the printer of
`go/types`, whether `os.Create` and the run of `dot` succeed, and the orders
in which the `range` of the link construction and the `range` of the export
loop visit the map `structs`. -/
structure Host where
  load : List String → Option Program
  TypeString : GoType → Option String → String
  createOk : Bool
  dotOk : Bool
  range : List (String × structType) → List (String × structType)
  rangeExport : List (String × structType) → List (String × structType)

/-- What a run of `main` leaves behind: the exit code, the map `structs`, the
variable `links`, and the structs and arrows written to the output file. -/
structure Run where
  exitCode : Nat
  structs : List (String × structType)
  links : List useInfo
  nodes : List structType
  arrows : List useInfo
  deriving DecidableEq, Repr

/-- The two loops at the start of `main`: every pattern is handed to
`addInclusion` (or `addExclusion`) and the returned error is dropped. -/
def addAll (L : RegexpLib)
    (add : List (criteria L) → String → List (criteria L) × Option L.Error) :
    List String → List (criteria L) → List (criteria L)
  | [], cs => cs
  | s :: rest, cs => addAll L add rest (add cs s).1

/-- The variable `pkgNames` of `main`. -/
def pkgNamesOf (fl : Flags) : List String :=
  if fl.args.length = 0 then ["."] else fl.args

/-- The variables `inclusions`, `exclusions` and `prog` once `main` has
compiled the patterns and loaded the program. -/
def mainEnv (L : RegexpLib) (H : Host) (fl : Flags) (prog : Program) : Env L :=
  { inclusions := addAll L (addInclusion L) fl.include_ []
    exclusions := addAll L (addExclusion L) fl.exclude []
    prog := prog
    TypeString := H.TypeString }

/-- The function `main`.  An `error` is a run that does not end by itself in
the model (budget used up) or ends in a panic. -/
def main (L : RegexpLib) (H : Host) (fuel : Nat) (fl : Flags) : Except Fault Run :=
  match H.load (pkgNamesOf fl) with
  | none => .ok { exitCode := 2, structs := [], links := [], nodes := [], arrows := [] }
  | some prog =>
    let G : Env L := mainEnv L H fl prog
    match discover G fuel prog.Imported State.empty with
    | .error e => .error e
    | .ok s =>
      if s.structs.length = 0 then
        .ok { exitCode := 2, structs := s.structs, links := [], nodes := [], arrows := [] }
      else
        let acc := linkStructs s.structs (H.range s.structs) { links := [], nonOrphans := [] }
        if !H.createOk then
          .ok { exitCode := 2, structs := s.structs, links := acc.links, nodes := []
                arrows := [] }
        else
          .ok { exitCode := if H.dotOk then 0 else 2
                structs := s.structs.map (fun e => (e.1, markOrphan acc.nonOrphans e.2))
                links := acc.links
                nodes := exportNodes fl.includeOrphans acc.nonOrphans (H.rangeExport s.structs)
                arrows := acc.links }

/-! ## Concrete programs -/

namespace Example

/-- A printer for the concrete runs: named types are qualified by their
package path unless it is the package the printing is relative to. -/
def typeString : GoType → Option String → String
  | GoType.named n, rel =>
    match n.pkg with
    | some p => if rel = some p ∨ p = "" then n.name else p ++ "." ++ n.name
    | none => n.name
  | GoType.array len e, rel => "[" ++ toString len ++ "]" ++ typeString e rel
  | GoType.chan e, rel => "chan " ++ typeString e rel
  | GoType.map k e, rel => "map[" ++ typeString k rel ++ "]" ++ typeString e rel
  | GoType.pointer e, rel => "*" ++ typeString e rel
  | GoType.slice e, rel => "[]" ++ typeString e rel
  | GoType.basic name, _ => name
  | GoType.signature desc, _ => desc
  | GoType.struct desc, _ => desc
  | GoType.interface desc, _ => desc

/-- A host on which every external step succeeds and the loader returns the
given program, whatever the arguments. -/
def hostOf (prog : Program) : Host :=
  { load := fun _ => some prog
    TypeString := typeString
    createOk := true
    dotOk := true
    range := id
    rangeExport := id }

/-- The definition of a package-level named type `pkg.name`. -/
def typeDef (pkg name : String) : Object :=
  Object.typeName name true (GoType.named { pkg := some pkg, name := name })

/-- The type `*pkg.name`. -/
def ptrTo (pkg name : String) : GoType :=
  GoType.pointer (GoType.named { pkg := some pkg, name := name })

/-- Root `pkg1` with `Shipment{Dest pkg2.Address}`, and
`pkg2.Address{Line1 string}` outside the roots. -/
def shipping : Program :=
  { Imported := [("pkg1", { Pkg := "pkg1", Defs := [typeDef "pkg1" "Shipment"] })]
    types :=
      [ { named := { pkg := some "pkg1", name := "Shipment" }
          underlying := Underlying.struct
            [{ name := "Dest", type := GoType.named { pkg := some "pkg2", name := "Address" } }] },
        { named := { pkg := some "pkg2", name := "Address" }
          underlying := Underlying.struct
            [{ name := "Line1", type := GoType.basic "string" }] } ] }

/-- Root `pkg1` with `Secret{}` and `Vault{S Secret}`. -/
def vault : Program :=
  { Imported :=
      [("pkg1", { Pkg := "pkg1", Defs := [typeDef "pkg1" "Secret", typeDef "pkg1" "Vault"] })]
    types :=
      [ { named := { pkg := some "pkg1", name := "Secret" }
          underlying := Underlying.struct [] },
        { named := { pkg := some "pkg1", name := "Vault" }
          underlying := Underlying.struct
            [{ name := "S", type := GoType.named { pkg := some "pkg1", name := "Secret" } }] } ] }

/-- Root `app` with the cycle `A{B *B}`, `B{A *A}` and the self-referencing
`Node{Next *Node}`. -/
def cyclic : Program :=
  { Imported :=
      [("app", { Pkg := "app"
                 Defs := [typeDef "app" "A", typeDef "app" "B", typeDef "app" "Node"] })]
    types :=
      [ { named := { pkg := some "app", name := "A" }
          underlying := Underlying.struct [{ name := "B", type := ptrTo "app" "B" }] },
        { named := { pkg := some "app", name := "B" }
          underlying := Underlying.struct [{ name := "A", type := ptrTo "app" "A" }] },
        { named := { pkg := some "app", name := "Node" }
          underlying := Underlying.struct
            [{ name := "Next"
               type := GoType.pointer (GoType.named { pkg := some "app", name := "Node" }) }] } ] }

/-- Root `app` with `A{B *B}` and `B{A *A}`, `B` enumerated first. -/
def pair : Program :=
  { Imported :=
      [("app", { Pkg := "app", Defs := [typeDef "app" "B", typeDef "app" "A"] })]
    types :=
      [ { named := { pkg := some "app", name := "A" }
          underlying := Underlying.struct [{ name := "B", type := ptrTo "app" "B" }] },
        { named := { pkg := some "app", name := "B" }
          underlying := Underlying.struct [{ name := "A", type := ptrTo "app" "A" }] } ] }

/-- Root `app` with `S{F1 *X; F2 *T}`, `X{G *T}` and `T{}`: `T` is named by a
field of `S` and by a field of `X`. -/
def chain : Program :=
  { Imported :=
      [("app", { Pkg := "app"
                 Defs := [typeDef "app" "S", typeDef "app" "X", typeDef "app" "T"] })]
    types :=
      [ { named := { pkg := some "app", name := "S" }
          underlying := Underlying.struct
            [{ name := "F1", type := ptrTo "app" "X" }, { name := "F2", type := ptrTo "app" "T" }] },
        { named := { pkg := some "app", name := "X" }
          underlying := Underlying.struct [{ name := "G", type := ptrTo "app" "T" }] },
        { named := { pkg := some "app", name := "T" }
          underlying := Underlying.struct [] } ] }

/-- The variables of a run on `prog` after the patterns are compiled. -/
def envOf (prog : Program) (include_ exclude : List String) : Env goRegexp :=
  { inclusions := addAll goRegexp (addInclusion goRegexp) include_ []
    exclusions := addAll goRegexp (addExclusion goRegexp) exclude []
    prog := prog
    TypeString := typeString }

end Example

/-! ## Notions used in the statements -/

/-- The state after `addStruct` has stored a new struct and `follow` has been
entered for it. -/
def storeStruct {L : RegexpLib} (G : Env L) (depth : Nat) (pkg typName : String)
    (fields : List Var) (s : State) : State :=
  { structs := mapSet s.structs (pkg ++ "." ++ typName) (structEntity G depth pkg typName fields)
    followed := (pkg ++ "." ++ typName) :: s.followed }

/-- The state after `addStruct` has stored a new interface. -/
def storeIface {L : RegexpLib} (G : Env L) (depth : Nat) (pkg typName : String)
    (methods : List Func) (s : State) : State :=
  { s with structs := mapSet s.structs (pkg ++ "." ++ typName)
             (ifaceEntity G depth pkg typName methods) }

/-- Every entry of `m` is an entry of `m1`, under the same key and unchanged. -/
def Extends (m m1 : List (String × structType)) : Prop :=
  ∀ k v, m.lookup k = some v → m1.lookup k = some v

/-- Every Entity of the map was accepted by `include` and is stored under its
full name. -/
def AllIncluded {L : RegexpLib} (G : Env L) (m : List (String × structType)) : Prop :=
  ∀ e ∈ m, include_ G e.2.pkg e.2.Name = true ∧ e.1 = e.2.pkg ++ "." ++ e.2.Name

/-- A call of one of the three discovery functions. -/
inductive Call where
  | findStructs (pkg : PackageInfo)
  | addStruct (depth : Nat) (pkg typName : String) (underlying : Underlying)
  | follow (depth : Nat) (sourcePkg typName : String) (str : List Var)
  deriving DecidableEq, Repr

/-- Run one call. -/
def runCall {L : RegexpLib} (G : Env L) (fuel : Nat) : Call → State → Except Fault State
  | Call.findStructs pkg, s => findStructs G fuel pkg s
  | Call.addStruct depth pkg typName underlying, s =>
    addStruct G fuel depth pkg typName underlying s
  | Call.follow depth sourcePkg typName str, s => follow G fuel depth sourcePkg typName str s

/-- Run a sequence of calls, each on the state the previous one left. -/
def runCalls {L : RegexpLib} (G : Env L) (fuel : Nat) : List Call → State → Except Fault State
  | [], s => .ok s
  | c :: rest, s =>
    match runCall G fuel c s with
    | .ok s1 => runCalls G fuel rest s1
    | .error e => .error e

/-- The key under which `follow` asks for the named type of a declaration. -/
def declKey (d : TypeDecl) : String :=
  d.named.pkg.getD "" ++ "." ++ d.named.name

/-- The number of declared named types whose key is not yet in `structs`. -/
def pending {L : RegexpLib} (G : Env L) (s : State) : Nat :=
  G.prog.types.countP (fun d => decide (declKey d ∉ keys s.structs))

/-- A recursion budget that is enough for every call on this program. -/
def fuelBound {L : RegexpLib} (G : Env L) : Nat :=
  G.prog.types.length + 2

/-- The log names no key twice, and only keys of `structs`. -/
def LogOK (s : State) : Prop :=
  s.followed.Nodup ∧ ∀ k ∈ s.followed, k ∈ keys s.structs

/-- The state after `findStructs` on root `pkg1` of `Example.vault` with the
exclusion `pkg1:Secret`. -/
def Example.vaultState : State :=
  { structs :=
      [("pkg1.Vault",
        { pkg := "pkg1", Name := "Vault", FullName := "pkg1.Vault", PkgName := "pkg1"
          Fields := [{ Name := "S"
                       Type_ := GoType.named { pkg := some "pkg1", name := "Secret" }
                       TypeName := "Secret", FullType := "pkg1.Secret" }]
          Depth := 0, Orphan := false })]
    followed := ["pkg1.Vault"] }

/-- The state after `addStruct` for `pkg1.Shipment` of `Example.shipping`
with the inclusion `pkg2:.*`, from the empty map. -/
def Example.shippingState : State :=
  { structs :=
      [("pkg2.Address",
        { pkg := "pkg2", Name := "Address", FullName := "pkg2.Address", PkgName := "pkg2"
          Fields := [{ Name := "Line1", Type_ := GoType.basic "string"
                       TypeName := "string", FullType := "string" }]
          Depth := 1, Orphan := false }),
       ("pkg1.Shipment",
        { pkg := "pkg1", Name := "Shipment", FullName := "pkg1.Shipment", PkgName := "pkg1"
          Fields := [{ Name := "Dest"
                       Type_ := GoType.named { pkg := some "pkg2", name := "Address" }
                       TypeName := "pkg2.Address", FullType := "pkg2.Address" }]
          Depth := 0, Orphan := false })]
    followed := ["pkg2.Address", "pkg1.Shipment"] }

/-- The state that discovery leaves for two structs `x{fx tx}` and `y{fy ty}`
of package `p`, the type `tx` naming `y` and the type `ty` naming `x`, when
`x` is enumerated first: `x` at depth 0, `y` at depth 1. -/
def mutualState {L : RegexpLib} (G : Env L) (p x y fx fy : String) (tx ty : GoType) : State :=
  { structs :=
      [(p ++ "." ++ y, structEntity G 1 p y [{ name := fy, type := ty }]),
       (p ++ "." ++ x, structEntity G 0 p x [{ name := fx, type := tx }])]
    followed := [p ++ "." ++ y, p ++ "." ++ x] }

/-! ## Notions used in the statements on the graph -/

/-- The leaves of a type description in the words of the specification,
written independently of `findNamedTypes`, left to right: the description is
unwrapped through pointer, array, slice, map (key side, then value side) and
channel; anything else, a named type included, is a leaf. -/
def leafTypes : GoType → List GoType
  | GoType.array _ e => leafTypes e
  | GoType.chan e => leafTypes e
  | GoType.map k e => leafTypes k ++ leafTypes e
  | GoType.pointer e => leafTypes e
  | GoType.slice e => leafTypes e
  | t => [t]

/-- The named type of a leaf, if it is one. -/
def asNamed : GoType → Option Named
  | GoType.named n => some n
  | _ => none

/-- The named types among the leaves, in order: what the specification says
`findNamedTypes` returns. -/
def namedLeaves (t : GoType) : List Named :=
  (leafTypes t).filterMap asNamed

/-- The Entity `e` under key `k` is one built by `addStruct`: the literal for
a struct or an interface named `k`, with one `field` per field or method, in
their order. -/
def Created {L : RegexpLib} (G : Env L) (k : String) (e : structType) : Prop :=
  ∃ d p n, k = p ++ "." ++ n ∧
    ((∃ fields : List Var, e = structEntity G d p n fields ∧
        e.Fields.map (fun f => (f.Name, f.Type_)) = fields.map (fun v => (v.name, v.type))) ∨
     (∃ methods : List Func, e = ifaceEntity G d p n methods ∧
        e.Fields.map (fun f => (f.Name, f.Type_)) = methods.map (fun m => (m.name, m.type))))

/-- No key occurs twice in the map, and every Entity is stored under its
`FullName`. -/
def MapOK (m : List (String × structType)) : Prop :=
  (keys m).Nodup ∧ ∀ e ∈ m, e.2.FullName = e.1

/-- The relation between the map before and after a step, for the frame
property: every entry is kept unchanged, and every entry that is new was
built by `addStruct`. -/
def Frame {L : RegexpLib} (G : Env L) (m m1 : List (String × structType)) : Prop :=
  Extends m m1 ∧
    ∀ k e, m1.lookup k = some e → m.lookup k = some e ∨ (m.lookup k = none ∧ Created G k e)

/-- The links that the link construction appends for one field of one struct:
one per named type of the field whose full name is a key of `structs`. -/
def fieldLinks (structs : List (String × structType)) (str : structType) (f : field) :
    List useInfo :=
  ((findNamedTypes f.Type_).filter (fun n => (structs.lookup n.String).isSome)).map
    (fun n => { FromStruct := str.FullName, FromField := f.Name, ToStruct := n.String })

/-- The links for the fields of one struct, field after field. -/
def entityLinks (structs : List (String × structType)) (str : structType) :
    List field → List useInfo
  | [] => []
  | f :: rest => fieldLinks structs str f ++ entityLinks structs str rest

/-- The links for the structs in the order visited. -/
def allLinks (structs : List (String × structType)) :
    List (String × structType) → List useInfo
  | [] => []
  | e :: rest => entityLinks structs e.2 e.2.Fields ++ allLinks structs rest

/-- The type description contains no map type on the way to its leaves. -/
def mapFree : GoType → Bool
  | GoType.map _ _ => false
  | GoType.array _ e => mapFree e
  | GoType.chan e => mapFree e
  | GoType.pointer e => mapFree e
  | GoType.slice e => mapFree e
  | _ => true

/-- The keys of `nonOrphans` are the ends of the links. -/
def EndsOK (acc : LinkAcc) : Prop :=
  ∀ k, k ∈ acc.nonOrphans ↔ ∃ l ∈ acc.links, l.FromStruct = k ∨ l.ToStruct = k

/-- The run of `main` as evaluated (the failed run when the model gives no
run). -/
def Example.runOf (H : Host) (fuel : Nat) (fl : Flags) : Run :=
  match main goRegexp H fuel fl with
  | .ok run => run
  | .error _ => { exitCode := 2, structs := [], links := [], nodes := [], arrows := [] }

/-- Root `app` with `Index{ByKey map[Key]Value}`, `Key{}` and `Value{}`. -/
def Example.index : Program :=
  { Imported :=
      [("app", { Pkg := "app"
                 Defs := [Example.typeDef "app" "Index", Example.typeDef "app" "Key",
                          Example.typeDef "app" "Value"] })]
    types :=
      [ { named := { pkg := some "app", name := "Index" }
          underlying := Underlying.struct
            [{ name := "ByKey"
               type := GoType.map (GoType.named { pkg := some "app", name := "Key" })
                 (GoType.named { pkg := some "app", name := "Value" }) }] },
        { named := { pkg := some "app", name := "Key" }, underlying := Underlying.struct [] },
        { named := { pkg := some "app", name := "Value" }, underlying := Underlying.struct [] } ] }

/-- Root `app` with the lone `Report{}`. -/
def Example.report : Program :=
  { Imported := [("app", { Pkg := "app", Defs := [Example.typeDef "app" "Report"] })]
    types :=
      [ { named := { pkg := some "app", name := "Report" }
          underlying := Underlying.struct [] } ] }

/-- Root `app` with the interface `Shape{Area() float64}` and
`Canvas{Items []Shape}`. -/
def Example.shapes : Program :=
  { Imported :=
      [("app", { Pkg := "app"
                 Defs := [Example.typeDef "app" "Shape", Example.typeDef "app" "Canvas"] })]
    types :=
      [ { named := { pkg := some "app", name := "Shape" }
          underlying := Underlying.interface [{ name := "Area", sig := "func() float64" }] },
        { named := { pkg := some "app", name := "Canvas" }
          underlying := Underlying.struct
            [{ name := "Items"
               type := GoType.slice (GoType.named { pkg := some "app", name := "Shape" }) }] } ] }

/-- The command line `typegraph app`, with or without `--includeOrphans`. -/
def Example.plainFlags (includeOrphans : Bool) : Flags :=
  { include_ := [], exclude := [], includeOrphans := includeOrphans, args := ["app"] }

/-- The state left by a sequence of calls from the empty map, as evaluated
(the empty state when the model gives none). -/
def Example.stateOf (G : Env goRegexp) (fuel : Nat) (calls : List Call) : State :=
  match runCalls G fuel calls State.empty with
  | .ok s => s
  | .error _ => State.empty

/-- The package `app` of `Example.shapes`. -/
def Example.shapesPkg : PackageInfo :=
  { Pkg := "app", Defs := [Example.typeDef "app" "Shape", Example.typeDef "app" "Canvas"] }

/-- The Entity `e` under key `k` is referenced by an Entity of the map one
level above it: some Entity `ep` with `ep.Depth + 1 = e.Depth` has a field
whose named types include one with full name `k`. -/
def HasParent (m : List (String × structType)) (k : String) (e : structType) : Prop :=
  ∃ kp ep f T q, m.lookup kp = some ep ∧ ep.Depth + 1 = e.Depth ∧ f ∈ ep.Fields ∧
    T ∈ findNamedTypes f.Type_ ∧ T.pkg = some q ∧ k = q ++ "." ++ T.name

/-- The type `n` is declared at package scope in the root package with path
`p`. -/
def RootDef (prog : Program) (p n : String) : Prop :=
  ∃ root info t, (root, info) ∈ prog.Imported ∧ info.Pkg = p ∧
    Object.typeName n true t ∈ info.Defs

/-- What a call of `addStruct` at depth `d` for `p.n` adds: every new entry
is the Entity of the call, at depth `d`, or has a parent in the map. -/
def DepthPost (d : Nat) (p n : String) (s s1 : State) : Prop :=
  Extends s.structs s1.structs ∧
    ∀ k e, s.structs.lookup k = none → s1.structs.lookup k = some e →
      (k = p ++ "." ++ n ∧ e.Depth = d ∧ e.pkg = p ∧ e.Name = n) ∨ HasParent s1.structs k e

/-- What the calls made by `follow` add: every new entry has a parent in the
map. -/
def ParentRel (s s1 : State) : Prop :=
  Extends s.structs s1.structs ∧
    ∀ k e, s.structs.lookup k = none → s1.structs.lookup k = some e →
      HasParent s1.structs k e

/-- What discovery adds: every new entry is a top-level type of a root
package at depth 0, or has a parent in the map. -/
def RootRel (prog : Program) (s s1 : State) : Prop :=
  Extends s.structs s1.structs ∧
    ∀ k e, s.structs.lookup k = none → s1.structs.lookup k = some e →
      (e.Depth = 0 ∧ RootDef prog e.pkg e.Name) ∨ HasParent s1.structs k e

/-- A call that `findStructs` makes for a root package: the package path, the
name of a definition at package scope, and the underlying type handed to
`addStruct`. -/
def RootRequest (prog : Program) (p n : String) (u : Underlying) : Prop :=
  ∃ root info t, (root, info) ∈ prog.Imported ∧ info.Pkg = p ∧
    Object.typeName n true (GoType.named t) ∈ info.Defs ∧ u = prog.Underlying t

/-- The least set of types that contains every accepted top-level struct or
interface of a root package and, with a struct, every accepted struct or
interface among the named types of its fields.  A type is given by its
package path, its name and its underlying type. -/
inductive Reach {L : RegexpLib} (G : Env L) : String → String → Underlying → Prop where
  | root {p n : String} {u : Underlying} :
      RootRequest G.prog p n u → include_ G p n = true → u ≠ Underlying.other →
      Reach G p n u
  | step {p n q : String} {fields : List Var} {f : Var} {T : Named} :
      Reach G p n (Underlying.struct fields) → f ∈ fields → T ∈ findNamedTypes f.type →
      T.pkg = some q → include_ G q T.name = true →
      G.prog.Underlying T ≠ Underlying.other →
      Reach G q T.name (G.prog.Underlying T)

/-- The request that `findStructs` makes for one definition, if any. -/
def requestOf (prog : Program) (pkg : String) : Object → Option (String × String × Underlying)
  | Object.typeName n true (GoType.named t) => some (pkg, n, prog.Underlying t)
  | _ => none

/-- The requests that `findStructs` makes for the root packages. -/
def rootRequests (prog : Program) :
    List (String × PackageInfo) → List (String × String × Underlying)
  | [] => []
  | x :: rest => x.2.Defs.filterMap (requestOf prog x.2.Pkg) ++ rootRequests prog rest

/-- The request that `follow` makes for a declared named type, if it has a
package. -/
def declRequest (prog : Program) (d : TypeDecl) : Option (String × String × Underlying) :=
  match d.named.pkg with
  | some q => some (q, d.named.name, prog.Underlying d.named)
  | none => none

/-- All requests for `addStruct` that the program can give rise to. -/
def requests (prog : Program) : List (String × String × Underlying) :=
  rootRequests prog prog.Imported ++ prog.types.filterMap (declRequest prog)

/-- No two different struct or interface types compete for one key: requests
with the same full name agree in package path, name and underlying type.  (In
a Go program a type name contains no dot and a package declares a name
once.) -/
def Coherent (prog : Program) : Prop :=
  ∀ r1 ∈ requests prog, ∀ r2 ∈ requests prog,
    r1.2.2 ≠ Underlying.other → r2.2.2 ≠ Underlying.other →
    r1.1 ++ "." ++ r1.2.1 = r2.1 ++ "." ++ r2.2.1 → r1 = r2

/-- The program `prog2` is `prog` with its root packages, and the definitions
of each, enumerated in another order. -/
def Reordered (prog prog2 : Program) : Prop :=
  prog2.types = prog.types ∧
    ∃ mid : List (String × PackageInfo), mid.Perm prog.Imported ∧
      List.Forall₂ (fun a b => a.1 = b.1 ∧ a.2.Pkg = b.2.Pkg ∧ a.2.Defs.Perm b.2.Defs)
        mid prog2.Imported

/-- Every Entity of the map was built for a type of the least set, under the
full name of that type and from its fields or methods. -/
def ReachInv {L : RegexpLib} (G : Env L) (m : List (String × structType)) : Prop :=
  ∀ k e, m.lookup k = some e →
    ∃ p n u, Reach G p n u ∧ k = p ++ "." ++ n ∧
      ((∃ d fields, u = Underlying.struct fields ∧ e = structEntity G d p n fields) ∨
       (∃ d methods, u = Underlying.interface methods ∧ e = ifaceEntity G d p n methods))

/-- Every accepted struct or interface among the named types of the fields of
the Entity has its full name among the keys of the map. -/
def ClosedEnt {L : RegexpLib} (G : Env L) (m : List (String × structType))
    (e : structType) : Prop :=
  ∀ f ∈ e.Fields, ∀ T ∈ findNamedTypes f.Type_, ∀ q, T.pkg = some q →
    include_ G q T.name = true → G.prog.Underlying T ≠ Underlying.other →
    (q ++ "." ++ T.name) ∈ keys m

/-- Every entry that a step adds is closed in the map the step leaves. -/
def ClosedRel {L : RegexpLib} (G : Env L) (s s1 : State) : Prop :=
  Extends s.structs s1.structs ∧
    ∀ k e, s.structs.lookup k = none → s1.structs.lookup k = some e →
      ClosedEnt G s1.structs e

/-- Root `app` of `Example.pair` with `A` enumerated before `B`. -/
def Example.pairAB : Program :=
  { Example.pair with
    Imported :=
      [("app", { Pkg := "app"
                 Defs := [Example.typeDef "app" "A", Example.typeDef "app" "B"] })] }


/-! ## The order of the methods of an interface -/

/-- The order of method identifiers: strings are compared character by
character, as Go compares them byte by byte in UTF-8. -/
def lessChars : List Char → List Char → Bool
  | [], [] => false
  | [], _ :: _ => true
  | _ :: _, [] => false
  | a :: as, b :: bs =>
    if a.toNat < b.toNat then true
    else if b.toNat < a.toNat then false
    else lessChars as bs

/-- One step of the sorting of the methods: `m` is put before the first
method with a greater name. -/
def insertMethod (m : Func) : List Func → List Func
  | [] => [m]
  | x :: rest =>
    if lessChars m.name.data x.name.data then m :: x :: rest else x :: insertMethod m rest

/-- The sequence `Method(0)`, ..., `Method(NumMethods()-1)` that go/types
gives for an interface type with the exported methods `declared`, listed in
the order of the declaration, and no embedded interface.  The documentation
of `(*types.Interface).Method` says: "The methods are ordered by their unique
Id"; the Id of an exported method is its name. -/
def sortMethods : List Func → List Func
  | [] => []
  | m :: rest => insertMethod m (sortMethods rest)

/-- The methods of `Shape` in the order of the declaration
`type Shape interface{ Zed(); Alpha() }`. -/
def Example.zedDeclared : List Func :=
  [{ name := "Zed", sig := "func()" }, { name := "Alpha", sig := "func()" }]

/-- Root `app` with `type Shape interface{ Zed(); Alpha() }`, as go/types
presents it. -/
def Example.zed : Program :=
  { Imported := [("app", { Pkg := "app", Defs := [Example.typeDef "app" "Shape"] })]
    types :=
      [ { named := { pkg := some "app", name := "Shape" }
          underlying := Underlying.interface (sortMethods Example.zedDeclared) } ] }
/-! ## The inclusion decision -/

theorem lookup_isSome_iff {β : Type} (k : String) (m : List (String × β)) :
    (m.lookup k).isSome = true ↔ k ∈ m.map Prod.fst := by
  induction m with
  | nil => simp
  | cons e m ih =>
    obtain ⟨k1, v⟩ := e
    by_cases h : k = k1
    · subst h; simp [List.lookup]
    · have h2 : (k == k1) = false := by simpa using h
      simp [List.lookup, h2, ih, h]

theorem include_eq_true_iff {L : RegexpLib} (G : Env L) (ns t : String) :
    include_ G ns t = true ↔
      (∀ exc ∈ G.exclusions, matches_ L exc ns t = false) ∧
      (ns ∈ G.prog.Imported.map Prod.fst ∨
        ∃ inc ∈ G.inclusions, matches_ L inc ns t = true) := by
  have hb : include_ G ns t =
      (!(G.exclusions.any fun exc => matches_ L exc ns t) &&
        ((G.prog.Imported.lookup ns).isSome ||
          (G.inclusions.any fun inc => matches_ L inc ns t))) := by
    unfold include_
    cases (G.exclusions.any fun exc => matches_ L exc ns t) <;>
    cases ((G.prog.Imported.lookup ns).isSome) <;>
    cases (G.inclusions.any fun inc => matches_ L inc ns t) <;> rfl
  rw [hb, ← lookup_isSome_iff]
  simp only [Bool.and_eq_true, Bool.or_eq_true, Bool.not_eq_true', List.any_eq_true,
    List.any_eq_false, Bool.not_eq_true]

/-! ## Compiling a pattern -/

theorem lastIndexFrom_absent (c : Char) (l : List Char) (i : Nat) (acc : Int)
    (h : c ∉ l) : lastIndexFrom c l i acc = acc := by
  induction l generalizing i acc with
  | nil => rfl
  | cons d t ih =>
    have hd : d ≠ c := fun e => h (by simp [e])
    have ht : c ∉ t := fun e => h (by simp [e])
    simp [lastIndexFrom, hd, ih _ _ ht]

theorem lastIndexFrom_last (c : Char) (pre post : List Char) (i : Nat) (acc : Int)
    (h : c ∉ post) : lastIndexFrom c (pre ++ c :: post) i acc = ((i + pre.length : Nat) : Int) := by
  induction pre generalizing i acc with
  | nil => simp [lastIndexFrom, lastIndexFrom_absent _ _ _ _ h]
  | cons d t ih =>
    show lastIndexFrom c (t ++ c :: post) (i + 1) _ = _
    rw [ih]
    simp only [List.length_cons]
    congr 1
    omega

theorem exists_last_split (c : Char) (l : List Char) :
    c ∉ l ∨ ∃ pre post, l = pre ++ c :: post ∧ c ∉ post := by
  induction l with
  | nil => left; simp
  | cons d t ih =>
    rcases ih with h | ⟨pre, post, h, hp⟩
    · by_cases hd : d = c
      · right; exact ⟨[], t, by simp [hd], h⟩
      · left
        simp only [List.mem_cons, not_or]
        exact ⟨fun e => hd e.symm, h⟩
    · right; exact ⟨d :: pre, post, by simp [h], hp⟩

theorem exists_isSplit (s : String) : ∃ pkg typ, IsSplit s pkg typ := by
  rcases exists_last_split ':' s.data with h | ⟨pre, post, h, hp⟩
  · exact ⟨s, "", Or.inl ⟨h, rfl, rfl⟩⟩
  · refine ⟨String.mk pre, String.mk post, Or.inr ⟨?_, hp⟩⟩
    apply String.ext
    simp [h]

theorem compileCriteria_of_isSplit (L : RegexpLib) (s pkg typ : String)
    (h : IsSplit s pkg typ) : compileCriteria L s = compileHalves L s pkg typ := by
  rcases h with ⟨h, rfl, rfl⟩ | ⟨rfl, h⟩
  · have hi : LastIndexByte pkg ':' = -1 := lastIndexFrom_absent _ _ _ _ h
    simp [compileCriteria, compileHalves, hi]
  · have hi : LastIndexByte (pkg ++ ":" ++ typ) ':' = (pkg.data.length : Int) := by
      unfold LastIndexByte
      have := lastIndexFrom_last ':' pkg.data typ.data 0 (-1) h
      simpa using this
    have hne : ¬ ((pkg.data.length : Int) = -1) := by omega
    have h1 : String.mk (((pkg ++ ":" ++ typ).data).take (pkg.data.length : Int).toNat) = pkg := by
      apply String.ext
      simp
    have h2 : String.mk (((pkg ++ ":" ++ typ).data).drop ((pkg.data.length : Int).toNat + 1)) = typ := by
      apply String.ext
      have e : pkg.data.length + 1 = (pkg.data ++ [':']).length := by simp
      simp only [Int.toNat_ofNat, String.data_append]
      show List.drop (pkg.data.length + 1) (pkg.data ++ [':'] ++ typ.data) = typ.data
      rw [e, List.drop_left]
    unfold compileCriteria compileHalves
    simp only [hi, hne, if_false, h1, h2]

theorem string_length_pos_iff (s : String) : s.length > 0 ↔ s ≠ "" := by
  obtain ⟨l⟩ := s
  cases l with
  | nil => simp [String.length]
  | cons c t =>
    simp only [String.length, List.length_cons, gt_iff_lt, Nat.zero_lt_succ, true_iff]
    intro h
    have := congrArg String.data h
    simp at this

theorem compileHalves_text (L : RegexpLib) (s pkg typ : String) :
    (compileHalves L s pkg typ).1.text = s := by
  unfold compileHalves
  by_cases hp : pkg.length > 0 <;> by_cases ht : typ.length > 0 <;>
    cases h1 : L.Compile pkg <;> cases h2 : L.Compile typ <;> simp [hp, ht]

theorem compileHalves_typeExpr_empty (L : RegexpLib) (s pkg : String) :
    (compileHalves L s pkg "").1.typeExpr = none := by
  unfold compileHalves
  by_cases hp : pkg.length > 0 <;> cases h1 : L.Compile pkg <;> simp [hp]

theorem compileHalves_ok_iff (L : RegexpLib) (s pkg typ : String) (c : criteria L) :
    compileHalves L s pkg typ = (c, none) ↔
      c.text = s ∧ HalfPattern L pkg c.pkgExpr ∧ HalfPattern L typ c.typeExpr := by
  obtain ⟨ct, cp, cty⟩ := c
  unfold compileHalves HalfPattern
  by_cases hp : pkg = "" <;> by_cases ht : typ = ""
  all_goals
    have hp1 := string_length_pos_iff pkg
    have ht1 := string_length_pos_iff typ
    cases h1 : L.Compile pkg <;> cases h2 : L.Compile typ <;>
      simp [hp, ht, hp1, ht1, h1, h2, eq_comm]

theorem compileHalves_error_iff (L : RegexpLib) (s pkg typ : String) :
    (compileHalves L s pkg typ).2.isSome = true ↔ HalfFails L pkg ∨ HalfFails L typ := by
  unfold compileHalves HalfFails
  by_cases hp : pkg = "" <;> by_cases ht : typ = ""
  all_goals
    have hp1 := string_length_pos_iff pkg
    have ht1 := string_length_pos_iff typ
    cases h1 : L.Compile pkg <;> cases h2 : L.Compile typ <;>
      simp [hp, ht, hp1, ht1, h1, h2]
/-! ## The leftmost-first matcher -/

namespace GoRegexp

theorem matchStar_length (a : Atom) (k : List Char → Option (List Char))
    (hk : ∀ s m, k s = some m → m.length ≤ s.length) (s m : List Char)
    (h : matchStar a k s = some m) : m.length ≤ s.length := by
  induction s generalizing m with
  | nil => exact hk _ _ h
  | cons c s ih =>
    unfold matchStar at h
    split at h
    · cases hr : matchStar a k s with
      | some r =>
        rw [hr] at h
        simp only [Option.some.injEq] at h
        subst h
        have := ih r hr
        simp only [List.length_cons]
        omega
      | none =>
        rw [hr] at h
        exact hk _ _ h
    · exact hk _ _ h

theorem matchPieces_length (ps : List Piece) (s m : List Char)
    (h : matchPieces ps s = some m) : m.length ≤ s.length := by
  induction ps generalizing s m with
  | nil =>
    simp only [matchPieces, Option.some.injEq] at h
    subst h
    simp
  | cons p ps ih =>
    cases p with
    | one a =>
      cases s with
      | nil => simp [matchPieces] at h
      | cons c s1 =>
        simp only [matchPieces] at h
        split at h
        · cases hr : matchPieces ps s1 with
          | some r =>
            rw [hr] at h
            simp only [Option.map_some', Option.some.injEq] at h
            subst h
            have := ih s1 r hr
            simp only [List.length_cons]
            omega
          | none => rw [hr] at h; simp at h
        · cases h
    | star a =>
      simp only [matchPieces] at h
      exact matchStar_length a _ (fun s m h => ih s m h) s m h

theorem matchAlts_length (alts : List (List Piece)) (s m : List Char)
    (h : matchAlts alts s = some m) : m.length ≤ s.length := by
  induction alts with
  | nil => simp [matchAlts] at h
  | cons ps rest ih =>
    simp only [matchAlts] at h
    cases hr : matchPieces ps s with
    | some r =>
      rw [hr] at h
      simp only [Option.some.injEq] at h
      subst h
      exact matchPieces_length ps s r hr
    | none => rw [hr] at h; exact ih h

theorem find_length (re : Regexp) (s m : List Char) (h : find re s = some m) :
    m.length ≤ s.length := by
  induction s with
  | nil => exact matchAlts_length _ _ _ h
  | cons c s ih =>
    simp only [find] at h
    cases hr : matchAlts re.alts (c :: s) with
    | some r =>
      rw [hr] at h
      simp only [Option.some.injEq] at h
      subst h
      exact matchAlts_length _ _ _ hr
    | none =>
      rw [hr] at h
      have := ih h
      simp only [List.length_cons]
      omega

/-- On a non-empty input, `FindString` returns the whole input exactly when
the leftmost-first search started at the first character consumes it all. -/
theorem FindString_eq_self_iff (re : Regexp) (s : String) (hs : s ≠ "") :
    FindString re s = s ↔ matchAlts re.alts s.data = some s.data := by
  obtain ⟨l⟩ := s
  cases l with
  | nil => exact absurd rfl hs
  | cons c t =>
    simp only [FindString, find]
    cases hr : matchAlts re.alts (c :: t) with
    | some r =>
      simp only [Option.some.injEq]
      constructor
      · intro h; exact congrArg String.data h
      · intro h; rw [h]
    | none =>
      simp only [iff_false, reduceCtorEq]
      cases hf : find re t with
      | some m =>
        simp only
        intro h
        have h1 := find_length re t m hf
        have h2 := congrArg (fun x => x.data.length) h
        simp only [List.length_cons] at h2
        omega
      | none =>
        simp only
        intro h
        have h2 := congrArg String.data h
        simp at h2

theorem matchAlts_singleton (ps : List Piece) (l : List Char) :
    matchAlts [ps] l = matchPieces ps l := by
  simp only [matchAlts]
  cases matchPieces ps l <;> rfl

theorem matchPieces_one_cons (a : Atom) (ps : List Piece) (c : Char) (s : List Char) :
    matchPieces (Piece.one a :: ps) (c :: s) = some (c :: s) ↔
      atomMatches a c = true ∧ matchPieces ps s = some s := by
  simp only [matchPieces]
  cases h : atomMatches a c
  · simp
  · cases h2 : matchPieces ps s <;> simp

theorem matchPieces_one_nil (a : Atom) (ps : List Piece) :
    matchPieces (Piece.one a :: ps) [] = none := rfl

theorem matchPieces_nil_iff (s : List Char) : matchPieces [] s = some s ↔ s = [] := by
  simp only [matchPieces, Option.some.injEq]
  exact eq_comm

theorem matchAlts_a_dot_b (l : List Char) :
    matchAlts [[Piece.one (Atom.lit 'a'), Piece.one Atom.anyCharNotNL, Piece.one (Atom.lit 'b')]] l
      = some l ↔ ∃ ch, ch ≠ '\n' ∧ l = ['a', ch, 'b'] := by
  rw [matchAlts_singleton]
  rcases l with _ | ⟨c1, _ | ⟨c2, _ | ⟨c3, l⟩⟩⟩
  · simp [matchPieces_one_nil]
  · simp [matchPieces_one_cons, matchPieces_one_nil]
  · simp [matchPieces_one_cons, matchPieces_one_nil]
  · simp only [matchPieces_one_cons, matchPieces_nil_iff, atomMatches, beq_iff_eq, bne_iff_ne,
      ne_eq, List.cons.injEq]
    constructor
    · rintro ⟨h1, h2, h3, h4⟩
      exact ⟨c2, h2, h1.symm, rfl, h3.symm, h4⟩
    · rintro ⟨ch, h2, h1, rfl, h3, h4⟩
      exact ⟨h1.symm, h2, h3.symm, h4⟩

theorem matchAlts_Foo (l : List Char) :
    matchAlts [[Piece.one (Atom.lit 'F'), Piece.one (Atom.lit 'o'), Piece.one (Atom.lit 'o')]] l
      = some l ↔ l = ['F', 'o', 'o'] := by
  rw [matchAlts_singleton]
  rcases l with _ | ⟨c1, _ | ⟨c2, _ | ⟨c3, l⟩⟩⟩
  · simp [matchPieces_one_nil]
  · simp [matchPieces_one_cons, matchPieces_one_nil]
  · simp [matchPieces_one_cons, matchPieces_one_nil]
  · simp only [matchPieces_one_cons, matchPieces_nil_iff, atomMatches, beq_iff_eq,
      List.cons.injEq]
    constructor
    · rintro ⟨h1, h2, h3, h4⟩
      exact ⟨h1.symm, h2.symm, h3.symm, h4⟩
    · rintro ⟨h1, h2, h3, h4⟩
      exact ⟨h1.symm, h2.symm, h3.symm, h4⟩

end GoRegexp
/-! ## Claims on the criteria engine -/

theorem matches_iff (L : RegexpLib) (c : criteria L) (ns t : String) :
    matches_ L c ns t = true ↔
      (∀ re, c.pkgExpr = some re → L.FindString re ns = ns) ∧
      (∀ re, c.typeExpr = some re → L.FindString re t = t) := by
  unfold matches_
  cases hp : c.pkgExpr <;> cases ht : c.typeExpr <;> simp

theorem matches_of_no_patterns (L : RegexpLib) (c : criteria L) (ns t : String)
    (hp : c.pkgExpr = none) (ht : c.typeExpr = none) : matches_ L c ns t = true := by
  rw [matches_iff]
  simp [hp, ht]

theorem compile_a_dot_b_Foo :
    compileCriteria goRegexp "a.b:Foo" =
      ({ text := "a.b:Foo"
         pkgExpr := some (⟨[[GoRegexp.Piece.one (GoRegexp.Atom.lit 'a'),
            GoRegexp.Piece.one GoRegexp.Atom.anyCharNotNL,
            GoRegexp.Piece.one (GoRegexp.Atom.lit 'b')]]⟩ : GoRegexp.Regexp)
         typeExpr := some (⟨[[GoRegexp.Piece.one (GoRegexp.Atom.lit 'F'),
            GoRegexp.Piece.one (GoRegexp.Atom.lit 'o'),
            GoRegexp.Piece.one (GoRegexp.Atom.lit 'o')]]⟩ : GoRegexp.Regexp) }, none) := by
  rfl

/-- C1: `include` returns true exactly when no exclusion criteria matches and
the namespace is a key of `prog.Imported` or some inclusion criteria matches;
a pair matched by an exclusion and an inclusion rule is rejected, and a type
of a root namespace matched by no rule is accepted. -/
theorem include_iff {L : RegexpLib} (G : Env L) (ns t : String) :
    (include_ G ns t = true ↔
      (∀ exc ∈ G.exclusions, matches_ L exc ns t = false) ∧
      (ns ∈ G.prog.Imported.map Prod.fst ∨
        ∃ inc ∈ G.inclusions, matches_ L inc ns t = true)) ∧
    ((∃ exc ∈ G.exclusions, matches_ L exc ns t = true) →
      (∃ inc ∈ G.inclusions, matches_ L inc ns t = true) → include_ G ns t = false) ∧
    (ns ∈ G.prog.Imported.map Prod.fst →
      (∀ exc ∈ G.exclusions, matches_ L exc ns t = false) →
      (∀ inc ∈ G.inclusions, matches_ L inc ns t = false) → include_ G ns t = true) := by
  have key := include_eq_true_iff G ns t
  refine ⟨key, ?_, ?_⟩
  · rintro ⟨e, he, hm⟩ _
    cases hi : include_ G ns t
    · rfl
    · rw [(key.mp hi).1 e he] at hm; cases hm
  · intro hr he _
    exact key.mpr ⟨he, Or.inl hr⟩

/-- C2 (the code at the failing input): the criteria compiled from `a|ab` has
a namespace pattern whose language contains `ab`, and no type-name pattern,
yet `matches` rejects namespace `ab`: the leftmost-first match found by
`FindString` is `a`.  In the other direction the criteria compiled from `a`
accepts the empty namespace, which the pattern does not match: `FindString`
reports "no match" by the empty string. -/
theorem matches_not_whole_string :
    ((compileCriteria goRegexp "a|ab").2.isNone = true ∧
      (compileCriteria goRegexp "a|ab").1.typeExpr.isNone = true ∧
      (compileCriteria goRegexp "a|ab").1.pkgExpr.map
        (fun re => GoRegexp.fullMatch re "ab") = some true ∧
      matches_ goRegexp (compileCriteria goRegexp "a|ab").1 "ab" "Order" = false) ∧
    ((compileCriteria goRegexp "a").2.isNone = true ∧
      (compileCriteria goRegexp "a").1.typeExpr.isNone = true ∧
      (compileCriteria goRegexp "a").1.pkgExpr.map
        (fun re => GoRegexp.fullMatch re "") = some false ∧
      matches_ goRegexp (compileCriteria goRegexp "a").1 "" "Order" = true) := by
  decide

/-- C3 (counterexample): the criteria compiled from `a.b:Foo` matches the
namespace `a/b`, which is not `a.b`. -/
theorem compile_a_dot_b_Foo_not_exact :
    ¬ (matches_ goRegexp (compileCriteria goRegexp "a.b:Foo").1 "a/b" "Foo" = true ↔
        ("a/b" = "a.b" ∧ "Foo" = "Foo")) := by
  decide

/-- C3 (amended): `a.b:Foo` compiles without error, and for non-empty `ns`
and `t` the criteria matches exactly when `ns` is `a`, one character other
than newline, `b`, and `t` is `Foo`.  It matches neither the namespace `a.bc`
nor the type name `Foobar`. -/
theorem compile_a_dot_b_Foo_matches (ns t : String) (hns : ns ≠ "") (ht : t ≠ "") :
    (compileCriteria goRegexp "a.b:Foo").2.isNone = true ∧
    (matches_ goRegexp (compileCriteria goRegexp "a.b:Foo").1 ns t = true ↔
      (∃ ch, ch ≠ '\n' ∧ ns = String.mk ['a', ch, 'b']) ∧ t = "Foo") ∧
    matches_ goRegexp (compileCriteria goRegexp "a.b:Foo").1 "a.bc" t = false ∧
    matches_ goRegexp (compileCriteria goRegexp "a.b:Foo").1 ns "Foobar" = false := by
  refine ⟨rfl, ?_, ?_, ?_⟩
  · rw [compile_a_dot_b_Foo, matches_iff]
    simp only [Option.some.injEq, forall_eq']
    show GoRegexp.FindString _ ns = ns ∧ GoRegexp.FindString _ t = t ↔ _
    rw [GoRegexp.FindString_eq_self_iff _ _ hns, GoRegexp.FindString_eq_self_iff _ _ ht,
      GoRegexp.matchAlts_a_dot_b, GoRegexp.matchAlts_Foo]
    constructor
    · rintro ⟨⟨ch, h1, h2⟩, h3⟩
      exact ⟨⟨ch, h1, String.ext h2⟩, String.ext h3⟩
    · rintro ⟨⟨ch, h1, h2⟩, h3⟩
      exact ⟨⟨ch, h1, by rw [h2]⟩, by rw [h3]⟩
  · cases h : matches_ goRegexp (compileCriteria goRegexp "a.b:Foo").1 "a.bc" t
    · rfl
    · rw [compile_a_dot_b_Foo, matches_iff] at h
      have h1 := h.1 _ rfl
      revert h1
      decide
  · cases h : matches_ goRegexp (compileCriteria goRegexp "a.b:Foo").1 ns "Foobar"
    · rfl
    · rw [compile_a_dot_b_Foo, matches_iff] at h
      have h1 := h.2 _ rfl
      revert h1
      decide

/-- C3 (witness): the amended statement at namespace `a/b` and type name
`Foo`. -/
theorem compile_a_dot_b_Foo_matches_witness :
    (compileCriteria goRegexp "a.b:Foo").2.isNone = true ∧
    (matches_ goRegexp (compileCriteria goRegexp "a.b:Foo").1 "a/b" "Foo" = true ↔
      (∃ ch, ch ≠ '\n' ∧ "a/b" = String.mk ['a', ch, 'b']) ∧ "Foo" = "Foo") ∧
    matches_ goRegexp (compileCriteria goRegexp "a.b:Foo").1 "a.bc" "Foo" = false ∧
    matches_ goRegexp (compileCriteria goRegexp "a.b:Foo").1 "a/b" "Foobar" = false :=
  compile_a_dot_b_Foo_matches "a/b" "Foo" (by decide) (by decide)

/-- C4: `compileCriteria` splits the pattern at its last `:`; on success the
namespace pattern is the compiled first half and the type-name pattern the
compiled second half, an empty half giving an absent pattern, and every
pattern whose halves compile succeeds so.  For a pattern without `:` the
result of `matches` does not depend on the type name, `a.b` matches every
type name in namespace `a.b`, and the criteria of the empty pattern and of
`:` match everything. -/
theorem compileCriteria_split (L : RegexpLib) (s : String) :
    (∃ pkg typ, IsSplit s pkg typ ∧
      ∀ c, compileCriteria L s = (c, none) ↔
        c.text = s ∧ HalfPattern L pkg c.pkgExpr ∧ HalfPattern L typ c.typeExpr) ∧
    (':' ∉ s.data → (compileCriteria L s).1.typeExpr = none ∧
      ∀ ns t1 t2, matches_ L (compileCriteria L s).1 ns t1 =
        matches_ L (compileCriteria L s).1 ns t2) ∧
    (∀ t, matches_ goRegexp (compileCriteria goRegexp "a.b").1 "a.b" t = true) ∧
    (∀ ns t, matches_ L (compileCriteria L "").1 ns t = true ∧
      matches_ L (compileCriteria L ":").1 ns t = true) := by
  refine ⟨?_, ?_, ?_, ?_⟩
  · obtain ⟨pkg, typ, h⟩ := exists_isSplit s
    refine ⟨pkg, typ, h, fun c => ?_⟩
    rw [compileCriteria_of_isSplit L s pkg typ h]
    exact compileHalves_ok_iff L s pkg typ c
  · intro h
    have hs : IsSplit s s "" := Or.inl ⟨h, rfl, rfl⟩
    have ht : (compileCriteria L s).1.typeExpr = none := by
      rw [compileCriteria_of_isSplit L s s "" hs]
      exact compileHalves_typeExpr_empty L s s
    refine ⟨ht, fun ns t1 t2 => ?_⟩
    unfold matches_
    rw [ht]
  · intro t
    rw [matches_iff]
    constructor
    · intro re hre
      have : re = (⟨[[GoRegexp.Piece.one (GoRegexp.Atom.lit 'a'),
            GoRegexp.Piece.one GoRegexp.Atom.anyCharNotNL,
            GoRegexp.Piece.one (GoRegexp.Atom.lit 'b')]]⟩ : GoRegexp.Regexp) :=
        (Option.some.inj hre).symm
      subst this
      decide
    · intro re hre
      cases hre
  · intro ns t
    exact ⟨matches_of_no_patterns L _ ns t rfl rfl, matches_of_no_patterns L _ ns t rfl rfl⟩

/-- C5: with the halves of the pattern split at its last `:`,
`compileCriteria` returns an error exactly when a non-empty half fails to
compile; otherwise it returns no error, and the text of the criteria is the
pattern. -/
theorem compileCriteria_error_iff (L : RegexpLib) (s : String) :
    ∃ pkg typ, IsSplit s pkg typ ∧
      ((compileCriteria L s).2.isSome = true ↔ HalfFails L pkg ∨ HalfFails L typ) ∧
      (¬ HalfFails L pkg → ¬ HalfFails L typ →
        (compileCriteria L s).2 = none ∧ (compileCriteria L s).1.text = s) ∧
      (compileCriteria L s).1.text = s := by
  obtain ⟨pkg, typ, h⟩ := exists_isSplit s
  refine ⟨pkg, typ, h, ?_⟩
  rw [compileCriteria_of_isSplit L s pkg typ h]
  have he := compileHalves_error_iff L s pkg typ
  refine ⟨he, ?_, compileHalves_text L s pkg typ⟩
  intro h1 h2
  refine ⟨?_, compileHalves_text L s pkg typ⟩
  cases hr : (compileHalves L s pkg typ).2 with
  | none => rfl
  | some e =>
    rw [hr] at he
    rcases he.mp rfl with h | h
    · exact absurd h h1
    · exact absurd h h2
/-! ## Claims on the start of `main` -/

/-- C6 (the code at the failing input): `*` fails to compile, `addInclusion`
returns the error, and the run of `main` with `--include '*'` on root `pkg1`
goes on to discovery, creates the Entity `pkg1.Shipment` and ends with exit
code 0. -/
theorem main_ignores_pattern_error :
    (compileCriteria goRegexp "*").2.isSome = true ∧
    (addInclusion goRegexp [] "*").2.isSome = true ∧
    (main goRegexp (Example.hostOf Example.shipping) 3
        { include_ := ["*"], exclude := [], includeOrphans := false, args := ["pkg1"] }).toOption.map
      (fun run => (run.exitCode, keys run.structs)) = some (0, ["pkg1.Shipment"]) := by
  decide
/-! ## Discovery: what every step preserves -/

theorem followNames_rel {L : RegexpLib} (G : Env L) (R : State → State → Prop)
    (hrefl : ∀ s, R s s) (htrans : ∀ a b c, R a b → R b c → R a c)
    (call : Nat → String → String → Underlying → State → Except Fault State)
    (hcall : ∀ d p n u s s1, call d p n u s = .ok s1 → R s s1)
    (depth : Nat) (names : List Named) (s s1 : State)
    (h : followNames G call depth names s = .ok s1) : R s s1 := by
  induction names generalizing s with
  | nil =>
    simp only [followNames, Except.ok.injEq] at h
    subst h
    exact hrefl s
  | cons n rest ih =>
    simp only [followNames] at h
    cases hp : n.pkg with
    | none =>
      rw [hp] at h
      exact ih s h
    | some p =>
      rw [hp] at h
      simp only at h
      cases hc : call depth p n.name (G.prog.Underlying n) s with
      | error e => rw [hc] at h; cases h
      | ok s2 =>
        rw [hc] at h
        exact htrans _ _ _ (hcall _ _ _ _ _ _ hc) (ih s2 h)

theorem followFields_rel {L : RegexpLib} (G : Env L) (R : State → State → Prop)
    (hrefl : ∀ s, R s s) (htrans : ∀ a b c, R a b → R b c → R a c)
    (call : Nat → String → String → Underlying → State → Except Fault State)
    (hcall : ∀ d p n u s s1, call d p n u s = .ok s1 → R s s1)
    (depth : Nat) (fields : List Var) (s s1 : State)
    (h : followFields G call depth fields s = .ok s1) : R s s1 := by
  induction fields generalizing s with
  | nil =>
    simp only [followFields, Except.ok.injEq] at h
    subst h
    exact hrefl s
  | cons f rest ih =>
    simp only [followFields] at h
    cases hc : followNames G call depth (findNamedTypes f.type) s with
    | error e => rw [hc] at h; cases h
    | ok s2 =>
      rw [hc] at h
      exact htrans _ _ _ (followNames_rel G R hrefl htrans call hcall _ _ _ _ hc) (ih s2 h)

/-- The shape of a successful call of `addStruct`: nothing changes, or an
interface is stored, or a struct is stored and its fields are followed. -/
theorem addStruct_cases {L : RegexpLib} (G : Env L) (fuel depth : Nat) (pkg typName : String)
    (u : Underlying) (s s1 : State) (h : addStruct G fuel depth pkg typName u s = .ok s1) :
    s1 = s ∨
    ((s.structs.lookup (pkg ++ "." ++ typName)).isSome = false ∧
      include_ G pkg typName = true ∧
      ((∃ methods, u = Underlying.interface methods ∧
          s1 = storeIface G depth pkg typName methods s) ∨
       (∃ fields fuel1, u = Underlying.struct fields ∧ fuel = fuel1 + 1 ∧
          followFields G (addStruct G fuel1) (depth + 1) fields
            (storeStruct G depth pkg typName fields s) = .ok s1))) := by
  cases fuel with
  | zero => simp [addStruct] at h
  | succ fuel1 =>
    unfold addStruct at h
    simp only at h
    split at h
    · left; exact (Except.ok.inj h).symm
    · rename_i h1
      split at h
      · left; exact (Except.ok.inj h).symm
      · rename_i h2
        have h1a : (s.structs.lookup (pkg ++ "." ++ typName)).isSome = false :=
          Bool.eq_false_iff.2 h1
        have h2a : include_ G pkg typName = true := by simpa using h2
        cases u with
        | struct fields =>
          right
          exact ⟨h1a, h2a, Or.inr ⟨fields, fuel1, rfl, rfl, h⟩⟩
        | interface methods =>
          right
          exact ⟨h1a, h2a, Or.inl ⟨methods, rfl, (Except.ok.inj h).symm⟩⟩
        | other =>
          left
          exact (Except.ok.inj h).symm

theorem addStruct_rel {L : RegexpLib} (G : Env L) (R : State → State → Prop)
    (hrefl : ∀ s, R s s) (htrans : ∀ a b c, R a b → R b c → R a c)
    (hstruct : ∀ s depth pkg typName fields,
      (s.structs.lookup (pkg ++ "." ++ typName)).isSome = false →
      include_ G pkg typName = true → R s (storeStruct G depth pkg typName fields s))
    (hiface : ∀ s depth pkg typName methods,
      (s.structs.lookup (pkg ++ "." ++ typName)).isSome = false →
      include_ G pkg typName = true → R s (storeIface G depth pkg typName methods s))
    (fuel depth : Nat) (pkg typName : String) (u : Underlying) (s s1 : State)
    (h : addStruct G fuel depth pkg typName u s = .ok s1) : R s s1 := by
  induction fuel generalizing depth pkg typName u s s1 with
  | zero => simp [addStruct] at h
  | succ fuel1 ih =>
    rcases addStruct_cases G _ depth pkg typName u s s1 h with rfl | ⟨h1, h2, h3⟩
    · exact hrefl _
    · rcases h3 with ⟨methods, _, rfl⟩ | ⟨fields, fuel2, _, hf, hrun⟩
      · exact hiface s depth pkg typName methods h1 h2
      · have hf2 : fuel2 = fuel1 := by omega
        subst hf2
        exact htrans _ _ _ (hstruct s depth pkg typName fields h1 h2)
          (followFields_rel G R hrefl htrans _ (fun d p n u s s1 hc => ih d p n u s s1 hc)
            _ _ _ _ hrun)

theorem follow_rel {L : RegexpLib} (G : Env L) (R : State → State → Prop)
    (hrefl : ∀ s, R s s) (htrans : ∀ a b c, R a b → R b c → R a c)
    (hstruct : ∀ s depth pkg typName fields,
      (s.structs.lookup (pkg ++ "." ++ typName)).isSome = false →
      include_ G pkg typName = true → R s (storeStruct G depth pkg typName fields s))
    (hiface : ∀ s depth pkg typName methods,
      (s.structs.lookup (pkg ++ "." ++ typName)).isSome = false →
      include_ G pkg typName = true → R s (storeIface G depth pkg typName methods s))
    (hlog : ∀ (s : State) k, R s { s with followed := k :: s.followed })
    (fuel depth : Nat) (sourcePkg typName : String) (str : List Var) (s s1 : State)
    (h : follow G fuel depth sourcePkg typName str s = .ok s1) : R s s1 := by
  unfold follow followWith at h
  exact htrans _ _ _ (hlog s _)
    (followFields_rel G R hrefl htrans _
      (fun d p n u s s1 hc => addStruct_rel G R hrefl htrans hstruct hiface fuel d p n u s s1 hc)
      _ _ _ _ h)

theorem findStructsLoop_rel {L : RegexpLib} (G : Env L) (R : State → State → Prop)
    (hrefl : ∀ s, R s s) (htrans : ∀ a b c, R a b → R b c → R a c)
    (hstruct : ∀ s depth pkg typName fields,
      (s.structs.lookup (pkg ++ "." ++ typName)).isSome = false →
      include_ G pkg typName = true → R s (storeStruct G depth pkg typName fields s))
    (hiface : ∀ s depth pkg typName methods,
      (s.structs.lookup (pkg ++ "." ++ typName)).isSome = false →
      include_ G pkg typName = true → R s (storeIface G depth pkg typName methods s))
    (fuel : Nat) (pkg : String) (defs : List Object) (s s1 : State)
    (h : findStructsLoop G fuel pkg defs s = .ok s1) : R s s1 := by
  induction defs generalizing s with
  | nil =>
    simp only [findStructsLoop, Except.ok.injEq] at h
    subst h
    exact hrefl s
  | cons d rest ih =>
    cases d with
    | other =>
      simp only [findStructsLoop] at h
      exact ih s h
    | typeName name atScope type =>
      simp only [findStructsLoop] at h
      split at h
      · exact ih s h
      · cases type with
        | named n =>
          simp only at h
          cases hc : addStruct G fuel 0 pkg name (G.prog.Underlying n) s with
          | error e => rw [hc] at h; cases h
          | ok s2 =>
            rw [hc] at h
            exact htrans _ _ _ (addStruct_rel G R hrefl htrans hstruct hiface _ _ _ _ _ _ _ hc)
              (ih s2 h)
        | _ => cases h

theorem discover_rel {L : RegexpLib} (G : Env L) (R : State → State → Prop)
    (hrefl : ∀ s, R s s) (htrans : ∀ a b c, R a b → R b c → R a c)
    (hstruct : ∀ s depth pkg typName fields,
      (s.structs.lookup (pkg ++ "." ++ typName)).isSome = false →
      include_ G pkg typName = true → R s (storeStruct G depth pkg typName fields s))
    (hiface : ∀ s depth pkg typName methods,
      (s.structs.lookup (pkg ++ "." ++ typName)).isSome = false →
      include_ G pkg typName = true → R s (storeIface G depth pkg typName methods s))
    (fuel : Nat) (pkgs : List (String × PackageInfo)) (s s1 : State)
    (h : discover G fuel pkgs s = .ok s1) : R s s1 := by
  induction pkgs generalizing s with
  | nil =>
    simp only [discover, Except.ok.injEq] at h
    subst h
    exact hrefl s
  | cons p rest ih =>
    obtain ⟨k, pkg⟩ := p
    simp only [discover] at h
    cases hc : findStructs G fuel pkg s with
    | error e => rw [hc] at h; cases h
    | ok s2 =>
      rw [hc] at h
      exact htrans _ _ _
        (findStructsLoop_rel G R hrefl htrans hstruct hiface _ _ _ _ _ hc) (ih s2 h)

theorem runCalls_rel {L : RegexpLib} (G : Env L) (R : State → State → Prop)
    (hrefl : ∀ s, R s s) (htrans : ∀ a b c, R a b → R b c → R a c)
    (hstruct : ∀ s depth pkg typName fields,
      (s.structs.lookup (pkg ++ "." ++ typName)).isSome = false →
      include_ G pkg typName = true → R s (storeStruct G depth pkg typName fields s))
    (hiface : ∀ s depth pkg typName methods,
      (s.structs.lookup (pkg ++ "." ++ typName)).isSome = false →
      include_ G pkg typName = true → R s (storeIface G depth pkg typName methods s))
    (hlog : ∀ (s : State) k, R s { s with followed := k :: s.followed })
    (fuel : Nat) (calls : List Call) (s s1 : State)
    (h : runCalls G fuel calls s = .ok s1) : R s s1 := by
  induction calls generalizing s with
  | nil =>
    simp only [runCalls, Except.ok.injEq] at h
    subst h
    exact hrefl s
  | cons c rest ih =>
    simp only [runCalls] at h
    cases hc : runCall G fuel c s with
    | error e => rw [hc] at h; cases h
    | ok s2 =>
      rw [hc] at h
      refine htrans _ _ _ ?_ (ih s2 h)
      cases c with
      | findStructs pkg =>
        exact findStructsLoop_rel G R hrefl htrans hstruct hiface _ _ _ _ _ hc
      | addStruct depth pkg typName u =>
        exact addStruct_rel G R hrefl htrans hstruct hiface _ _ _ _ _ _ _ hc
      | follow depth sourcePkg typName str =>
        exact follow_rel G R hrefl htrans hstruct hiface hlog _ _ _ _ _ _ _ hc

/-! ## The map -/

theorem lookup_mapSet (m : List (String × structType)) (k : String) (v : structType)
    (k1 : String) :
    (mapSet m k v).lookup k1 = if k1 = k then some v else m.lookup k1 := by
  unfold mapSet
  by_cases h : k1 = k
  · subst h; simp [List.lookup]
  · have hb : (k1 == k) = false := by simpa using h
    simp only [List.lookup, hb, h, if_false]
    induction m with
    | nil => rfl
    | cons e m ih =>
      obtain ⟨k2, v2⟩ := e
      by_cases h2 : k2 = k
      · subst h2
        simp [List.filter, List.lookup, hb, ih]
      · have hb2 : (k2 != k) = true := by simpa using h2
        simp only [List.filter, hb2, List.lookup]
        cases hk : (k1 == k2)
        · exact ih
        · rfl

theorem mem_mapSet (m : List (String × structType)) (k : String) (v : structType)
    (e : String × structType) (h : e ∈ mapSet m k v) : e = (k, v) ∨ e ∈ m := by
  unfold mapSet at h
  rcases List.mem_cons.mp h with h | h
  · exact Or.inl h
  · exact Or.inr (List.mem_of_mem_filter h)

theorem mem_keys_iff (m : List (String × structType)) (k : String) :
    k ∈ keys m ↔ (m.lookup k).isSome = true := by
  rw [lookup_isSome_iff]
  rfl

theorem mem_keys_mapSet (m : List (String × structType)) (k : String) (v : structType)
    (k1 : String) : k1 ∈ keys (mapSet m k v) ↔ k1 = k ∨ k1 ∈ keys m := by
  rw [mem_keys_iff, mem_keys_iff, lookup_mapSet]
  by_cases h : k1 = k <;> simp [h]

theorem extends_refl (m : List (String × structType)) : Extends m m := fun _ _ h => h

theorem extends_trans (a b c : List (String × structType)) (h1 : Extends a b)
    (h2 : Extends b c) : Extends a c := fun k v h => h2 k v (h1 k v h)

theorem extends_mapSet (m : List (String × structType)) (k : String) (v : structType)
    (h : (m.lookup k).isSome = false) : Extends m (mapSet m k v) := by
  intro k1 v1 h1
  rw [lookup_mapSet]
  by_cases hk : k1 = k
  · subst hk
    rw [h1] at h
    cases h
  · simp [hk, h1]

theorem extends_keys (m m1 : List (String × structType)) (h : Extends m m1) (k : String)
    (hk : k ∈ keys m) : k ∈ keys m1 := by
  rw [mem_keys_iff] at hk ⊢
  cases hl : m.lookup k with
  | none => rw [hl] at hk; cases hk
  | some v => rw [h k v hl]; rfl
/-! ## Entities are only added, and only accepted ones -/

theorem storeStruct_extends {L : RegexpLib} (G : Env L) (s : State) (depth : Nat)
    (pkg typName : String) (fields : List Var)
    (h : (s.structs.lookup (pkg ++ "." ++ typName)).isSome = false) :
    Extends s.structs (storeStruct G depth pkg typName fields s).structs :=
  extends_mapSet _ _ _ h

theorem storeIface_extends {L : RegexpLib} (G : Env L) (s : State) (depth : Nat)
    (pkg typName : String) (methods : List Func)
    (h : (s.structs.lookup (pkg ++ "." ++ typName)).isSome = false) :
    Extends s.structs (storeIface G depth pkg typName methods s).structs :=
  extends_mapSet _ _ _ h

theorem addStruct_extends {L : RegexpLib} (G : Env L) (fuel depth : Nat) (pkg typName : String)
    (u : Underlying) (s s1 : State) (h : addStruct G fuel depth pkg typName u s = .ok s1) :
    Extends s.structs s1.structs :=
  addStruct_rel G (fun a b => Extends a.structs b.structs) (fun _ => extends_refl _)
    (fun _ _ _ => extends_trans _ _ _)
    (fun s d p n f h _ => storeStruct_extends G s d p n f h)
    (fun s d p n f h _ => storeIface_extends G s d p n f h) fuel depth pkg typName u s s1 h

theorem allIncluded_mapSet {L : RegexpLib} (G : Env L) (m : List (String × structType))
    (v : structType) (hm : AllIncluded G m) (hv : include_ G v.pkg v.Name = true) :
    AllIncluded G (mapSet m (v.pkg ++ "." ++ v.Name) v) := by
  intro e he
  rcases mem_mapSet _ _ _ _ he with rfl | he
  · exact ⟨hv, rfl⟩
  · exact hm e he

theorem runCalls_allIncluded {L : RegexpLib} (G : Env L) (fuel : Nat) (calls : List Call)
    (s s1 : State) (h : runCalls G fuel calls s = .ok s1) (hs : AllIncluded G s.structs) :
    AllIncluded G s1.structs :=
  runCalls_rel G (fun a b => AllIncluded G a.structs → AllIncluded G b.structs)
    (fun _ h => h) (fun _ _ _ h1 h2 h => h2 (h1 h))
    (fun s d p n f _ hi hm => allIncluded_mapSet G s.structs (structEntity G d p n f) hm hi)
    (fun s d p n f _ hi hm => allIncluded_mapSet G s.structs (ifaceEntity G d p n f) hm hi)
    (fun _ _ h => h) fuel calls s s1 h hs
/-! ## Termination of the recursion through `follow` -/

theorem countP_lt_of_imp {α : Type} (p q : α → Bool) (l : List α)
    (himp : ∀ x ∈ l, p x = true → q x = true)
    (hex : ∃ x ∈ l, q x = true ∧ p x = false) : l.countP p < l.countP q := by
  induction l with
  | nil =>
    obtain ⟨x, hx, _⟩ := hex
    cases hx
  | cons a t ih =>
    have hle : t.countP p ≤ t.countP q :=
      List.countP_mono_left (fun x hx hp => himp x (List.mem_cons_of_mem _ hx) hp)
    obtain ⟨x, hx, hq, hp⟩ := hex
    rcases List.mem_cons.mp hx with rfl | hxt
    · rw [List.countP_cons_of_pos _ _ hq, List.countP_cons_of_neg _ _ (by simp [hp])]
      omega
    · have hlt := ih (fun y hy hp => himp y (List.mem_cons_of_mem _ hy) hp) ⟨x, hxt, hq, hp⟩
      cases hpa : p a
      · rw [List.countP_cons_of_neg _ _ (by simp [hpa])]
        cases hqa : q a
        · rw [List.countP_cons_of_neg _ _ (by simp [hqa])]
          exact hlt
        · rw [List.countP_cons_of_pos _ _ hqa]
          omega
      · rw [List.countP_cons_of_pos _ _ hpa,
          List.countP_cons_of_pos _ _ (himp a (List.mem_cons_self _ _) hpa)]
        omega

theorem pending_le_length {L : RegexpLib} (G : Env L) (s : State) :
    pending G s ≤ G.prog.types.length :=
  List.countP_le_length _

theorem pending_mono {L : RegexpLib} (G : Env L) (s s1 : State)
    (h : ∀ k ∈ keys s.structs, k ∈ keys s1.structs) : pending G s1 ≤ pending G s := by
  unfold pending
  apply List.countP_mono_left
  intro d _ hd
  simp only [decide_eq_true_eq] at hd ⊢
  exact fun hk => hd (h _ hk)

theorem pending_lt {L : RegexpLib} (G : Env L) (s s1 : State)
    (h : ∀ k ∈ keys s.structs, k ∈ keys s1.structs) (d : TypeDecl) (hd : d ∈ G.prog.types)
    (h0 : declKey d ∉ keys s.structs) (h1 : declKey d ∈ keys s1.structs) :
    pending G s1 < pending G s := by
  unfold pending
  apply countP_lt_of_imp
  · intro x _ hx
    simp only [decide_eq_true_eq] at hx ⊢
    exact fun hk => hx (h _ hk)
  · refine ⟨d, hd, ?_, ?_⟩
    · simpa using h0
    · simpa using h1

theorem addStruct_succ {L : RegexpLib} (G : Env L) (fuel depth : Nat) (pkg typName : String)
    (u : Underlying) (s : State) :
    addStruct G (fuel + 1) depth pkg typName u s =
      if (s.structs.lookup (pkg ++ "." ++ typName)).isSome then .ok s
      else if !include_ G pkg typName then .ok s
      else
        match u with
        | Underlying.struct fields =>
          followFields G (addStruct G fuel) (depth + 1) fields
            (storeStruct G depth pkg typName fields s)
        | Underlying.interface methods => .ok (storeIface G depth pkg typName methods s)
        | Underlying.other => .ok s := by
  cases u <;> rfl

theorem underlying_decl (prog : Program) (n : Named) (h : prog.Underlying n ≠ Underlying.other) :
    ∃ d ∈ prog.types, d.named = n := by
  unfold Program.Underlying at h
  cases hf : prog.types.find? (fun d => d.named = n) with
  | none => rw [hf] at h; exact absurd rfl h
  | some d =>
    refine ⟨d, List.mem_of_find?_eq_some hf, ?_⟩
    have := List.find?_some hf
    simpa using this

theorem storeStruct_keys {L : RegexpLib} (G : Env L) (s : State) (depth : Nat)
    (pkg typName : String) (fields : List Var) (k : String) :
    k ∈ keys (storeStruct G depth pkg typName fields s).structs ↔
      k = pkg ++ "." ++ typName ∨ k ∈ keys s.structs :=
  mem_keys_mapSet _ _ _ _

theorem storeIface_keys {L : RegexpLib} (G : Env L) (s : State) (depth : Nat)
    (pkg typName : String) (methods : List Func) (k : String) :
    k ∈ keys (storeIface G depth pkg typName methods s).structs ↔
      k = pkg ++ "." ++ typName ∨ k ∈ keys s.structs :=
  mem_keys_mapSet _ _ _ _

theorem addStruct_pending_le {L : RegexpLib} (G : Env L) (fuel depth : Nat)
    (pkg typName : String) (u : Underlying) (s s1 : State)
    (h : addStruct G fuel depth pkg typName u s = .ok s1) : pending G s1 ≤ pending G s :=
  pending_mono G s s1 (extends_keys _ _ (addStruct_extends G fuel depth pkg typName u s s1 h))

theorem followNames_total {L : RegexpLib} (G : Env L)
    (call : Nat → String → String → Underlying → State → Except Fault State) (bound : Nat)
    (hcall : ∀ d (n : Named) p s, n.pkg = some p → pending G s < bound →
      ∃ s1, call d p n.name (G.prog.Underlying n) s = .ok s1 ∧ pending G s1 ≤ pending G s)
    (depth : Nat) (names : List Named) (s : State) (hs : pending G s < bound) :
    ∃ s1, followNames G call depth names s = .ok s1 ∧ pending G s1 ≤ pending G s := by
  induction names generalizing s with
  | nil => exact ⟨s, rfl, le_refl _⟩
  | cons n rest ih =>
    simp only [followNames]
    cases hp : n.pkg with
    | none => exact ih s hs
    | some p =>
      obtain ⟨s2, hc, hle⟩ := hcall depth n p s hp hs
      simp only [hc]
      obtain ⟨s3, hr, hle3⟩ := ih s2 (by omega)
      exact ⟨s3, hr, by omega⟩

theorem followFields_total {L : RegexpLib} (G : Env L)
    (call : Nat → String → String → Underlying → State → Except Fault State) (bound : Nat)
    (hcall : ∀ d (n : Named) p s, n.pkg = some p → pending G s < bound →
      ∃ s1, call d p n.name (G.prog.Underlying n) s = .ok s1 ∧ pending G s1 ≤ pending G s)
    (depth : Nat) (fields : List Var) (s : State) (hs : pending G s < bound) :
    ∃ s1, followFields G call depth fields s = .ok s1 ∧ pending G s1 ≤ pending G s := by
  induction fields generalizing s with
  | nil => exact ⟨s, rfl, le_refl _⟩
  | cons f rest ih =>
    simp only [followFields]
    obtain ⟨s2, hc, hle⟩ := followNames_total G call bound hcall depth (findNamedTypes f.type) s hs
    simp only [hc]
    obtain ⟨s3, hr, hle3⟩ := ih s2 (by omega)
    exact ⟨s3, hr, by omega⟩

/-- A call made by `follow` (a named type of the program with its own
underlying type) returns when the budget exceeds the number of declared
types not yet in the map. -/
theorem addStruct_total_named {L : RegexpLib} (G : Env L) (fuel depth : Nat) (n : Named)
    (p : String) (s : State) (hp : n.pkg = some p) (hs : pending G s < fuel) :
    ∃ s1, addStruct G fuel depth p n.name (G.prog.Underlying n) s = .ok s1 ∧
      pending G s1 ≤ pending G s := by
  induction fuel generalizing depth n p s with
  | zero => omega
  | succ fuel ih =>
    have key : ∃ s1, addStruct G (fuel + 1) depth p n.name (G.prog.Underlying n) s = .ok s1 := by
      rw [addStruct_succ]
      by_cases h1 : (s.structs.lookup (p ++ "." ++ n.name)).isSome = true
      · simp only [h1, if_true]; exact ⟨s, rfl⟩
      · simp only [h1, if_false]
        by_cases h2 : (!include_ G p n.name) = true
        · simp only [h2, if_true]; exact ⟨s, rfl⟩
        · simp only [h2, if_false]
          cases hu : G.prog.Underlying n with
          | other => exact ⟨s, rfl⟩
          | interface methods => exact ⟨_, rfl⟩
          | struct fields =>
            simp only
            obtain ⟨d, hd, hdn⟩ := underlying_decl G.prog n (by rw [hu]; simp)
            have hkey : declKey d = p ++ "." ++ n.name := by
              simp [declKey, hdn, hp]
            have hlt : pending G (storeStruct G depth p n.name fields s) < pending G s := by
              apply pending_lt G _ _ _ d hd
              · rw [hkey, mem_keys_iff]; exact h1
              · rw [hkey, storeStruct_keys]; exact Or.inl rfl
              · intro k hk
                rw [storeStruct_keys]; exact Or.inr hk
            obtain ⟨s1, hr, _⟩ := followFields_total G (addStruct G fuel) fuel
              (fun d n p s hp hs => ih d n p s hp hs) (depth + 1) fields
              (storeStruct G depth p n.name fields s) (by omega)
            exact ⟨s1, hr⟩
    obtain ⟨s1, h⟩ := key
    exact ⟨s1, h, addStruct_pending_le G _ _ _ _ _ _ _ h⟩

/-- Every call of `addStruct` returns with the budget `fuelBound`. -/
theorem addStruct_total {L : RegexpLib} (G : Env L) (depth : Nat) (pkg typName : String)
    (u : Underlying) (s : State) :
    ∃ s1, addStruct G (fuelBound G) depth pkg typName u s = .ok s1 := by
  unfold fuelBound
  rw [addStruct_succ]
  by_cases h1 : (s.structs.lookup (pkg ++ "." ++ typName)).isSome = true
  · simp only [h1, if_true]; exact ⟨s, rfl⟩
  · simp only [h1, if_false]
    by_cases h2 : (!include_ G pkg typName) = true
    · simp only [h2, if_true]; exact ⟨s, rfl⟩
    · simp only [h2, if_false]
      cases u with
      | other => exact ⟨s, rfl⟩
      | interface methods => exact ⟨_, rfl⟩
      | struct fields =>
        simp only
        obtain ⟨s1, hr, _⟩ := followFields_total G (addStruct G (G.prog.types.length + 1))
          (G.prog.types.length + 1)
          (fun d n p s hp hs => addStruct_total_named G _ d n p s hp hs) (depth + 1) fields
          (storeStruct G depth pkg typName fields s)
          (Nat.lt_succ_of_le (pending_le_length G _))
        exact ⟨s1, hr⟩

theorem followNames_call_mono {L : RegexpLib} (G : Env L)
    (call call1 : Nat → String → String → Underlying → State → Except Fault State)
    (hc : ∀ d p n u s s1, call d p n u s = .ok s1 → call1 d p n u s = .ok s1)
    (depth : Nat) (names : List Named) (s s1 : State)
    (h : followNames G call depth names s = .ok s1) :
    followNames G call1 depth names s = .ok s1 := by
  induction names generalizing s with
  | nil => exact h
  | cons n rest ih =>
    simp only [followNames] at h ⊢
    cases hp : n.pkg with
    | none => rw [hp] at h; exact ih s h
    | some p =>
      rw [hp] at h
      simp only at h ⊢
      cases hr : call depth p n.name (G.prog.Underlying n) s with
      | error e => rw [hr] at h; cases h
      | ok s2 =>
        rw [hr] at h
        rw [hc _ _ _ _ _ _ hr]
        exact ih s2 h

theorem followFields_call_mono {L : RegexpLib} (G : Env L)
    (call call1 : Nat → String → String → Underlying → State → Except Fault State)
    (hc : ∀ d p n u s s1, call d p n u s = .ok s1 → call1 d p n u s = .ok s1)
    (depth : Nat) (fields : List Var) (s s1 : State)
    (h : followFields G call depth fields s = .ok s1) :
    followFields G call1 depth fields s = .ok s1 := by
  induction fields generalizing s with
  | nil => exact h
  | cons f rest ih =>
    simp only [followFields] at h ⊢
    cases hr : followNames G call depth (findNamedTypes f.type) s with
    | error e => rw [hr] at h; cases h
    | ok s2 =>
      rw [hr] at h
      rw [followNames_call_mono G call call1 hc _ _ _ _ hr]
      exact ih s2 h

/-- A result obtained with some budget is the result with every larger one. -/
theorem addStruct_fuel_mono {L : RegexpLib} (G : Env L) (fuel fuel1 depth : Nat)
    (pkg typName : String) (u : Underlying) (s s1 : State) (hle : fuel ≤ fuel1)
    (h : addStruct G fuel depth pkg typName u s = .ok s1) :
    addStruct G fuel1 depth pkg typName u s = .ok s1 := by
  induction fuel generalizing fuel1 depth pkg typName u s s1 with
  | zero => simp [addStruct] at h
  | succ fuel ih =>
    obtain ⟨f1, rfl⟩ : ∃ f1, fuel1 = f1 + 1 := ⟨fuel1 - 1, by omega⟩
    rw [addStruct_succ] at h ⊢
    by_cases h1 : (s.structs.lookup (pkg ++ "." ++ typName)).isSome = true
    · simp only [h1, if_true] at h ⊢; exact h
    · simp only [h1, if_false] at h ⊢
      by_cases h2 : (!include_ G pkg typName) = true
      · simp only [h2, if_true] at h ⊢; exact h
      · simp only [h2, if_false] at h ⊢
        cases u with
        | other => exact h
        | interface methods => exact h
        | struct fields =>
          simp only at h ⊢
          exact followFields_call_mono G _ _
            (fun d p n u s s1 hc => ih f1 d p n u s s1 (by omega) hc) _ _ _ _ h

theorem storeStruct_logOK {L : RegexpLib} (G : Env L) (s : State) (depth : Nat)
    (pkg typName : String) (fields : List Var)
    (h : (s.structs.lookup (pkg ++ "." ++ typName)).isSome = false) (hs : LogOK s) :
    LogOK (storeStruct G depth pkg typName fields s) := by
  obtain ⟨hn, hk⟩ := hs
  constructor
  · show (_ :: s.followed).Nodup
    refine List.nodup_cons.mpr ⟨fun hmem => ?_, hn⟩
    have := (mem_keys_iff _ _).mp (hk _ hmem)
    rw [h] at this
    cases this
  · intro k hmem
    rw [storeStruct_keys]
    rcases List.mem_cons.mp hmem with rfl | hmem
    · exact Or.inl rfl
    · exact Or.inr (hk k hmem)

theorem storeIface_logOK {L : RegexpLib} (G : Env L) (s : State) (depth : Nat)
    (pkg typName : String) (methods : List Func) (hs : LogOK s) :
    LogOK (storeIface G depth pkg typName methods s) := by
  obtain ⟨hn, hk⟩ := hs
  refine ⟨hn, fun k hmem => ?_⟩
  rw [storeIface_keys]
  exact Or.inr (hk k hmem)

theorem addStruct_logOK {L : RegexpLib} (G : Env L) (fuel depth : Nat) (pkg typName : String)
    (u : Underlying) (s s1 : State) (h : addStruct G fuel depth pkg typName u s = .ok s1)
    (hs : LogOK s) : LogOK s1 :=
  addStruct_rel G (fun a b => LogOK a → LogOK b) (fun _ h => h)
    (fun _ _ _ h1 h2 h => h2 (h1 h))
    (fun s d p n f h _ hs => storeStruct_logOK G s d p n f h hs)
    (fun s d p n f _ _ hs => storeIface_logOK G s d p n f hs) fuel depth pkg typName u s s1 h hs

theorem follow_total {L : RegexpLib} (G : Env L) (depth : Nat) (sourcePkg typName : String)
    (str : List Var) (s : State) :
    ∃ s1, follow G (fuelBound G) depth sourcePkg typName str s = .ok s1 := by
  unfold follow followWith fuelBound
  obtain ⟨s1, hr, _⟩ := followFields_total G (addStruct G (G.prog.types.length + 2))
    (G.prog.types.length + 1)
    (fun d n p s hp hs => addStruct_total_named G _ d n p s hp (by omega)) depth str
    { s with followed := (sourcePkg ++ "." ++ typName) :: s.followed }
    (Nat.lt_succ_of_le (pending_le_length G _))
  exact ⟨s1, hr⟩

theorem follow_fuel_mono {L : RegexpLib} (G : Env L) (fuel fuel1 depth : Nat)
    (sourcePkg typName : String) (str : List Var) (s s1 : State) (hle : fuel ≤ fuel1)
    (h : follow G fuel depth sourcePkg typName str s = .ok s1) :
    follow G fuel1 depth sourcePkg typName str s = .ok s1 := by
  unfold follow followWith at h ⊢
  exact followFields_call_mono G _ _
    (fun d p n u s s1 hc => addStruct_fuel_mono G fuel fuel1 d p n u s s1 hle hc) _ _ _ _ h

theorem findStructsLoop_in_budget {L : RegexpLib} (G : Env L) (pkg : String)
    (defs : List Object) (s : State) :
    findStructsLoop G (fuelBound G) pkg defs s ≠ .error Fault.outOfFuel := by
  induction defs generalizing s with
  | nil => simp [findStructsLoop]
  | cons d rest ih =>
    cases d with
    | other => simp only [findStructsLoop]; exact ih s
    | typeName name atScope type =>
      simp only [findStructsLoop]
      split
      · exact ih s
      · cases type with
        | named n =>
          simp only
          obtain ⟨s1, h1⟩ := addStruct_total G 0 pkg name (G.prog.Underlying n) s
          rw [h1]
          exact ih s1
        | _ => simp

theorem discover_in_budget {L : RegexpLib} (G : Env L) (pkgs : List (String × PackageInfo))
    (s : State) : discover G (fuelBound G) pkgs s ≠ .error Fault.outOfFuel := by
  induction pkgs generalizing s with
  | nil => simp [discover]
  | cons p rest ih =>
    obtain ⟨k, pkg⟩ := p
    simp only [discover]
    cases hc : findStructs G (fuelBound G) pkg s with
    | ok s1 => exact ih s1
    | error e =>
      simp only
      intro he
      rw [Except.error.injEq] at he
      subst he
      exact findStructsLoop_in_budget G _ _ _ hc

theorem discover_logOK {L : RegexpLib} (G : Env L) (fuel : Nat)
    (pkgs : List (String × PackageInfo)) (s s1 : State)
    (h : discover G fuel pkgs s = .ok s1) (hs : LogOK s) : LogOK s1 :=
  discover_rel G (fun a b => LogOK a → LogOK b) (fun _ h => h)
    (fun _ _ _ h1 h2 h => h2 (h1 h))
    (fun s d p n f h _ hs => storeStruct_logOK G s d p n f h hs)
    (fun s d p n f _ _ hs => storeIface_logOK G s d p n f hs) fuel pkgs s s1 h hs
/-! ## Every named type of every field is handed to `addStruct` -/

theorem followNames_visits {L : RegexpLib} (G : Env L) (R : State → State → Prop)
    (hrefl : ∀ s, R s s) (htrans : ∀ a b c, R a b → R b c → R a c)
    (call : Nat → String → String → Underlying → State → Except Fault State)
    (hcall : ∀ d p n u s s1, call d p n u s = .ok s1 → R s s1)
    (depth : Nat) (names : List Named) (s s1 : State)
    (h : followNames G call depth names s = .ok s1)
    (n : Named) (hn : n ∈ names) (p : String) (hp : n.pkg = some p) :
    ∃ a b, R s a ∧ call depth p n.name (G.prog.Underlying n) a = .ok b ∧ R b s1 := by
  induction names generalizing s with
  | nil => cases hn
  | cons m rest ih =>
    simp only [followNames] at h
    cases hm : m.pkg with
    | none =>
      rw [hm] at h
      rcases List.mem_cons.mp hn with rfl | hn
      · rw [hm] at hp; cases hp
      · exact ih s h hn
    | some q =>
      rw [hm] at h
      simp only at h
      cases hc : call depth q m.name (G.prog.Underlying m) s with
      | error e => rw [hc] at h; cases h
      | ok s2 =>
        rw [hc] at h
        rcases List.mem_cons.mp hn with rfl | hn
        · have hq : q = p := by
            rw [hm] at hp
            exact Option.some.inj hp
          subst hq
          exact ⟨s, s2, hrefl s, hc,
            followNames_rel G R hrefl htrans call hcall _ _ _ _ h⟩
        · obtain ⟨a, b, h1, h2, h3⟩ := ih s2 h hn
          exact ⟨a, b, htrans _ _ _ (hcall _ _ _ _ _ _ hc) h1, h2, h3⟩

theorem followFields_visits {L : RegexpLib} (G : Env L) (R : State → State → Prop)
    (hrefl : ∀ s, R s s) (htrans : ∀ a b c, R a b → R b c → R a c)
    (call : Nat → String → String → Underlying → State → Except Fault State)
    (hcall : ∀ d p n u s s1, call d p n u s = .ok s1 → R s s1)
    (depth : Nat) (fields : List Var) (s s1 : State)
    (h : followFields G call depth fields s = .ok s1)
    (f : Var) (hf : f ∈ fields) (n : Named) (hn : n ∈ findNamedTypes f.type)
    (p : String) (hp : n.pkg = some p) :
    ∃ a b, R s a ∧ call depth p n.name (G.prog.Underlying n) a = .ok b ∧ R b s1 := by
  induction fields generalizing s with
  | nil => cases hf
  | cons g rest ih =>
    simp only [followFields] at h
    cases hc : followNames G call depth (findNamedTypes g.type) s with
    | error e => rw [hc] at h; cases h
    | ok s2 =>
      rw [hc] at h
      rcases List.mem_cons.mp hf with rfl | hf
      · obtain ⟨a, b, h1, h2, h3⟩ :=
          followNames_visits G R hrefl htrans call hcall _ _ _ _ hc n hn p hp
        exact ⟨a, b, h1, h2,
          htrans _ _ _ h3 (followFields_rel G R hrefl htrans call hcall _ _ _ _ h)⟩
      · obtain ⟨a, b, h1, h2, h3⟩ := ih s2 h hf
        exact ⟨a, b,
          htrans _ _ _ (followNames_rel G R hrefl htrans call hcall _ _ _ _ hc) h1, h2, h3⟩

/-- What a returned call of `addStruct` on an accepted struct or interface
leaves under the key: the entry that was there, or the new Entity. -/
theorem addStruct_stores {L : RegexpLib} (G : Env L) (fuel depth : Nat) (pkg typName : String)
    (u : Underlying) (s s1 : State) (h : addStruct G fuel depth pkg typName u s = .ok s1)
    (hi : include_ G pkg typName = true) (hu : u ≠ Underlying.other) :
    ((s.structs.lookup (pkg ++ "." ++ typName)).isSome = true ∧ s1 = s) ∨
    ((s.structs.lookup (pkg ++ "." ++ typName)).isSome = false ∧
      ∃ e, s1.structs.lookup (pkg ++ "." ++ typName) = some e ∧ e.Depth = depth ∧
        e.pkg = pkg ∧ e.Name = typName ∧
        ((∃ fields, u = Underlying.struct fields ∧
            e = structEntity G depth pkg typName fields) ∨
         (∃ methods, u = Underlying.interface methods ∧
            e = ifaceEntity G depth pkg typName methods))) := by
  cases fuel with
  | zero => simp [addStruct] at h
  | succ fuel =>
    rw [addStruct_succ] at h
    by_cases h1 : (s.structs.lookup (pkg ++ "." ++ typName)).isSome = true
    · simp only [h1, if_true] at h
      exact Or.inl ⟨h1, (Except.ok.inj h).symm⟩
    · simp only [h1, if_false, hi, Bool.not_true, Bool.false_eq_true] at h
      have h1a : (s.structs.lookup (pkg ++ "." ++ typName)).isSome = false :=
        Bool.eq_false_iff.2 h1
      right
      refine ⟨h1a, ?_⟩
      cases u with
      | other => exact absurd rfl hu
      | interface methods =>
        simp only at h
        have hs1 := (Except.ok.inj h).symm
        subst hs1
        refine ⟨ifaceEntity G depth pkg typName methods, ?_, rfl, rfl, rfl,
          Or.inr ⟨methods, rfl, rfl⟩⟩
        show (mapSet _ _ _).lookup _ = _
        rw [lookup_mapSet]
        simp
      | struct fields =>
        simp only at h
        have hext : Extends (storeStruct G depth pkg typName fields s).structs s1.structs :=
          followFields_rel G (fun a b => Extends a.structs b.structs) (fun _ => extends_refl _)
            (fun _ _ _ => extends_trans _ _ _) _
            (fun d p n u s s1 hc => addStruct_extends G fuel d p n u s s1 hc) _ _ _ _ h
        refine ⟨structEntity G depth pkg typName fields, hext _ _ ?_, rfl, rfl, rfl,
          Or.inl ⟨fields, rfl, rfl⟩⟩
        show (mapSet _ _ _).lookup _ = _
        rw [lookup_mapSet]
        simp

/-! ## The link construction -/

theorem linkNames_links_mono (structs : List (String × structType)) (str : structType)
    (f : field) (names : List Named) (acc : LinkAcc) (x : useInfo) (hx : x ∈ acc.links) :
    x ∈ (linkNames structs str f names acc).links := by
  induction names generalizing acc with
  | nil => exact hx
  | cons n rest ih =>
    simp only [linkNames]
    split
    · apply ih
      simp [hx]
    · exact ih acc hx

theorem linkFields_links_mono (structs : List (String × structType)) (str : structType)
    (fields : List field) (acc : LinkAcc) (x : useInfo) (hx : x ∈ acc.links) :
    x ∈ (linkFields structs str fields acc).links := by
  induction fields generalizing acc with
  | nil => exact hx
  | cons f rest ih =>
    simp only [linkFields]
    exact ih _ (linkNames_links_mono structs str f _ acc x hx)

theorem linkStructs_links_mono (structs order : List (String × structType))
    (acc : LinkAcc) (x : useInfo) (hx : x ∈ acc.links) :
    x ∈ (linkStructs structs order acc).links := by
  induction order generalizing acc with
  | nil => exact hx
  | cons e rest ih =>
    obtain ⟨k, str⟩ := e
    simp only [linkStructs]
    exact ih _ (linkFields_links_mono structs str _ acc x hx)

theorem linkNames_mem (structs : List (String × structType)) (str : structType)
    (f : field) (names : List Named) (acc : LinkAcc) (n : Named) (hn : n ∈ names)
    (hk : (structs.lookup n.String).isSome = true) :
    ({ FromStruct := str.FullName, FromField := f.Name, ToStruct := n.String } : useInfo) ∈
      (linkNames structs str f names acc).links := by
  induction names generalizing acc with
  | nil => cases hn
  | cons m rest ih =>
    simp only [linkNames]
    rcases List.mem_cons.mp hn with rfl | hn
    · simp only [hk, if_true]
      apply linkNames_links_mono
      simp
    · split
      · exact ih _ hn
      · exact ih _ hn

theorem linkFields_mem (structs : List (String × structType)) (str : structType)
    (fields : List field) (acc : LinkAcc) (f : field) (hf : f ∈ fields) (n : Named)
    (hn : n ∈ findNamedTypes f.Type_) (hk : (structs.lookup n.String).isSome = true) :
    ({ FromStruct := str.FullName, FromField := f.Name, ToStruct := n.String } : useInfo) ∈
      (linkFields structs str fields acc).links := by
  induction fields generalizing acc with
  | nil => cases hf
  | cons g rest ih =>
    simp only [linkFields]
    rcases List.mem_cons.mp hf with rfl | hf
    · exact linkFields_links_mono _ _ _ _ _ (linkNames_mem structs str f _ acc n hn hk)
    · exact ih _ hf

theorem linkStructs_mem (structs order : List (String × structType)) (acc : LinkAcc)
    (k : String) (str : structType) (hs : (k, str) ∈ order) (f : field)
    (hf : f ∈ str.Fields) (n : Named) (hn : n ∈ findNamedTypes f.Type_)
    (hk : (structs.lookup n.String).isSome = true) :
    ({ FromStruct := str.FullName, FromField := f.Name, ToStruct := n.String } : useInfo) ∈
      (linkStructs structs order acc).links := by
  induction order generalizing acc with
  | nil => cases hs
  | cons e rest ih =>
    obtain ⟨k1, str1⟩ := e
    simp only [linkStructs]
    rcases List.mem_cons.mp hs with h | hs
    · have h1 : str = str1 := (Prod.mk.inj h).2
      subst h1
      exact linkStructs_links_mono _ _ _ _ (linkFields_mem structs str _ acc f hf n hn hk)
    · exact ih _ hs

theorem mem_of_lookup {β : Type} (m : List (String × β)) (k : String) (v : β)
    (h : m.lookup k = some v) : (k, v) ∈ m := by
  induction m with
  | nil => cases h
  | cons e m ih =>
    obtain ⟨k1, v1⟩ := e
    simp only [List.lookup] at h
    cases hk : (k == k1)
    · rw [hk] at h
      exact List.mem_cons_of_mem _ (ih h)
    · rw [hk] at h
      have : k = k1 := by simpa using hk
      subst this
      rw [Option.some.inj h]
      exact List.mem_cons_self _ _

theorem followNames_append {L : RegexpLib} (G : Env L)
    (call : Nat → String → String → Underlying → State → Except Fault State)
    (depth : Nat) (xs ys : List Named) (s s1 : State)
    (h : followNames G call depth (xs ++ ys) s = .ok s1) :
    ∃ a, followNames G call depth xs s = .ok a ∧ followNames G call depth ys a = .ok s1 := by
  induction xs generalizing s with
  | nil => exact ⟨s, rfl, h⟩
  | cons n rest ih =>
    simp only [List.cons_append, followNames] at h ⊢
    cases hp : n.pkg with
    | none =>
      rw [hp] at h
      exact ih s h
    | some p =>
      rw [hp] at h
      simp only at h ⊢
      cases hc : call depth p n.name (G.prog.Underlying n) s with
      | error e => rw [hc] at h; cases h
      | ok s2 =>
        rw [hc] at h
        exact ih s2 h

theorem followFields_append {L : RegexpLib} (G : Env L)
    (call : Nat → String → String → Underlying → State → Except Fault State)
    (depth : Nat) (xs ys : List Var) (s s1 : State)
    (h : followFields G call depth (xs ++ ys) s = .ok s1) :
    ∃ a, followFields G call depth xs s = .ok a ∧ followFields G call depth ys a = .ok s1 := by
  induction xs generalizing s with
  | nil => exact ⟨s, rfl, h⟩
  | cons f rest ih =>
    simp only [List.cons_append, followFields] at h ⊢
    cases hc : followNames G call depth (findNamedTypes f.type) s with
    | error e => rw [hc] at h; cases h
    | ok s2 =>
      rw [hc] at h
      exact ih s2 h

/-- The run of `follow` up to one occurrence of a named type in a field: the
fields before, the named types before it in the field, the call of
`addStruct` for it, and the rest. -/
theorem followFields_at {L : RegexpLib} (G : Env L)
    (call : Nat → String → String → Underlying → State → Except Fault State)
    (depth : Nat) (pre post : List Var) (f : Var) (npre npost : List Named) (T : Named)
    (p : String) (hp : T.pkg = some p) (hn : findNamedTypes f.type = npre ++ T :: npost)
    (s s1 : State) (h : followFields G call depth (pre ++ f :: post) s = .ok s1) :
    ∃ a0 a b a1, followFields G call depth pre s = .ok a0 ∧
      followNames G call depth npre a0 = .ok a ∧
      call depth p T.name (G.prog.Underlying T) a = .ok b ∧
      followNames G call depth npost b = .ok a1 ∧
      followFields G call depth post a1 = .ok s1 := by
  obtain ⟨a0, h0, h1⟩ := followFields_append G call depth pre (f :: post) s s1 h
  simp only [followFields] at h1
  cases hc : followNames G call depth (findNamedTypes f.type) a0 with
  | error e => rw [hc] at h1; cases h1
  | ok a1 =>
    rw [hc] at h1
    rw [hn] at hc
    obtain ⟨a, h2, h3⟩ := followNames_append G call depth npre (T :: npost) a0 a1 hc
    simp only [followNames, hp] at h3
    cases hb : call depth p T.name (G.prog.Underlying T) a with
    | error e => rw [hb] at h3; cases h3
    | ok b =>
      rw [hb] at h3
      exact ⟨a0, a, b, a1, h0, h2, hb, h3, h1⟩
/-! ## Two structs that reference each other -/

theorem key_ne_of_name_ne (p x y : String) (h : x ≠ y) : p ++ "." ++ x ≠ p ++ "." ++ y := by
  intro e
  apply h
  have h1 := congrArg String.data e
  simp only [String.data_append, List.append_assoc] at h1
  exact String.ext (List.append_cancel_left (List.append_cancel_left h1))

theorem perm_pair {α : Type} (l : List α) (u v : α) (h : l.Perm [u, v]) :
    l = [u, v] ∨ l = [v, u] := by
  have hlen := h.length_eq
  match l, hlen with
  | [c, d], _ =>
    have hc : c ∈ [u, v] := h.subset (List.mem_cons_self _ _)
    simp only [List.mem_cons, List.mem_singleton, List.not_mem_nil, or_false] at hc
    rcases hc with rfl | rfl
    · left
      have h1 : [d].Perm [v] := (List.perm_cons c).mp h
      rw [List.perm_singleton.mp h1]
    · right
      have h1 : [d].Perm [u] := (List.perm_cons c).mp (h.trans (List.Perm.swap _ _ _))
      rw [List.perm_singleton.mp h1]

theorem mutual_findStructs {L : RegexpLib} (G : Env L) (p x y fx fy : String)
    (tx ty : GoType) (n : Nat)
    (hx : G.prog.Underlying { pkg := some p, name := x } =
      Underlying.struct [{ name := fx, type := tx }])
    (hy : G.prog.Underlying { pkg := some p, name := y } =
      Underlying.struct [{ name := fy, type := ty }])
    (htx : findNamedTypes tx = [{ pkg := some p, name := y }])
    (hty : findNamedTypes ty = [{ pkg := some p, name := x }])
    (hxy : x ≠ y) (hix : include_ G p x = true) (hiy : include_ G p y = true) :
    findStructsLoop G (n + 3) p
      [Object.typeName x true (GoType.named { pkg := some p, name := x }),
       Object.typeName y true (GoType.named { pkg := some p, name := y })] State.empty =
      .ok (mutualState G p x y fx fy tx ty) := by
  have hk : (p ++ "." ++ y == p ++ "." ++ x) = false := by
    simpa using key_ne_of_name_ne p y x (fun e => hxy e.symm)
  have hk2 : (p ++ "." ++ x == p ++ "." ++ y) = false := by
    simpa using key_ne_of_name_ne p x y hxy
  have hk3 : (p ++ "." ++ x != p ++ "." ++ y) = true := by
    simpa using key_ne_of_name_ne p x y hxy
  simp only [findStructsLoop, Bool.not_true, Bool.false_eq_true, if_false, hx, hy]
  have e1 : addStruct G (n + 3) 0 p x (Underlying.struct [{ name := fx, type := tx }])
      State.empty = .ok (mutualState G p x y fx fy tx ty) := by
    rw [addStruct_succ]
    simp only [State.empty, List.lookup, Option.isSome_none, Bool.false_eq_true, if_false, hix,
      Bool.not_true, followFields, followNames, htx, hy]
    rw [addStruct_succ]
    simp only [storeStruct, mapSet, List.filter, List.lookup, hk, Option.isSome_none,
      Bool.false_eq_true, if_false, hiy, Bool.not_true, followFields, followNames,
      hty, hx]
    rw [addStruct_succ]
    simp only [List.lookup, hk2, hk3, List.filter, beq_self_eq_true, Option.isSome_some, if_true]
    rfl
  rw [e1]
  simp only
  rw [addStruct_succ]
  simp [mutualState, List.lookup]

theorem mutual_links {L : RegexpLib} (G : Env L) (p x y fx fy : String) (tx ty : GoType)
    (htx : findNamedTypes tx = [{ pkg := some p, name := y }])
    (hty : findNamedTypes ty = [{ pkg := some p, name := x }])
    (hp : p ≠ "") (hxy : x ≠ y) (order : List (String × structType))
    (h : order.Perm (mutualState G p x y fx fy tx ty).structs) :
    (linkStructs (mutualState G p x y fx fy tx ty).structs order
        { links := [], nonOrphans := [] }).links.Perm
      [{ FromStruct := p ++ "." ++ x, FromField := fx, ToStruct := p ++ "." ++ y },
       { FromStruct := p ++ "." ++ y, FromField := fy, ToStruct := p ++ "." ++ x }] := by
  have hk : (p ++ "." ++ y == p ++ "." ++ x) = false := by
    simpa using key_ne_of_name_ne p y x (fun e => hxy e.symm)
  have hk2 : (p ++ "." ++ x == p ++ "." ++ y) = false := by
    simpa using key_ne_of_name_ne p x y hxy
  have hsx : (Named.String { pkg := some p, name := x }) = p ++ "." ++ x := by
    simp [Named.String, hp]
  have hsy : (Named.String { pkg := some p, name := y }) = p ++ "." ++ y := by
    simp [Named.String, hp]
  rcases perm_pair _ _ _ h with h1 | h1
  · rw [h1]
    simp only [linkStructs, linkFields, linkNames, structEntity, mkField, List.map,
      htx, hty, hsx, hsy, List.lookup, hk, hk2, beq_self_eq_true, Option.isSome_some,
      if_true, List.nil_append, List.cons_append]
    exact List.Perm.swap _ _ _
  · rw [h1]
    simp only [linkStructs, linkFields, linkNames, structEntity, mkField, List.map,
      htx, hty, hsx, hsy, List.lookup, hk, hk2, beq_self_eq_true, Option.isSome_some,
      if_true, List.nil_append, List.cons_append]
    exact List.Perm.refl _
/-! ## Claims on discovery -/

/-- C7: after any sequence of `findStructs`, `addStruct` and `follow` calls
from the empty map, every Entity in `structs` has a package path and type
name for which `include` returns true, is matched by no exclusion rule, and
is stored under its full name. -/
theorem discovery_only_included {L : RegexpLib} (G : Env L) (fuel : Nat) (calls : List Call)
    (s : State) (h : runCalls G fuel calls State.empty = .ok s) :
    ∀ e ∈ s.structs,
      include_ G e.2.pkg e.2.Name = true ∧
      (∀ exc ∈ G.exclusions, matches_ L exc e.2.pkg e.2.Name = false) ∧
      e.1 = e.2.pkg ++ "." ++ e.2.Name := by
  intro e he
  have hall : AllIncluded G s.structs :=
    runCalls_allIncluded G fuel calls State.empty s h (fun e he => by cases he)
  obtain ⟨h1, h2⟩ := hall e he
  exact ⟨h1, ((include_eq_true_iff G _ _).mp h1).1, h2⟩

/-- C7 (witness): root `pkg1` with `Secret{}` and `Vault{S Secret}` under the
exclusion `pkg1:Secret`; `findStructs` leaves only `pkg1.Vault`. -/
theorem discovery_only_included_witness :
    (runCalls (Example.envOf Example.vault [] ["pkg1:Secret"]) 3
        [Call.findStructs { Pkg := "pkg1"
                            Defs := [Example.typeDef "pkg1" "Secret",
                                     Example.typeDef "pkg1" "Vault"] }]
        State.empty = .ok Example.vaultState) ∧
    keys Example.vaultState.structs = ["pkg1.Vault"] ∧
    ∀ e ∈ Example.vaultState.structs,
      include_ (Example.envOf Example.vault [] ["pkg1:Secret"]) e.2.pkg e.2.Name = true ∧
      (∀ exc ∈ (Example.envOf Example.vault [] ["pkg1:Secret"]).exclusions,
        matches_ goRegexp exc e.2.pkg e.2.Name = false) ∧
      e.1 = e.2.pkg ++ "." ++ e.2.Name :=
  ⟨by rfl, by decide,
    discovery_only_included (Example.envOf Example.vault [] ["pkg1:Secret"]) 3
      [Call.findStructs { Pkg := "pkg1"
                          Defs := [Example.typeDef "pkg1" "Secret",
                                   Example.typeDef "pkg1" "Vault"] }]
      Example.vaultState (by rfl)⟩

/-- C9: on every program (a finite list of type declarations, cycles
allowed) every call of `addStruct` and of `follow` returns, with the same
result for every budget from `fuelBound` on, and the whole discovery loop
stays within that budget.  From a state whose log names no key twice and only
keys of `structs`, `addStruct` and the discovery loop leave such a state:
`follow` is entered at most once per key, for a key that has just been
stored. -/
theorem addStruct_terminates {L : RegexpLib} (G : Env L) (depth : Nat) (pkg typName : String)
    (u : Underlying) (s : State) (hs : LogOK s) :
    (∃ s1, (∀ fuel, fuelBound G ≤ fuel → addStruct G fuel depth pkg typName u s = .ok s1) ∧
      s1.followed.Nodup ∧ (∀ k ∈ s1.followed, k ∈ keys s1.structs)) ∧
    (∀ str, ∃ s2, ∀ fuel, fuelBound G ≤ fuel →
      follow G fuel depth pkg typName str s = .ok s2) ∧
    (∀ pkgs, discover G (fuelBound G) pkgs s ≠ .error Fault.outOfFuel ∧
      ∀ s3, discover G (fuelBound G) pkgs s = .ok s3 → s3.followed.Nodup) := by
  refine ⟨?_, ?_, fun pkgs => ⟨discover_in_budget G pkgs s,
    fun s3 h3 => (discover_logOK G _ pkgs s s3 h3 hs).1⟩⟩
  · obtain ⟨s1, h1⟩ := addStruct_total G depth pkg typName u s
    have hlog := addStruct_logOK G _ _ _ _ _ _ _ h1 hs
    exact ⟨s1, fun fuel hf => addStruct_fuel_mono G _ fuel _ _ _ _ _ _ hf h1, hlog.1, hlog.2⟩
  · intro str
    obtain ⟨s2, h2⟩ := follow_total G depth pkg typName str s
    exact ⟨s2, fun fuel hf => follow_fuel_mono G _ fuel _ _ _ _ _ _ hf h2⟩

/-- C9 (witness): the program with the cycle `A{B *B}`, `B{A *A}` and the
self-referencing `Node{Next *Node}`, from the empty state. -/
theorem addStruct_terminates_witness :
    LogOK State.empty ∧
    ((∃ s1, (∀ fuel, fuelBound (Example.envOf Example.cyclic [] []) ≤ fuel →
        addStruct (Example.envOf Example.cyclic [] []) fuel 0 "app" "A"
          (Example.cyclic.Underlying { pkg := some "app", name := "A" }) State.empty = .ok s1) ∧
      s1.followed.Nodup ∧ (∀ k ∈ s1.followed, k ∈ keys s1.structs)) ∧
    (∀ str, ∃ s2, ∀ fuel, fuelBound (Example.envOf Example.cyclic [] []) ≤ fuel →
      follow (Example.envOf Example.cyclic [] []) fuel 0 "app" "A" str State.empty = .ok s2) ∧
    (∀ pkgs, discover (Example.envOf Example.cyclic [] [])
      (fuelBound (Example.envOf Example.cyclic [] [])) pkgs State.empty ≠
        .error Fault.outOfFuel ∧
      ∀ s3, discover (Example.envOf Example.cyclic [] [])
        (fuelBound (Example.envOf Example.cyclic [] [])) pkgs State.empty = .ok s3 →
        s3.followed.Nodup)) :=
  ⟨⟨List.nodup_nil, fun _ h => by cases h⟩,
    addStruct_terminates (Example.envOf Example.cyclic [] []) 0 "app" "A"
      (Example.cyclic.Underlying { pkg := some "app", name := "A" }) State.empty
      ⟨List.nodup_nil, fun _ h => by cases h⟩⟩

/-- C10: let the only root package `p` declare two accepted structs `a` and
`b`, the only field of `a` having a type that names `b` and nothing else, and
the only field of `b` a type that names `a` and nothing else: the other
struct itself or, as a Go program has to write one of the two at least, the
other struct behind pointers, slices, arrays or channels.  In either
enumeration order of the two definitions, and in any visiting order of the
link construction, `main` reaches the link construction with exactly the keys
of `a` and `b` in `structs` and with exactly two links, one from `a` to `b`
and one from `b` to `a`. -/
theorem mutual_reference_graph (L : RegexpLib) (H : Host) (fl : Flags) (prog : Program)
    (root p a b fa fb : String) (ta tb : GoType) (defs : List Object) (fuel : Nat)
    (hload : H.load (pkgNamesOf fl) = some prog)
    (himp : prog.Imported = [(root, { Pkg := p, Defs := defs })])
    (hdefs :
      defs = [Object.typeName a true (GoType.named { pkg := some p, name := a }),
              Object.typeName b true (GoType.named { pkg := some p, name := b })] ∨
      defs = [Object.typeName b true (GoType.named { pkg := some p, name := b }),
              Object.typeName a true (GoType.named { pkg := some p, name := a })])
    (hA : prog.Underlying { pkg := some p, name := a } =
      Underlying.struct [{ name := fa, type := ta }])
    (hB : prog.Underlying { pkg := some p, name := b } =
      Underlying.struct [{ name := fb, type := tb }])
    (hta : findNamedTypes ta = [{ pkg := some p, name := b }])
    (htb : findNamedTypes tb = [{ pkg := some p, name := a }])
    (hp : p ≠ "") (hab : a ≠ b)
    (hincA : include_ (mainEnv L H fl prog) p a = true)
    (hincB : include_ (mainEnv L H fl prog) p b = true)
    (hrange : ∀ m, (H.range m).Perm m) (hfuel : 3 ≤ fuel) :
    ∃ run, main L H fuel fl = .ok run ∧
      (keys run.structs).Perm [p ++ "." ++ a, p ++ "." ++ b] ∧
      run.links.Perm
        [{ FromStruct := p ++ "." ++ a, FromField := fa, ToStruct := p ++ "." ++ b },
         { FromStruct := p ++ "." ++ b, FromField := fb, ToStruct := p ++ "." ++ a }] := by
  obtain ⟨n, rfl⟩ : ∃ n, fuel = n + 3 := ⟨fuel - 3, by omega⟩
  -- the state after discovery, its keys and its links
  have hdisc : ∃ s : State,
      discover (mainEnv L H fl prog) (n + 3) prog.Imported State.empty = .ok s ∧
      (keys s.structs).Perm [p ++ "." ++ a, p ++ "." ++ b] ∧
      ∀ order, order.Perm s.structs →
        (linkStructs s.structs order { links := [], nonOrphans := [] }).links.Perm
          [{ FromStruct := p ++ "." ++ a, FromField := fa, ToStruct := p ++ "." ++ b },
           { FromStruct := p ++ "." ++ b, FromField := fb, ToStruct := p ++ "." ++ a }] := by
    rcases hdefs with hd | hd
    · refine ⟨mutualState (mainEnv L H fl prog) p a b fa fb ta tb, ?_, ?_, ?_⟩
      · rw [himp, hd]
        simp only [discover, findStructs]
        rw [mutual_findStructs (mainEnv L H fl prog) p a b fa fb ta tb n hA hB hta htb hab
          hincA hincB]
      · exact List.Perm.swap _ _ _
      · intro order ho
        exact mutual_links (mainEnv L H fl prog) p a b fa fb ta tb hta htb hp hab order ho
    · refine ⟨mutualState (mainEnv L H fl prog) p b a fb fa tb ta, ?_, ?_, ?_⟩
      · rw [himp, hd]
        simp only [discover, findStructs]
        rw [mutual_findStructs (mainEnv L H fl prog) p b a fb fa tb ta n hB hA htb hta
          (fun e => hab e.symm) hincB hincA]
      · exact List.Perm.refl _
      · intro order ho
        exact (mutual_links (mainEnv L H fl prog) p b a fb fa tb ta htb hta hp
          (fun e => hab e.symm) order ho).trans (List.Perm.swap _ _ _)
  obtain ⟨s, hs, hkeys, hlinks⟩ := hdisc
  have hlen : ¬ s.structs.length = 0 := by
    have := hkeys.length_eq
    simp only [keys, List.length_map, List.length_cons, List.length_nil] at this
    omega
  have hkeys2 : keys (s.structs.map
      (fun e => (e.1, markOrphan
        (linkStructs s.structs (H.range s.structs)
          { links := [], nonOrphans := [] }).nonOrphans e.2))) = keys s.structs := by
    simp [keys, List.map_map, Function.comp_def]
  unfold main
  simp only [hload, hs, hlen, if_false]
  cases H.createOk
  · exact ⟨_, rfl, hkeys, hlinks _ (hrange _)⟩
  · refine ⟨_, rfl, ?_, hlinks _ (hrange _)⟩
    simp only
    rw [hkeys2]
    exact hkeys

/-- C10 (witness): root `app` with `A{B *B}` and `B{A *A}`, `B` enumerated
first. -/
theorem mutual_reference_graph_witness :
    ∃ run, main goRegexp (Example.hostOf Example.pair) 3
        { include_ := [], exclude := [], includeOrphans := false, args := ["app"] } = .ok run ∧
      (keys run.structs).Perm ["app" ++ "." ++ "A", "app" ++ "." ++ "B"] ∧
      run.links.Perm
        [{ FromStruct := "app" ++ "." ++ "A", FromField := "B", ToStruct := "app" ++ "." ++ "B" },
         { FromStruct := "app" ++ "." ++ "B", FromField := "A",
           ToStruct := "app" ++ "." ++ "A" }] :=
  mutual_reference_graph goRegexp (Example.hostOf Example.pair)
    { include_ := [], exclude := [], includeOrphans := false, args := ["app"] }
    Example.pair "app" "app" "A" "B" "B" "A" (Example.ptrTo "app" "B") (Example.ptrTo "app" "A")
    [Example.typeDef "app" "B", Example.typeDef "app" "A"] 3 rfl rfl (Or.inr rfl)
    (by decide) (by decide) (by decide) (by decide) (by decide) (by decide) (by decide)
    (by decide) (fun m => List.Perm.refl m) (by decide)
/-! ## Claims on `addStruct` and `findNamedTypes` -/

/-- C11: a call of `addStruct` whose full name is already a key of `structs`
returns the state it was given: the map is unchanged and `follow` is not
entered. -/
theorem addStruct_known_key_noop {L : RegexpLib} (G : Env L) (fuel depth : Nat)
    (pkg typName : String) (u : Underlying) (s : State)
    (h : (pkg ++ "." ++ typName) ∈ keys s.structs) :
    addStruct G (fuel + 1) depth pkg typName u s = .ok s := by
  rw [addStruct_succ]
  have h1 : (s.structs.lookup (pkg ++ "." ++ typName)).isSome = true :=
    (mem_keys_iff _ _).mp h
  simp only [h1, if_true]

/-- C11 (witness): `pkg1.Vault` is a key of the state left by scenario 4; a
further call for it, at another depth, changes nothing. -/
theorem addStruct_known_key_noop_witness :
    ("pkg1" ++ "." ++ "Vault") ∈ keys Example.vaultState.structs ∧
    addStruct (Example.envOf Example.vault [] ["pkg1:Secret"]) (0 + 1) 5 "pkg1" "Vault"
      (Underlying.struct []) Example.vaultState = .ok Example.vaultState :=
  ⟨by decide,
    addStruct_known_key_noop (Example.envOf Example.vault [] ["pkg1:Secret"]) 0 5 "pkg1" "Vault"
      (Underlying.struct []) Example.vaultState (by decide)⟩

theorem findNamedTypes_eq (t : GoType) : findNamedTypes t = namedLeaves t := by
  induction t with
  | named n => rfl
  | array len e ih => simpa [findNamedTypes, namedLeaves, leafTypes] using ih
  | chan e ih => simpa [findNamedTypes, namedLeaves, leafTypes] using ih
  | map k e ihk ihe =>
    simp only [findNamedTypes, namedLeaves, leafTypes, List.filterMap_append]
    rw [ihk, ihe]
    rfl
  | pointer e ih => simpa [findNamedTypes, namedLeaves, leafTypes] using ih
  | slice e ih => simpa [findNamedTypes, namedLeaves, leafTypes] using ih
  | basic name => rfl
  | signature desc => rfl
  | struct desc => rfl
  | interface desc => rfl

/-- C16: `findNamedTypes` is a total function; it returns the named types
among the leaves of the type description, left to right, a map contributing
its key side before its value side, and a named type being a leaf itself; a
description without a named leaf gives the empty list.  `[]*time.Time` gives
`time.Time`, and `map[time.Time]time.Duration` gives `time.Time`,
`time.Duration`. -/
theorem findNamedTypes_leaves (t : GoType) :
    findNamedTypes t = namedLeaves t ∧
    (∀ n, leafTypes (GoType.named n) = [GoType.named n]) ∧
    (∀ k e, findNamedTypes (GoType.map k e) = findNamedTypes k ++ findNamedTypes e) ∧
    ((∀ l ∈ leafTypes t, asNamed l = none) → findNamedTypes t = []) ∧
    findNamedTypes
        (GoType.slice (GoType.pointer (GoType.named { pkg := some "time", name := "Time" }))) =
      [{ pkg := some "time", name := "Time" }] ∧
    findNamedTypes
        (GoType.map (GoType.named { pkg := some "time", name := "Time" })
          (GoType.named { pkg := some "time", name := "Duration" })) =
      [{ pkg := some "time", name := "Time" }, { pkg := some "time", name := "Duration" }] := by
  refine ⟨findNamedTypes_eq t, fun _ => rfl, fun _ _ => rfl, ?_, rfl, rfl⟩
  intro h
  rw [findNamedTypes_eq, namedLeaves, List.filterMap_eq_nil_iff]
  exact h

theorem created_structEntity {L : RegexpLib} (G : Env L) (d : Nat) (p n : String)
    (fields : List Var) : Created G (p ++ "." ++ n) (structEntity G d p n fields) := by
  refine ⟨d, p, n, rfl, Or.inl ⟨fields, rfl, ?_⟩⟩
  simp [structEntity, mkField, List.map_map, Function.comp_def]

theorem created_ifaceEntity {L : RegexpLib} (G : Env L) (d : Nat) (p n : String)
    (methods : List Func) : Created G (p ++ "." ++ n) (ifaceEntity G d p n methods) := by
  refine ⟨d, p, n, rfl, Or.inr ⟨methods, rfl, ?_⟩⟩
  simp [ifaceEntity, mkField, List.map_map, Function.comp_def]

theorem frame_refl {L : RegexpLib} (G : Env L) (m : List (String × structType)) :
    Frame G m m :=
  ⟨extends_refl m, fun _ _ h => Or.inl h⟩

theorem frame_trans {L : RegexpLib} (G : Env L) (a b c : List (String × structType))
    (h1 : Frame G a b) (h2 : Frame G b c) : Frame G a c := by
  refine ⟨extends_trans _ _ _ h1.1 h2.1, fun k e hc => ?_⟩
  rcases h2.2 k e hc with hb | ⟨hb, hcr⟩
  · exact h1.2 k e hb
  · right
    refine ⟨?_, hcr⟩
    cases ha : a.lookup k with
    | none => rfl
    | some v =>
      rw [h1.1 k v ha] at hb
      cases hb

theorem frame_mapSet {L : RegexpLib} (G : Env L) (m : List (String × structType))
    (k : String) (v : structType) (h : (m.lookup k).isSome = false) (hv : Created G k v) :
    Frame G m (mapSet m k v) := by
  refine ⟨extends_mapSet m k v h, fun k1 e he => ?_⟩
  rw [lookup_mapSet] at he
  by_cases hk : k1 = k
  · subst hk
    simp only [if_true, Option.some.injEq] at he
    subst he
    right
    refine ⟨?_, hv⟩
    cases hl : m.lookup k1 with
    | none => rfl
    | some x => rw [hl] at h; cases h
  · simp only [hk, if_false] at he
    exact Or.inl he

theorem addStruct_frame {L : RegexpLib} (G : Env L) (fuel depth : Nat) (pkg typName : String)
    (u : Underlying) (s s1 : State) (h : addStruct G fuel depth pkg typName u s = .ok s1) :
    Frame G s.structs s1.structs :=
  addStruct_rel G (fun a b => Frame G a.structs b.structs) (fun _ => frame_refl G _)
    (fun _ _ _ => frame_trans G _ _ _)
    (fun s d p n f h _ => frame_mapSet G s.structs _ _ h (created_structEntity G d p n f))
    (fun s d p n f h _ => frame_mapSet G s.structs _ _ h (created_ifaceEntity G d p n f))
    fuel depth pkg typName u s s1 h

/-! ## The order of the fields of a created Entity -/

theorem lessChars_irrefl (a : List Char) : lessChars a a = false := by
  induction a with
  | nil => rfl
  | cons x a ih => simp [lessChars, ih]

theorem lessChars_trans (a b c : List Char) (h1 : lessChars a b = true)
    (h2 : lessChars b c = true) : lessChars a c = true := by
  induction a generalizing b c with
  | nil =>
    cases b with
    | nil => simp [lessChars] at h1
    | cons y b =>
      cases c with
      | nil => simp [lessChars] at h2
      | cons z c => simp [lessChars]
  | cons x a ih =>
    cases b with
    | nil => simp [lessChars] at h1
    | cons y b =>
      cases c with
      | nil => simp [lessChars] at h2
      | cons z c =>
        simp only [lessChars] at h1 h2 ⊢
        by_cases hxy : x.toNat < y.toNat
        · by_cases hyz : y.toNat < z.toNat
          · have : x.toNat < z.toNat := by omega
            simp [this]
          · simp only [hyz, if_false] at h2
            by_cases hzy : z.toNat < y.toNat
            · simp [hzy] at h2
            · have : x.toNat < z.toNat := by omega
              simp [this]
        · simp only [hxy, if_false] at h1
          by_cases hyx : y.toNat < x.toNat
          · simp [hyx] at h1
          · simp only [hyx, if_false] at h1
            by_cases hyz : y.toNat < z.toNat
            · have : x.toNat < z.toNat := by omega
              simp [this]
            · simp only [hyz, if_false] at h2
              by_cases hzy : z.toNat < y.toNat
              · simp [hzy] at h2
              · simp only [hzy, if_false] at h2
                have e1 : ¬ x.toNat < z.toNat := by omega
                have e2 : ¬ z.toNat < x.toNat := by omega
                simp only [e1, e2, if_false]
                exact ih b c h1 h2

theorem insertMethod_perm (m : Func) (l : List Func) : (insertMethod m l).Perm (m :: l) := by
  induction l with
  | nil => exact List.Perm.refl _
  | cons x rest ih =>
    simp only [insertMethod]
    split
    · exact List.Perm.refl _
    · exact ((List.perm_cons x).mpr ih).trans (List.Perm.swap _ _ _)

theorem sortMethods_perm (l : List Func) : (sortMethods l).Perm l := by
  induction l with
  | nil => exact List.Perm.refl _
  | cons m rest ih =>
    exact (insertMethod_perm m _).trans ((List.perm_cons m).mpr ih)

theorem insertMethod_sorted (m : Func) (l : List Func)
    (h : l.Pairwise (fun a b => lessChars b.name.data a.name.data = false)) :
    (insertMethod m l).Pairwise (fun a b => lessChars b.name.data a.name.data = false) := by
  induction l with
  | nil => simp [insertMethod]
  | cons x rest ih =>
    obtain ⟨hx, hrest⟩ := List.pairwise_cons.mp h
    simp only [insertMethod]
    split
    · rename_i hlt
      refine List.pairwise_cons.mpr ⟨fun y hy => ?_, h⟩
      cases hym : lessChars y.name.data m.name.data with
      | false => rfl
      | true =>
        have hyx := lessChars_trans _ _ _ hym hlt
        rcases List.mem_cons.mp hy with rfl | hy
        · rw [lessChars_irrefl] at hyx
          cases hyx
        · rw [hx y hy] at hyx
          cases hyx
    · rename_i hlt
      refine List.pairwise_cons.mpr ⟨fun y hy => ?_, ih hrest⟩
      rcases List.mem_cons.mp ((insertMethod_perm m rest).subset hy) with rfl | hy
      · exact Bool.eq_false_iff.2 hlt
      · exact hx y hy

theorem sortMethods_sorted (l : List Func) :
    (sortMethods l).Pairwise (fun a b => lessChars b.name.data a.name.data = false) := by
  induction l with
  | nil => exact List.Pairwise.nil
  | cons m rest ih => exact insertMethod_sorted m _ ih

/-- C17 (counterexample): `type Shape interface{ Zed(); Alpha() }` in root
`app`.  The methods reach `addStruct` as `Method(0)`, `Method(1)`, which is
`Alpha`, `Zed`, and the Entity created has the fields `Alpha`, `Zed`: not
the order of the declaration, which is `Zed`, `Alpha`. -/
theorem interface_fields_not_in_declaration_order :
    Example.zedDeclared.map (fun m => m.name) = ["Zed", "Alpha"] ∧
    Example.zed.Underlying { pkg := some "app", name := "Shape" } =
      Underlying.interface (sortMethods Example.zedDeclared) ∧
    addStruct (Example.envOf Example.zed [] []) 1 0 "app" "Shape"
        (Example.zed.Underlying { pkg := some "app", name := "Shape" }) State.empty =
      .ok (Example.stateOf (Example.envOf Example.zed [] []) 1
        [Call.addStruct 0 "app" "Shape"
          (Example.zed.Underlying { pkg := some "app", name := "Shape" })]) ∧
    ((Example.stateOf (Example.envOf Example.zed [] []) 1
        [Call.addStruct 0 "app" "Shape"
          (Example.zed.Underlying { pkg := some "app", name := "Shape" })]).structs.lookup
        "app.Shape").map (fun e => e.Fields.map (fun f => f.Name)) = some ["Alpha", "Zed"] ∧
    ((Example.stateOf (Example.envOf Example.zed [] []) 1
        [Call.addStruct 0 "app" "Shape"
          (Example.zed.Underlying { pkg := some "app", name := "Shape" })]).structs.lookup
        "app.Shape").map (fun e => e.Fields.map (fun f => f.Name)) ≠
      some (Example.zedDeclared.map (fun m => m.name)) := by
  refine ⟨by decide, by decide, by rfl, by decide, by decide⟩

/-- C17 (amended): a returned call of `addStruct`, with all the calls it
makes through `follow`, keeps every entry of `structs` under its key and
unchanged (all attributes), so no key is lost; every entry that is new was
built by `addStruct` as the literal for its key with one `field` per field,
in the order of `Field(i)`, which is the order of the declaration, or one per
method, in the order of `Method(i)`; and the Entity created for the call
itself, when the key was absent and the type accepted, is the one built from
the fields (or methods) the call was given.  For an interface the order of
`Method(i)` is the order of the method names, not that of the declaration:
the field names of the Entity are the declared method names, sorted. -/
theorem addStruct_only_adds {L : RegexpLib} (G : Env L) (fuel depth : Nat)
    (pkg typName : String) (u : Underlying) (s s1 : State)
    (h : addStruct G fuel depth pkg typName u s = .ok s1) :
    (∀ k e, s.structs.lookup k = some e → s1.structs.lookup k = some e) ∧
    (∀ k, k ∈ keys s.structs → k ∈ keys s1.structs) ∧
    (∀ k e, s1.structs.lookup k = some e →
      s.structs.lookup k = some e ∨ (s.structs.lookup k = none ∧ Created G k e)) ∧
    ((s.structs.lookup (pkg ++ "." ++ typName)).isSome = false →
      include_ G pkg typName = true →
      (∀ fields, u = Underlying.struct fields →
        ∃ e, s1.structs.lookup (pkg ++ "." ++ typName) = some e ∧
          e = structEntity G depth pkg typName fields ∧
          e.Fields.map (fun f => (f.Name, f.Type_)) = fields.map (fun v => (v.name, v.type))) ∧
      (∀ methods, u = Underlying.interface methods →
        ∃ e, s1.structs.lookup (pkg ++ "." ++ typName) = some e ∧
          e = ifaceEntity G depth pkg typName methods ∧
          e.Fields.map (fun f => (f.Name, f.Type_)) =
            methods.map (fun m => (m.name, m.type))) ∧
      (∀ declared, u = Underlying.interface (sortMethods declared) →
        ∃ e, s1.structs.lookup (pkg ++ "." ++ typName) = some e ∧
          (e.Fields.map (fun f => f.Name)).Perm (declared.map (fun m => m.name)) ∧
          (e.Fields.map (fun f => f.Name)).Pairwise
            (fun a b => lessChars b.data a.data = false))) := by
  have hf := addStruct_frame G fuel depth pkg typName u s s1 h
  refine ⟨hf.1, extends_keys _ _ hf.1, hf.2, ?_⟩
  intro habs hinc
  have hmeth : ∀ methods, u = Underlying.interface methods →
      ∃ e, s1.structs.lookup (pkg ++ "." ++ typName) = some e ∧
        e = ifaceEntity G depth pkg typName methods ∧
        e.Fields.map (fun f => (f.Name, f.Type_)) =
          methods.map (fun m => (m.name, m.type)) := by
    intro methods hu
    subst hu
    rcases addStruct_stores G fuel depth pkg typName _ s s1 h hinc (by simp) with
      ⟨hp, _⟩ | ⟨_, e, he, _, _, _, hs | hs⟩
    · rw [habs] at hp; cases hp
    · obtain ⟨fs, h1, _⟩ := hs
      cases h1
    · obtain ⟨ms, h1, h2⟩ := hs
      cases h1
      refine ⟨e, he, h2, ?_⟩
      rw [h2]
      simp [ifaceEntity, mkField, List.map_map, Function.comp_def]
  refine ⟨?_, hmeth, ?_⟩
  rotate_left
  · intro declared hu
    obtain ⟨e, he, hent, _⟩ := hmeth _ hu
    have hnames : e.Fields.map (fun f => f.Name) =
        (sortMethods declared).map (fun m => m.name) := by
      rw [hent]
      simp [ifaceEntity, mkField, List.map_map, Function.comp_def]
    refine ⟨e, he, ?_, ?_⟩
    · rw [hnames]
      exact (sortMethods_perm declared).map _
    · rw [hnames]
      exact List.pairwise_map.mpr (sortMethods_sorted declared)
  · intro fields hu
    subst hu
    rcases addStruct_stores G fuel depth pkg typName _ s s1 h hinc (by simp) with
      ⟨hp, _⟩ | ⟨_, e, he, _, _, _, hs | hs⟩
    · rw [habs] at hp; cases hp
    · obtain ⟨fs, h1, h2⟩ := hs
      cases h1
      refine ⟨e, he, h2, ?_⟩
      rw [h2]
      simp [structEntity, mkField, List.map_map, Function.comp_def]
    · obtain ⟨ms, h1, _⟩ := hs
      cases h1

/-- C17 (witness): `addStruct` for `pkg1.Shipment` from the empty map, with
the inclusion `pkg2:.*`. -/
theorem addStruct_only_adds_witness :
    addStruct (Example.envOf Example.shipping ["pkg2:.*"] []) 3 0 "pkg1" "Shipment"
      (Underlying.struct
        [{ name := "Dest", type := GoType.named { pkg := some "pkg2", name := "Address" } }])
      State.empty = .ok Example.shippingState ∧
    (∀ k e, State.empty.structs.lookup k = some e →
      Example.shippingState.structs.lookup k = some e) ∧
    (∀ k, k ∈ keys State.empty.structs → k ∈ keys Example.shippingState.structs) ∧
    (∀ k e, Example.shippingState.structs.lookup k = some e →
      State.empty.structs.lookup k = some e ∨
        (State.empty.structs.lookup k = none ∧
          Created (Example.envOf Example.shipping ["pkg2:.*"] []) k e)) ∧
    ((State.empty.structs.lookup ("pkg1" ++ "." ++ "Shipment")).isSome = false →
      include_ (Example.envOf Example.shipping ["pkg2:.*"] []) "pkg1" "Shipment" = true →
      (∀ fields,
        Underlying.struct
          [{ name := "Dest", type := GoType.named { pkg := some "pkg2", name := "Address" } }] =
          Underlying.struct fields →
        ∃ e, Example.shippingState.structs.lookup ("pkg1" ++ "." ++ "Shipment") = some e ∧
          e = structEntity (Example.envOf Example.shipping ["pkg2:.*"] []) 0 "pkg1" "Shipment"
            fields ∧
          e.Fields.map (fun f => (f.Name, f.Type_)) = fields.map (fun v => (v.name, v.type))) ∧
      (∀ methods,
        Underlying.struct
          [{ name := "Dest", type := GoType.named { pkg := some "pkg2", name := "Address" } }] =
          Underlying.interface methods →
        ∃ e, Example.shippingState.structs.lookup ("pkg1" ++ "." ++ "Shipment") = some e ∧
          e = ifaceEntity (Example.envOf Example.shipping ["pkg2:.*"] []) 0 "pkg1" "Shipment"
            methods ∧
          e.Fields.map (fun f => (f.Name, f.Type_)) =
            methods.map (fun m => (m.name, m.type))) ∧
      (∀ declared,
        Underlying.struct
          [{ name := "Dest", type := GoType.named { pkg := some "pkg2", name := "Address" } }] =
          Underlying.interface (sortMethods declared) →
        ∃ e, Example.shippingState.structs.lookup ("pkg1" ++ "." ++ "Shipment") = some e ∧
          (e.Fields.map (fun f => f.Name)).Perm (declared.map (fun m => m.name)) ∧
          (e.Fields.map (fun f => f.Name)).Pairwise
            (fun a b => lessChars b.data a.data = false))) :=
  ⟨by rfl,
    addStruct_only_adds (Example.envOf Example.shipping ["pkg2:.*"] []) 3 0 "pkg1" "Shipment"
      (Underlying.struct
        [{ name := "Dest", type := GoType.named { pkg := some "pkg2", name := "Address" } }])
      State.empty Example.shippingState (by rfl)⟩
/-! ## The link construction, exactly -/

theorem linkNames_links (structs : List (String × structType)) (str : structType)
    (f : field) (names : List Named) (acc : LinkAcc) :
    (linkNames structs str f names acc).links = acc.links ++
      ((names.filter (fun n => (structs.lookup n.String).isSome)).map
        (fun n => ({ FromStruct := str.FullName, FromField := f.Name
                     ToStruct := n.String } : useInfo))) := by
  induction names generalizing acc with
  | nil => simp [linkNames]
  | cons n rest ih =>
    simp only [linkNames]
    by_cases h : (structs.lookup n.String).isSome = true
    · simp only [h, if_true, ih, List.filter_cons_of_pos, List.map_cons, List.append_assoc,
        List.singleton_append]
    · have h0 : (structs.lookup n.String).isSome = false := Bool.eq_false_iff.2 h
      simp only [h0, Bool.false_eq_true, if_false, ih]
      rw [List.filter_cons_of_neg (by simp [h0])]

theorem linkFields_links (structs : List (String × structType)) (str : structType)
    (fields : List field) (acc : LinkAcc) :
    (linkFields structs str fields acc).links = acc.links ++ entityLinks structs str fields := by
  induction fields generalizing acc with
  | nil => simp [linkFields, entityLinks]
  | cons f rest ih =>
    simp only [linkFields, entityLinks, ih, linkNames_links, fieldLinks, List.append_assoc]

theorem linkStructs_links (structs order : List (String × structType)) (acc : LinkAcc) :
    (linkStructs structs order acc).links = acc.links ++ allLinks structs order := by
  induction order generalizing acc with
  | nil => simp [linkStructs, allLinks]
  | cons e rest ih =>
    obtain ⟨k, str⟩ := e
    simp only [linkStructs, allLinks, ih, linkFields_links, List.append_assoc]

theorem mem_fieldLinks_iff (structs : List (String × structType)) (str : structType)
    (f : field) (l : useInfo) :
    l ∈ fieldLinks structs str f ↔
      ∃ T ∈ findNamedTypes f.Type_, (structs.lookup T.String).isSome = true ∧
        l = { FromStruct := str.FullName, FromField := f.Name, ToStruct := T.String } := by
  simp only [fieldLinks, List.mem_map, List.mem_filter]
  constructor
  · rintro ⟨T, ⟨h1, h2⟩, rfl⟩
    exact ⟨T, h1, h2, rfl⟩
  · rintro ⟨T, h1, h2, rfl⟩
    exact ⟨T, ⟨h1, h2⟩, rfl⟩

theorem mem_entityLinks_iff (structs : List (String × structType)) (str : structType)
    (fields : List field) (l : useInfo) :
    l ∈ entityLinks structs str fields ↔
      ∃ f ∈ fields, ∃ T ∈ findNamedTypes f.Type_, (structs.lookup T.String).isSome = true ∧
        l = { FromStruct := str.FullName, FromField := f.Name, ToStruct := T.String } := by
  induction fields with
  | nil => simp [entityLinks]
  | cons g rest ih =>
    simp only [entityLinks, List.mem_append, ih, mem_fieldLinks_iff, List.mem_cons,
      exists_eq_or_imp]

theorem mem_allLinks_iff (structs order : List (String × structType)) (l : useInfo) :
    l ∈ allLinks structs order ↔
      ∃ e ∈ order, ∃ f ∈ e.2.Fields, ∃ T ∈ findNamedTypes f.Type_,
        (structs.lookup T.String).isSome = true ∧
        l = { FromStruct := e.2.FullName, FromField := f.Name, ToStruct := T.String } := by
  induction order with
  | nil => simp [allLinks]
  | cons e rest ih =>
    simp only [allLinks, List.mem_append, ih, mem_entityLinks_iff, List.mem_cons,
      exists_eq_or_imp]

theorem findNamedTypes_length_of_mapFree (t : GoType) (h : mapFree t = true) :
    (findNamedTypes t).length ≤ 1 := by
  induction t with
  | map k e _ _ => simp [mapFree] at h
  | named n => simp [findNamedTypes]
  | array len e ih => exact ih (by simpa [mapFree] using h)
  | chan e ih => exact ih (by simpa [mapFree] using h)
  | pointer e ih => exact ih (by simpa [mapFree] using h)
  | slice e ih => exact ih (by simpa [mapFree] using h)
  | basic name => simp [findNamedTypes]
  | signature desc => simp [findNamedTypes]
  | struct desc => simp [findNamedTypes]
  | interface desc => simp [findNamedTypes]

theorem fieldLinks_length_of_mapFree (structs : List (String × structType))
    (str : structType) (f : field) (h : mapFree f.Type_ = true) :
    (fieldLinks structs str f).length ≤ 1 := by
  unfold fieldLinks
  rw [List.length_map]
  exact le_trans (List.length_filter_le _ _) (findNamedTypes_length_of_mapFree _ h)

theorem entityLinks_length_of_mapFree (structs : List (String × structType))
    (str : structType) (fields : List field) (h : ∀ f ∈ fields, mapFree f.Type_ = true) :
    (entityLinks structs str fields).length ≤ fields.length := by
  induction fields with
  | nil => simp [entityLinks]
  | cons f rest ih =>
    simp only [entityLinks, List.length_append, List.length_cons]
    have h1 := fieldLinks_length_of_mapFree structs str f (h f (List.mem_cons_self _ _))
    have h2 := ih (fun g hg => h g (List.mem_cons_of_mem _ hg))
    omega

theorem linkNames_endsOK (structs : List (String × structType)) (str : structType)
    (f : field) (names : List Named) (acc : LinkAcc) (h : EndsOK acc) :
    EndsOK (linkNames structs str f names acc) := by
  induction names generalizing acc with
  | nil => exact h
  | cons n rest ih =>
    simp only [linkNames]
    split
    · apply ih
      intro k
      simp only [List.mem_cons, List.mem_append, List.not_mem_nil, or_false, h k]
      constructor
      · rintro (rfl | rfl | ⟨l, hl, hk⟩)
        · exact ⟨_, Or.inr rfl, Or.inr rfl⟩
        · exact ⟨_, Or.inr rfl, Or.inl rfl⟩
        · exact ⟨l, Or.inl hl, hk⟩
      · rintro ⟨l, hl | rfl, hk⟩
        · exact Or.inr (Or.inr ⟨l, hl, hk⟩)
        · rcases hk with hk | hk
          · exact Or.inr (Or.inl hk.symm)
          · exact Or.inl hk.symm
    · exact ih acc h

theorem linkFields_endsOK (structs : List (String × structType)) (str : structType)
    (fields : List field) (acc : LinkAcc) (h : EndsOK acc) :
    EndsOK (linkFields structs str fields acc) := by
  induction fields generalizing acc with
  | nil => exact h
  | cons f rest ih =>
    simp only [linkFields]
    exact ih _ (linkNames_endsOK structs str f _ acc h)

theorem linkStructs_endsOK (structs order : List (String × structType)) (acc : LinkAcc)
    (h : EndsOK acc) : EndsOK (linkStructs structs order acc) := by
  induction order generalizing acc with
  | nil => exact h
  | cons e rest ih =>
    obtain ⟨k, str⟩ := e
    simp only [linkStructs]
    exact ih _ (linkFields_endsOK structs str _ acc h)

theorem endsOK_empty : EndsOK { links := [], nonOrphans := [] } := by
  intro k
  simp
/-! ## The run of `main` after discovery -/

theorem main_ok_cases (L : RegexpLib) (H : Host) (fuel : Nat) (fl : Flags) (run : Run)
    (h : main L H fuel fl = .ok run) :
    (run.structs = [] ∧ run.links = [] ∧ run.nodes = [] ∧ run.arrows = []) ∨
    ∃ prog s, H.load (pkgNamesOf fl) = some prog ∧
      discover (mainEnv L H fl prog) fuel prog.Imported State.empty = .ok s ∧
      run.links =
        (linkStructs s.structs (H.range s.structs) { links := [], nonOrphans := [] }).links ∧
      ((H.createOk = false ∧ run.structs = s.structs ∧ run.nodes = [] ∧ run.arrows = []) ∨
       (H.createOk = true ∧
        run.structs = s.structs.map (fun e => (e.1, markOrphan
          (linkStructs s.structs (H.range s.structs)
            { links := [], nonOrphans := [] }).nonOrphans e.2)) ∧
        run.nodes = exportNodes fl.includeOrphans
          (linkStructs s.structs (H.range s.structs)
            { links := [], nonOrphans := [] }).nonOrphans (H.rangeExport s.structs) ∧
        run.arrows = run.links)) := by
  unfold main at h
  cases hl : H.load (pkgNamesOf fl) with
  | none =>
    rw [hl] at h
    simp only [Except.ok.injEq] at h
    subst h
    exact Or.inl ⟨rfl, rfl, rfl, rfl⟩
  | some prog =>
    rw [hl] at h
    simp only at h
    cases hd : discover (mainEnv L H fl prog) fuel prog.Imported State.empty with
    | error e => rw [hd] at h; cases h
    | ok s =>
      rw [hd] at h
      simp only at h
      by_cases hlen : s.structs.length = 0
      · simp only [hlen, if_true, Except.ok.injEq] at h
        subst h
        exact Or.inl ⟨List.length_eq_zero.mp hlen, rfl, rfl, rfl⟩
      · simp only [hlen, if_false] at h
        right
        refine ⟨prog, s, rfl, hd, ?_⟩
        cases hc : H.createOk
        · simp only [hc, Bool.not_false, if_true, Except.ok.injEq] at h
          subst h
          exact ⟨rfl, Or.inl ⟨rfl, rfl, rfl, rfl⟩⟩
        · simp only [hc, Bool.not_true, Bool.false_eq_true, if_false, Except.ok.injEq] at h
          subst h
          exact ⟨rfl, Or.inr ⟨rfl, rfl, rfl, rfl⟩⟩

theorem filter_ne_of_absent (m : List (String × structType)) (k : String)
    (h : (m.lookup k).isSome = false) : m.filter (fun e => e.1 != k) = m := by
  apply List.filter_eq_self.mpr
  intro e he
  simp only [bne_iff_ne, ne_eq]
  intro hk
  have : k ∈ keys m := List.mem_map.mpr ⟨e, he, hk⟩
  rw [mem_keys_iff, h] at this
  cases this

theorem mapOK_mapSet (m : List (String × structType)) (k : String) (v : structType)
    (h : (m.lookup k).isSome = false) (hv : v.FullName = k) (hm : MapOK m) :
    MapOK (mapSet m k v) := by
  unfold mapSet
  rw [filter_ne_of_absent m k h]
  constructor
  · show (k :: keys m).Nodup
    refine List.nodup_cons.mpr ⟨fun hk => ?_, hm.1⟩
    rw [mem_keys_iff, h] at hk
    cases hk
  · intro e he
    rcases List.mem_cons.mp he with rfl | he
    · exact hv
    · exact hm.2 e he

theorem discover_mapOK {L : RegexpLib} (G : Env L) (fuel : Nat)
    (pkgs : List (String × PackageInfo)) (s s1 : State)
    (h : discover G fuel pkgs s = .ok s1) (hs : MapOK s.structs) : MapOK s1.structs :=
  discover_rel G (fun a b => MapOK a.structs → MapOK b.structs) (fun _ h => h)
    (fun _ _ _ h1 h2 h => h2 (h1 h))
    (fun s _ _ _ _ h _ hm => mapOK_mapSet s.structs _ _ h rfl hm)
    (fun s _ _ _ _ h _ hm => mapOK_mapSet s.structs _ _ h rfl hm) fuel pkgs s s1 h hs

theorem runCalls_mapOK {L : RegexpLib} (G : Env L) (fuel : Nat) (calls : List Call)
    (s s1 : State) (h : runCalls G fuel calls s = .ok s1) (hs : MapOK s.structs) :
    MapOK s1.structs :=
  runCalls_rel G (fun a b => MapOK a.structs → MapOK b.structs) (fun _ h => h)
    (fun _ _ _ h1 h2 h => h2 (h1 h))
    (fun s _ _ _ _ h _ hm => mapOK_mapSet s.structs _ _ h rfl hm)
    (fun s _ _ _ _ h _ hm => mapOK_mapSet s.structs _ _ h rfl hm)
    (fun _ _ h => h) fuel calls s s1 h hs

theorem mapOK_nil : MapOK [] := ⟨List.nodup_nil, fun _ h => by cases h⟩

theorem lookup_of_mem_nodup {β : Type} (m : List (String × β)) (k : String) (v : β)
    (hn : (m.map Prod.fst).Nodup) (h : (k, v) ∈ m) : m.lookup k = some v := by
  induction m with
  | nil => cases h
  | cons e m ih =>
    obtain ⟨k1, v1⟩ := e
    simp only [List.map_cons, List.nodup_cons] at hn
    rcases List.mem_cons.mp h with h | h
    · cases h
      simp [List.lookup]
    · have hne : k ≠ k1 := by
        intro e
        exact hn.1 (List.mem_map.mpr ⟨(k, v), h, e⟩)
      have hb : (k == k1) = false := by simpa using hne
      simp only [List.lookup, hb]
      exact ih hn.2 h

theorem lookup_map_snd (m : List (String × structType)) (g : structType → structType)
    (k : String) :
    (m.map (fun e => (e.1, g e.2))).lookup k = (m.lookup k).map g := by
  induction m with
  | nil => rfl
  | cons e m ih =>
    obtain ⟨k1, v1⟩ := e
    simp only [List.map_cons, List.lookup]
    cases hk : (k == k1)
    · exact ih
    · rfl

theorem mem_exportNodes_iff (io : Bool) (no : List String)
    (order : List (String × structType)) (e : structType) :
    e ∈ exportNodes io no order ↔
      ∃ x ∈ order, e = markOrphan no x.2 ∧ (io = true ∨ e.Orphan = false) := by
  induction order with
  | nil => simp [exportNodes]
  | cons x rest ih =>
    obtain ⟨k, str⟩ := x
    simp only [exportNodes, List.mem_cons, exists_eq_or_imp]
    by_cases hc : (io || !(markOrphan no str).Orphan) = true
    · simp only [hc, if_true, List.mem_cons, ih]
      constructor
      · rintro (rfl | h)
        · left
          refine ⟨rfl, ?_⟩
          simpa using hc
        · exact Or.inr h
      · rintro (⟨h, _⟩ | h)
        · exact Or.inl h
        · exact Or.inr h
    · have hc0 : (io || !(markOrphan no str).Orphan) = false := Bool.eq_false_iff.2 hc
      simp only [hc0, Bool.false_eq_true, if_false, ih]
      constructor
      · exact fun h => Or.inr h
      · rintro (⟨rfl, h⟩ | h)
        · exfalso
          apply hc
          simpa using h
        · exact h

theorem markOrphan_fullName (no : List String) (e : structType) :
    (markOrphan no e).FullName = e.FullName := rfl

theorem markOrphan_fields (no : List String) (e : structType) :
    (markOrphan no e).Fields = e.Fields := rfl

theorem markOrphan_orphan (no : List String) (e : structType) :
    (markOrphan no e).Orphan = true ↔ e.FullName ∉ no := by
  simp [markOrphan]
/-! ## Claims on the links -/

theorem nodup_of_length_le_one {α : Type} (l : List α) (h : l.length ≤ 1) : l.Nodup := by
  match l, h with
  | [], _ => exact List.nodup_nil
  | [a], _ => exact List.nodup_singleton a

theorem entityLinks_pairs (structs : List (String × structType)) (str : structType)
    (fields : List field) (x : String × String)
    (hx : x ∈ (entityLinks structs str fields).map (fun l => (l.FromStruct, l.FromField))) :
    x.1 = str.FullName ∧ x.2 ∈ fields.map (fun f => f.Name) := by
  obtain ⟨l, hl, rfl⟩ := List.mem_map.mp hx
  obtain ⟨f, hf, T, _, _, rfl⟩ := (mem_entityLinks_iff structs str fields l).mp hl
  exact ⟨rfl, List.mem_map.mpr ⟨f, hf, rfl⟩⟩

theorem entityLinks_pairs_nodup (structs : List (String × structType)) (str : structType)
    (fields : List field) (hn : (fields.map (fun f => f.Name)).Nodup)
    (hm : ∀ f ∈ fields, mapFree f.Type_ = true) :
    ((entityLinks structs str fields).map (fun l => (l.FromStruct, l.FromField))).Nodup := by
  induction fields with
  | nil => simp [entityLinks]
  | cons f rest ih =>
    simp only [List.map_cons, List.nodup_cons] at hn
    simp only [entityLinks, List.map_append]
    refine List.Nodup.append ?_ (ih hn.2 (fun g hg => hm g (List.mem_cons_of_mem _ hg))) ?_
    · apply nodup_of_length_le_one
      rw [List.length_map]
      exact fieldLinks_length_of_mapFree structs str f (hm f (List.mem_cons_self _ _))
    · intro x hx1 hx2
      obtain ⟨l, hl, rfl⟩ := List.mem_map.mp hx1
      obtain ⟨T, _, _, rfl⟩ := (mem_fieldLinks_iff structs str f l).mp hl
      exact hn.1 (entityLinks_pairs structs str rest _ hx2).2

theorem allLinks_pairs_nodup (structs order : List (String × structType))
    (hn : (order.map (fun e => e.2.FullName)).Nodup)
    (hf : ∀ e ∈ order, (e.2.Fields.map (fun f => f.Name)).Nodup ∧
      ∀ f ∈ e.2.Fields, mapFree f.Type_ = true) :
    ((allLinks structs order).map (fun l => (l.FromStruct, l.FromField))).Nodup := by
  induction order with
  | nil => simp [allLinks]
  | cons e rest ih =>
    simp only [List.map_cons, List.nodup_cons] at hn
    simp only [allLinks, List.map_append]
    refine List.Nodup.append
      (entityLinks_pairs_nodup structs e.2 _ (hf e (List.mem_cons_self _ _)).1
        (hf e (List.mem_cons_self _ _)).2)
      (ih hn.2 (fun g hg => hf g (List.mem_cons_of_mem _ hg))) ?_
    intro x hx1 hx2
    have h1 := (entityLinks_pairs structs e.2 _ x hx1).1
    obtain ⟨l, hl, rfl⟩ := List.mem_map.mp hx2
    obtain ⟨g, hg, f, _, T, _, _, rfl⟩ := (mem_allLinks_iff structs rest l).mp hl
    apply hn.1
    simp only at h1
    rw [← h1]
    exact List.mem_map.mpr ⟨g, hg, rfl⟩

/-- C13 (counterexample): with `Index{ByKey map[Key]Value}`, `Key{}` and
`Value{}` in root `app`, `main` builds two links for the one field of
`Index`; both carry `app.Index` and `ByKey`. -/
theorem links_share_field :
    (Example.runOf (Example.hostOf Example.index) 3 (Example.plainFlags false)).links =
      [{ FromStruct := "app.Index", FromField := "ByKey", ToStruct := "app.Key" },
       { FromStruct := "app.Index", FromField := "ByKey", ToStruct := "app.Value" }] ∧
    main goRegexp (Example.hostOf Example.index) 3 (Example.plainFlags false) =
      .ok (Example.runOf (Example.hostOf Example.index) 3 (Example.plainFlags false)) ∧
    ¬ (((Example.runOf (Example.hostOf Example.index) 3 (Example.plainFlags false)).links.map
        (fun l => (l.FromStruct, l.FromField))).Nodup) ∧
    ((Example.runOf (Example.hostOf Example.index) 3 (Example.plainFlags false)).structs.lookup
        "app.Index").map (fun e => e.Fields.length) = some 1 := by
  refine ⟨by decide, by rfl, by decide, by decide⟩

/-- C13 (amended): the link construction yields exactly one link per named
type that `findNamedTypes` returns for the type of a field and whose full
name is a key of `structs`, struct after struct in the order visited and
field after field, carrying the full name of the struct, the name of the
field and the full name of the named type.  A field whose type contains no
map gives at most one link; for a struct whose field types contain no map
the number of links leaving it is at most its number of fields, and if
moreover field names and full names are not repeated, no two links share
`FromStruct` and `FromField`. -/
theorem links_per_named_type (structs order : List (String × structType)) :
    (linkStructs structs order { links := [], nonOrphans := [] }).links =
      allLinks structs order ∧
    (∀ l, l ∈ allLinks structs order ↔
      ∃ e ∈ order, ∃ f ∈ e.2.Fields, ∃ T ∈ findNamedTypes f.Type_,
        (structs.lookup T.String).isSome = true ∧
        l = { FromStruct := e.2.FullName, FromField := f.Name, ToStruct := T.String }) ∧
    (∀ str f, mapFree f.Type_ = true → (fieldLinks structs str f).length ≤ 1) ∧
    (∀ str : structType, (∀ f ∈ str.Fields, mapFree f.Type_ = true) →
      (entityLinks structs str str.Fields).length ≤ str.Fields.length) ∧
    ((order.map (fun e => e.2.FullName)).Nodup →
      (∀ e ∈ order, (e.2.Fields.map (fun f => f.Name)).Nodup ∧
        ∀ f ∈ e.2.Fields, mapFree f.Type_ = true) →
      ((allLinks structs order).map (fun l => (l.FromStruct, l.FromField))).Nodup) := by
  refine ⟨?_, mem_allLinks_iff structs order, ?_, ?_, allLinks_pairs_nodup structs order⟩
  · rw [linkStructs_links]
    rfl
  · exact fun str f h => fieldLinks_length_of_mapFree structs str f h
  · exact fun str h => entityLinks_length_of_mapFree structs str _ h

theorem mem_run_structs (no : List String) (m : List (String × structType))
    (x : String × structType)
    (hx : x ∈ m.map (fun e => (e.1, markOrphan no e.2))) :
    ∃ e0, (x.1, e0) ∈ m ∧ x.2 = markOrphan no e0 := by
  obtain ⟨e, he, rfl⟩ := List.mem_map.mp hx
  exact ⟨e.2, he, rfl⟩

/-- C14: when `main` has run its export loop, an Entity of `structs` has
`Orphan` set exactly when its full name is neither the `FromStruct` nor the
`ToStruct` of a link; an Entity that references itself is not an orphan. -/
theorem orphan_iff_no_link (L : RegexpLib) (H : Host) (fuel : Nat) (fl : Flags) (run : Run)
    (h : main L H fuel fl = .ok run) (hc : H.createOk = true) :
    ∀ e ∈ run.structs,
      (e.2.Orphan = true ↔
        ∀ l ∈ run.links, l.FromStruct ≠ e.2.FullName ∧ l.ToStruct ≠ e.2.FullName) ∧
      ((∃ l ∈ run.links, l.FromStruct = e.2.FullName ∧ l.ToStruct = e.2.FullName) →
        e.2.Orphan = false) := by
  intro e he
  have key : e.2.Orphan = true ↔
      ∀ l ∈ run.links, l.FromStruct ≠ e.2.FullName ∧ l.ToStruct ≠ e.2.FullName := by
    rcases main_ok_cases L H fuel fl run h with ⟨h1, _⟩ | ⟨prog, s, _, _, hlinks, hrest⟩
    · rw [h1] at he; cases he
    · rcases hrest with ⟨hc0, _⟩ | ⟨_, hstructs, _, _⟩
      · rw [hc] at hc0; cases hc0
      · rw [hstructs] at he
        obtain ⟨e0, _, he2⟩ := mem_run_structs _ _ e he
        have hends := linkStructs_endsOK s.structs (H.range s.structs)
          { links := [], nonOrphans := [] } endsOK_empty
        rw [he2, markOrphan_orphan, markOrphan_fullName, hends e0.FullName, hlinks]
        constructor
        · intro hno l hl
          exact ⟨fun h1 => hno ⟨l, hl, Or.inl h1⟩, fun h1 => hno ⟨l, hl, Or.inr h1⟩⟩
        · rintro hall ⟨l, hl, h1 | h1⟩
          · exact (hall l hl).1 h1
          · exact (hall l hl).2 h1
  refine ⟨key, ?_⟩
  rintro ⟨l, hl, h1, _⟩
  cases ho : e.2.Orphan
  · rfl
  · exact absurd h1 ((key.mp ho) l hl).1

/-- C14 (witness): root `app` with `A{B *B}`, `B{A *A}` and the
self-referencing `Node{Next *Node}`. -/
theorem orphan_iff_no_link_witness :
    main goRegexp (Example.hostOf Example.cyclic) 4 (Example.plainFlags false) =
      .ok (Example.runOf (Example.hostOf Example.cyclic) 4 (Example.plainFlags false)) ∧
    (Example.hostOf Example.cyclic).createOk = true ∧
    ((Example.runOf (Example.hostOf Example.cyclic) 4 (Example.plainFlags false)).structs.map
      (fun e => (e.1, e.2.Orphan))) =
      [("app.Node", false), ("app.B", false), ("app.A", false)] ∧
    ∀ e ∈ (Example.runOf (Example.hostOf Example.cyclic) 4 (Example.plainFlags false)).structs,
      (e.2.Orphan = true ↔
        ∀ l ∈ (Example.runOf (Example.hostOf Example.cyclic) 4 (Example.plainFlags false)).links,
          l.FromStruct ≠ e.2.FullName ∧ l.ToStruct ≠ e.2.FullName) ∧
      ((∃ l ∈ (Example.runOf (Example.hostOf Example.cyclic) 4
            (Example.plainFlags false)).links,
          l.FromStruct = e.2.FullName ∧ l.ToStruct = e.2.FullName) →
        e.2.Orphan = false) :=
  ⟨by rfl, rfl, by decide,
    orphan_iff_no_link goRegexp (Example.hostOf Example.cyclic) 4 (Example.plainFlags false)
      _ (by rfl) rfl⟩

/-- C15: when `main` has run its export loop, an Entity is handed to the
struct template exactly when it is an Entity of `structs` and
`includeOrphans` is set or it is not an orphan.  With `includeOrphans` every
Entity is exported, an orphan with `Orphan` set; without it an orphan is not
exported and stays in `structs`. -/
theorem exported_iff (L : RegexpLib) (H : Host) (fuel : Nat) (fl : Flags) (run : Run)
    (h : main L H fuel fl = .ok run) (hc : H.createOk = true)
    (hrange : ∀ m, (H.rangeExport m).Perm m) :
    (∀ e, e ∈ run.nodes ↔
      (∃ k, (k, e) ∈ run.structs) ∧ (fl.includeOrphans = true ∨ e.Orphan = false)) ∧
    (fl.includeOrphans = true → ∀ x ∈ run.structs, x.2 ∈ run.nodes) ∧
    (fl.includeOrphans = false → ∀ x ∈ run.structs, x.2.Orphan = true →
      x.2 ∉ run.nodes ∧ x ∈ run.structs) := by
  have key : ∀ e, e ∈ run.nodes ↔
      (∃ k, (k, e) ∈ run.structs) ∧ (fl.includeOrphans = true ∨ e.Orphan = false) := by
    intro e
    rcases main_ok_cases L H fuel fl run h with ⟨h1, _, h3, _⟩ | ⟨prog, s, _, _, _, hrest⟩
    · rw [h1, h3]
      simp
    · rcases hrest with ⟨hc0, _⟩ | ⟨_, hstructs, hnodes, _⟩
      · rw [hc] at hc0; cases hc0
      · rw [hnodes, hstructs, mem_exportNodes_iff]
        constructor
        · rintro ⟨x, hx, he, hio⟩
          refine ⟨⟨x.1, List.mem_map.mpr ⟨x, (hrange _).subset hx, ?_⟩⟩, hio⟩
          rw [he]
        · rintro ⟨⟨k, hk⟩, hio⟩
          obtain ⟨x, hx, hxe⟩ := List.mem_map.mp hk
          refine ⟨x, (hrange _).symm.subset hx, ?_, hio⟩
          exact (congrArg Prod.snd hxe).symm
  refine ⟨key, ?_, ?_⟩
  · intro hio x hx
    exact (key x.2).mpr ⟨⟨x.1, hx⟩, Or.inl hio⟩
  · intro hio x hx ho
    refine ⟨fun hn => ?_, hx⟩
    rcases ((key x.2).mp hn).2 with h1 | h1
    · rw [hio] at h1; cases h1
    · rw [ho] at h1; cases h1

/-- C15 (witness): the lone `Report{}` in root `app`, without
`--includeOrphans`: one Entity, flagged orphan, nothing exported. -/
theorem exported_iff_witness :
    main goRegexp (Example.hostOf Example.report) 3 (Example.plainFlags false) =
      .ok (Example.runOf (Example.hostOf Example.report) 3 (Example.plainFlags false)) ∧
    ((Example.runOf (Example.hostOf Example.report) 3 (Example.plainFlags false)).structs.map
      (fun e => (e.1, e.2.Orphan))) = [("app.Report", true)] ∧
    (Example.runOf (Example.hostOf Example.report) 3 (Example.plainFlags false)).nodes = [] ∧
    ((Example.runOf (Example.hostOf Example.report) 3 (Example.plainFlags true)).nodes.map
      (fun e => (e.FullName, e.Orphan))) = [("app.Report", true)] ∧
    ((∀ e, e ∈ (Example.runOf (Example.hostOf Example.report) 3
          (Example.plainFlags false)).nodes ↔
      (∃ k, (k, e) ∈ (Example.runOf (Example.hostOf Example.report) 3
          (Example.plainFlags false)).structs) ∧
        ((Example.plainFlags false).includeOrphans = true ∨ e.Orphan = false)) ∧
    ((Example.plainFlags false).includeOrphans = true →
      ∀ x ∈ (Example.runOf (Example.hostOf Example.report) 3
          (Example.plainFlags false)).structs,
        x.2 ∈ (Example.runOf (Example.hostOf Example.report) 3
          (Example.plainFlags false)).nodes) ∧
    ((Example.plainFlags false).includeOrphans = false →
      ∀ x ∈ (Example.runOf (Example.hostOf Example.report) 3
          (Example.plainFlags false)).structs,
        x.2.Orphan = true →
        x.2 ∉ (Example.runOf (Example.hostOf Example.report) 3
            (Example.plainFlags false)).nodes ∧
          x ∈ (Example.runOf (Example.hostOf Example.report) 3
            (Example.plainFlags false)).structs)) :=
  ⟨by rfl, by decide, by decide, by decide,
    exported_iff goRegexp (Example.hostOf Example.report) 3 (Example.plainFlags false) _
      (by rfl) rfl (fun m => List.Perm.refl m)⟩

theorem mem_of_lookup_isSome (m : List (String × structType)) (k : String)
    (h : (m.lookup k).isSome = true) : ∃ v, m.lookup k = some v ∧ (k, v) ∈ m := by
  cases hl : m.lookup k with
  | none => rw [hl] at h; cases h
  | some v => exact ⟨v, rfl, mem_of_lookup m k v hl⟩

/-- C18: `addStruct` for an accepted interface stores its Entity and returns
without entering `follow`, so nothing else is added; the type of every field
of an interface Entity is a method signature, for which `findNamedTypes`
returns the empty list; and after any sequence of discovery calls from the
empty map, no link built from `structs`, in any visiting order, has the key
of an interface Entity as its `FromStruct`. -/
theorem interface_entity_no_outgoing {L : RegexpLib} (G : Env L) (fuel : Nat)
    (calls : List Call) (s : State) (h : runCalls G fuel calls State.empty = .ok s) :
    (∀ fuel1 depth pkg typName methods (s0 : State),
      (s0.structs.lookup (pkg ++ "." ++ typName)).isSome = false →
      include_ G pkg typName = true →
      addStruct G (fuel1 + 1) depth pkg typName (Underlying.interface methods) s0 =
        .ok { structs := mapSet s0.structs (pkg ++ "." ++ typName)
                (ifaceEntity G depth pkg typName methods)
              followed := s0.followed }) ∧
    (∀ d p n methods, ∀ f ∈ (ifaceEntity G d p n methods).Fields, findNamedTypes f.Type_ = []) ∧
    (∀ k d p n methods, s.structs.lookup k = some (ifaceEntity G d p n methods) →
      ∀ order, order.Perm s.structs →
      ∀ l ∈ (linkStructs s.structs order { links := [], nonOrphans := [] }).links,
        l.FromStruct ≠ k) := by
  have hfields : ∀ d p n methods, ∀ f ∈ (ifaceEntity G d p n methods).Fields,
      findNamedTypes f.Type_ = [] := by
    intro d p n methods f hf
    obtain ⟨m, _, rfl⟩ := List.mem_map.mp hf
    rfl
  refine ⟨?_, hfields, ?_⟩
  · intro fuel1 depth pkg typName methods s0 habs hinc
    rw [addStruct_succ]
    simp only [habs, hinc, Bool.false_eq_true, if_false, Bool.not_true]
    rfl
  · intro k d p n methods hk order hperm l hl hfrom
    have hok : MapOK s.structs := runCalls_mapOK G fuel calls State.empty s h mapOK_nil
    rw [linkStructs_links] at hl
    obtain ⟨e, he, f, hf, T, hT, _, rfl⟩ := (mem_allLinks_iff s.structs order l).mp hl
    have hmem : e ∈ s.structs := hperm.subset he
    have hkey : e.2.FullName = e.1 := hok.2 e hmem
    have hlook : s.structs.lookup e.1 = some e.2 :=
      lookup_of_mem_nodup s.structs e.1 e.2 hok.1 hmem
    simp only at hfrom
    rw [hkey] at hfrom
    rw [hfrom, hk] at hlook
    have he2 : e.2 = ifaceEntity G d p n methods := (Option.some.inj hlook).symm
    rw [he2] at hf
    rw [hfields d p n methods f hf] at hT
    cases hT

/-- C18 (witness): root `app` with the interface `Shape{Area() float64}` and
`Canvas{Items []Shape}`; the only link leaves `Canvas`. -/
theorem interface_entity_no_outgoing_witness :
    runCalls (Example.envOf Example.shapes [] []) 3 [Call.findStructs Example.shapesPkg]
      State.empty =
      .ok (Example.stateOf (Example.envOf Example.shapes [] []) 3
        [Call.findStructs Example.shapesPkg]) ∧
    (linkStructs
      (Example.stateOf (Example.envOf Example.shapes [] []) 3
        [Call.findStructs Example.shapesPkg]).structs
      (Example.stateOf (Example.envOf Example.shapes [] []) 3
        [Call.findStructs Example.shapesPkg]).structs
      { links := [], nonOrphans := [] }).links =
      [{ FromStruct := "app.Canvas", FromField := "Items", ToStruct := "app.Shape" }] ∧
    ((∀ fuel1 depth pkg typName methods (s0 : State),
      (s0.structs.lookup (pkg ++ "." ++ typName)).isSome = false →
      include_ (Example.envOf Example.shapes [] []) pkg typName = true →
      addStruct (Example.envOf Example.shapes [] []) (fuel1 + 1) depth pkg typName
          (Underlying.interface methods) s0 =
        .ok { structs := mapSet s0.structs (pkg ++ "." ++ typName)
                (ifaceEntity (Example.envOf Example.shapes [] []) depth pkg typName methods)
              followed := s0.followed }) ∧
    (∀ d p n methods,
      ∀ f ∈ (ifaceEntity (Example.envOf Example.shapes [] []) d p n methods).Fields,
        findNamedTypes f.Type_ = []) ∧
    (∀ k d p n methods,
      (Example.stateOf (Example.envOf Example.shapes [] []) 3
        [Call.findStructs Example.shapesPkg]).structs.lookup k =
        some (ifaceEntity (Example.envOf Example.shapes [] []) d p n methods) →
      ∀ order, order.Perm (Example.stateOf (Example.envOf Example.shapes [] []) 3
        [Call.findStructs Example.shapesPkg]).structs →
      ∀ l ∈ (linkStructs (Example.stateOf (Example.envOf Example.shapes [] []) 3
          [Call.findStructs Example.shapesPkg]).structs
          order { links := [], nonOrphans := [] }).links,
        l.FromStruct ≠ k)) :=
  ⟨by rfl, by decide,
    interface_entity_no_outgoing (Example.envOf Example.shapes [] []) 3
      [Call.findStructs Example.shapesPkg] _ (by rfl)⟩

/-- C20: every link built by `main` (the visiting orders being enumerations
of the map) has a key of `structs` as `FromStruct` and as `ToStruct`, and its
`FromField` is the name of a field of the Entity under `FromStruct`; when the
export loop has run, both Entities are flagged non-orphan, so both are
exported whatever `includeOrphans` is, and the arrows written are exactly
the links. -/
theorem links_connect_exported (L : RegexpLib) (H : Host) (fuel : Nat) (fl : Flags)
    (run : Run) (h : main L H fuel fl = .ok run)
    (hrange : ∀ m, (H.range m).Perm m) (hexp : ∀ m, (H.rangeExport m).Perm m) :
    (∀ l ∈ run.links, ∃ eF eT,
      run.structs.lookup l.FromStruct = some eF ∧
      run.structs.lookup l.ToStruct = some eT ∧
      (∃ f ∈ eF.Fields, f.Name = l.FromField) ∧
      (H.createOk = true →
        eF.Orphan = false ∧ eT.Orphan = false ∧ eF ∈ run.nodes ∧ eT ∈ run.nodes)) ∧
    (∀ l ∈ run.arrows, l ∈ run.links) ∧
    (H.createOk = true → run.arrows = run.links) := by
  rcases main_ok_cases L H fuel fl run h with ⟨_, h2, _, h4⟩ | ⟨prog, s, _, hd, hlinks, hrest⟩
  · rw [h2, h4]
    exact ⟨fun l hl => (by cases hl), fun l hl => hl, fun _ => rfl⟩
  · have hok : MapOK s.structs := discover_mapOK _ fuel _ State.empty s hd mapOK_nil
    have hends := linkStructs_endsOK s.structs (H.range s.structs)
      { links := [], nonOrphans := [] } endsOK_empty
    -- the two ends of a link, in the map left by discovery
    have hfind : ∀ l ∈ run.links, ∃ eF eT,
        s.structs.lookup l.FromStruct = some eF ∧ s.structs.lookup l.ToStruct = some eT ∧
        (∃ f ∈ eF.Fields, f.Name = l.FromField) ∧
        eF.FullName = l.FromStruct ∧ eT.FullName = l.ToStruct := by
      intro l hl
      rw [hlinks, linkStructs_links] at hl
      obtain ⟨e, he, f, hf, T, _, hT, rfl⟩ :=
        (mem_allLinks_iff s.structs (H.range s.structs) l).mp hl
      have hmem : e ∈ s.structs := (hrange _).subset he
      have hkey : e.2.FullName = e.1 := hok.2 e hmem
      obtain ⟨eT, hlT, hmT⟩ := mem_of_lookup_isSome s.structs T.String hT
      refine ⟨e.2, eT, ?_, hlT, ⟨f, hf, rfl⟩, rfl, hok.2 _ hmT⟩
      simp only
      rw [hkey]
      exact lookup_of_mem_nodup s.structs e.1 e.2 hok.1 hmem
    rcases hrest with ⟨hc0, hstructs, _, harrows⟩ | ⟨_, hstructs, hnodes, harrows⟩
    · refine ⟨fun l hl => ?_, ?_, ?_⟩
      · obtain ⟨eF, eT, h1, h2, h3, _, _⟩ := hfind l hl
        refine ⟨eF, eT, by rw [hstructs]; exact h1, by rw [hstructs]; exact h2, h3, ?_⟩
        intro hc
        rw [hc0] at hc
        cases hc
      · rw [harrows]
        exact fun l hl => by cases hl
      · intro hc
        rw [hc0] at hc
        cases hc
    · have hends1 : ∀ k, k ∈ (linkStructs s.structs (H.range s.structs)
          { links := [], nonOrphans := [] }).nonOrphans ↔
          ∃ l ∈ run.links, l.FromStruct = k ∨ l.ToStruct = k := by
        intro k
        rw [hlinks]
        exact hends k
      generalize (linkStructs s.structs (H.range s.structs)
        { links := [], nonOrphans := [] }).nonOrphans = no at hends1 hstructs hnodes
      refine ⟨fun l hl => ?_, ?_, fun _ => harrows⟩
      · obtain ⟨eF, eT, h1, h2, ⟨f, hf, hfn⟩, h4, h5⟩ := hfind l hl
        have hF : eF.FullName ∈ no := (hends1 _).mpr ⟨l, hl, Or.inl h4.symm⟩
        have hT : eT.FullName ∈ no := (hends1 _).mpr ⟨l, hl, Or.inr h5.symm⟩
        have hoF : (markOrphan no eF).Orphan = false := by
          cases ho : (markOrphan no eF).Orphan
          · rfl
          · exact absurd hF ((markOrphan_orphan _ _).mp ho)
        have hoT : (markOrphan no eT).Orphan = false := by
          cases ho : (markOrphan no eT).Orphan
          · rfl
          · exact absurd hT ((markOrphan_orphan _ _).mp ho)
        refine ⟨markOrphan no eF, markOrphan no eT, ?_, ?_, ⟨f, hf, hfn⟩, fun _ => ?_⟩
        · rw [hstructs, lookup_map_snd, h1]; rfl
        · rw [hstructs, lookup_map_snd, h2]; rfl
        · refine ⟨hoF, hoT, ?_, ?_⟩
          · rw [hnodes, mem_exportNodes_iff]
            exact ⟨(l.FromStruct, eF), (hexp _).symm.subset (mem_of_lookup _ _ _ h1), rfl,
              Or.inr hoF⟩
          · rw [hnodes, mem_exportNodes_iff]
            exact ⟨(l.ToStruct, eT), (hexp _).symm.subset (mem_of_lookup _ _ _ h2), rfl,
              Or.inr hoT⟩
      · rw [harrows]
        exact fun l hl => hl

/-- C20 (witness): `typegraph app` on root `app` with the interface `Shape`
and `Canvas{Items []Shape}`. -/
theorem links_connect_exported_witness :
    main goRegexp (Example.hostOf Example.shapes) 3 (Example.plainFlags false) =
      .ok (Example.runOf (Example.hostOf Example.shapes) 3 (Example.plainFlags false)) ∧
    (Example.runOf (Example.hostOf Example.shapes) 3 (Example.plainFlags false)).arrows =
      [{ FromStruct := "app.Canvas", FromField := "Items", ToStruct := "app.Shape" }] ∧
    ((∀ l ∈ (Example.runOf (Example.hostOf Example.shapes) 3 (Example.plainFlags false)).links,
      ∃ eF eT,
        (Example.runOf (Example.hostOf Example.shapes) 3
          (Example.plainFlags false)).structs.lookup l.FromStruct = some eF ∧
        (Example.runOf (Example.hostOf Example.shapes) 3
          (Example.plainFlags false)).structs.lookup l.ToStruct = some eT ∧
        (∃ f ∈ eF.Fields, f.Name = l.FromField) ∧
        ((Example.hostOf Example.shapes).createOk = true →
          eF.Orphan = false ∧ eT.Orphan = false ∧
          eF ∈ (Example.runOf (Example.hostOf Example.shapes) 3
            (Example.plainFlags false)).nodes ∧
          eT ∈ (Example.runOf (Example.hostOf Example.shapes) 3
            (Example.plainFlags false)).nodes)) ∧
    (∀ l ∈ (Example.runOf (Example.hostOf Example.shapes) 3 (Example.plainFlags false)).arrows,
      l ∈ (Example.runOf (Example.hostOf Example.shapes) 3 (Example.plainFlags false)).links) ∧
    ((Example.hostOf Example.shapes).createOk = true →
      (Example.runOf (Example.hostOf Example.shapes) 3 (Example.plainFlags false)).arrows =
        (Example.runOf (Example.hostOf Example.shapes) 3 (Example.plainFlags false)).links)) :=
  ⟨by rfl, by decide,
    links_connect_exported goRegexp (Example.hostOf Example.shapes) 3 (Example.plainFlags false)
      _ (by rfl) (fun m => List.Perm.refl m) (fun m => List.Perm.refl m)⟩
/-! ## Induction over the calls of `addStruct` -/

/-- The induction principle of `addStruct`: a property of calls that holds
for the calls that change nothing and for the interface case, and that holds
for the struct case once it holds for every call with a smaller budget,
holds for every returned call. -/
theorem addStruct_induct {L : RegexpLib} (G : Env L)
    (C : Nat → String → String → Underlying → State → State → Prop)
    (hnoop : ∀ d p n u s, C d p n u s s)
    (hiface : ∀ d p n methods s,
      (s.structs.lookup (p ++ "." ++ n)).isSome = false → include_ G p n = true →
      C d p n (Underlying.interface methods) s (storeIface G d p n methods s))
    (hstruct : ∀ fuel d p n fields s s1,
      (s.structs.lookup (p ++ "." ++ n)).isSome = false → include_ G p n = true →
      (∀ d1 p1 n1 u1 a b, addStruct G fuel d1 p1 n1 u1 a = .ok b → C d1 p1 n1 u1 a b) →
      followFields G (addStruct G fuel) (d + 1) fields (storeStruct G d p n fields s) = .ok s1 →
      C d p n (Underlying.struct fields) s s1)
    (fuel d : Nat) (p n : String) (u : Underlying) (s s1 : State)
    (h : addStruct G fuel d p n u s = .ok s1) : C d p n u s s1 := by
  induction fuel generalizing d p n u s s1 with
  | zero => simp [addStruct] at h
  | succ fuel ih =>
    rcases addStruct_cases G _ d p n u s s1 h with rfl | ⟨h1, h2, h3⟩
    · exact hnoop d p n u _
    · rcases h3 with ⟨methods, rfl, rfl⟩ | ⟨fields, fuel2, rfl, hf, hrun⟩
      · exact hiface d p n methods s h1 h2
      · have hf2 : fuel2 = fuel := by omega
        subst hf2
        exact hstruct fuel2 d p n fields s s1 h1 h2
          (fun d1 p1 n1 u1 a b hc => ih d1 p1 n1 u1 a b hc) hrun

theorem followNames_rel_mem {L : RegexpLib} (G : Env L) (R : State → State → Prop)
    (hrefl : ∀ s, R s s) (htrans : ∀ a b c, R a b → R b c → R a c)
    (Pre : State → Prop) (hPre : ∀ a b, R a b → Pre a → Pre b)
    (call : Nat → String → String → Underlying → State → Except Fault State)
    (depth : Nat) (names : List Named)
    (hcall : ∀ T ∈ names, ∀ q, T.pkg = some q → ∀ a b, Pre a →
      call depth q T.name (G.prog.Underlying T) a = .ok b → R a b)
    (s s1 : State) (hs : Pre s) (h : followNames G call depth names s = .ok s1) :
    R s s1 := by
  induction names generalizing s with
  | nil =>
    simp only [followNames, Except.ok.injEq] at h
    subst h
    exact hrefl s
  | cons n rest ih =>
    have ihr := ih (fun T hT => hcall T (List.mem_cons_of_mem _ hT))
    simp only [followNames] at h
    cases hp : n.pkg with
    | none =>
      rw [hp] at h
      exact ihr s hs h
    | some p =>
      rw [hp] at h
      simp only at h
      cases hc : call depth p n.name (G.prog.Underlying n) s with
      | error e => rw [hc] at h; cases h
      | ok s2 =>
        rw [hc] at h
        have h1 := hcall n (List.mem_cons_self _ _) p hp s s2 hs hc
        exact htrans _ _ _ h1 (ihr s2 (hPre _ _ h1 hs) h)

theorem followFields_rel_mem {L : RegexpLib} (G : Env L) (R : State → State → Prop)
    (hrefl : ∀ s, R s s) (htrans : ∀ a b c, R a b → R b c → R a c)
    (Pre : State → Prop) (hPre : ∀ a b, R a b → Pre a → Pre b)
    (call : Nat → String → String → Underlying → State → Except Fault State)
    (depth : Nat) (fields : List Var)
    (hcall : ∀ f ∈ fields, ∀ T ∈ findNamedTypes f.type, ∀ q, T.pkg = some q → ∀ a b, Pre a →
      call depth q T.name (G.prog.Underlying T) a = .ok b → R a b)
    (s s1 : State) (hs : Pre s) (h : followFields G call depth fields s = .ok s1) :
    R s s1 := by
  induction fields generalizing s with
  | nil =>
    simp only [followFields, Except.ok.injEq] at h
    subst h
    exact hrefl s
  | cons f rest ih =>
    have ihr := ih (fun g hg => hcall g (List.mem_cons_of_mem _ hg))
    simp only [followFields] at h
    cases hc : followNames G call depth (findNamedTypes f.type) s with
    | error e => rw [hc] at h; cases h
    | ok s2 =>
      rw [hc] at h
      have h1 := followNames_rel_mem G R hrefl htrans Pre hPre call depth _
        (hcall f (List.mem_cons_self _ _)) s s2 hs hc
      exact htrans _ _ _ h1 (ihr s2 (hPre _ _ h1 hs) h)

theorem findStructsLoop_rel_mem {L : RegexpLib} (G : Env L) (R : State → State → Prop)
    (hrefl : ∀ s, R s s) (htrans : ∀ a b c, R a b → R b c → R a c)
    (fuel : Nat) (pkg : String) (defs : List Object)
    (hcall : ∀ name n, Object.typeName name true (GoType.named n) ∈ defs → ∀ a b,
      addStruct G fuel 0 pkg name (G.prog.Underlying n) a = .ok b → R a b)
    (s s1 : State) (h : findStructsLoop G fuel pkg defs s = .ok s1) : R s s1 := by
  induction defs generalizing s with
  | nil =>
    simp only [findStructsLoop, Except.ok.injEq] at h
    subst h
    exact hrefl s
  | cons d rest ih =>
    have ihr := ih (fun name n hm => hcall name n (List.mem_cons_of_mem _ hm))
    cases d with
    | other =>
      simp only [findStructsLoop] at h
      exact ihr s h
    | typeName name atScope type =>
      cases atScope with
      | false =>
        simp only [findStructsLoop, Bool.not_false, if_true] at h
        exact ihr s h
      | true =>
        simp only [findStructsLoop, Bool.not_true, Bool.false_eq_true, if_false] at h
        cases type with
        | named n =>
          simp only at h
          cases hc : addStruct G fuel 0 pkg name (G.prog.Underlying n) s with
          | error e => rw [hc] at h; cases h
          | ok s2 =>
            rw [hc] at h
            exact htrans _ _ _ (hcall name n (List.mem_cons_self _ _) s s2 hc) (ihr s2 h)
        | _ => cases h

theorem discover_rel_mem {L : RegexpLib} (G : Env L) (R : State → State → Prop)
    (hrefl : ∀ s, R s s) (htrans : ∀ a b c, R a b → R b c → R a c)
    (fuel : Nat) (pkgs : List (String × PackageInfo))
    (hcall : ∀ root info, (root, info) ∈ pkgs → ∀ name n,
      Object.typeName name true (GoType.named n) ∈ info.Defs → ∀ a b,
      addStruct G fuel 0 info.Pkg name (G.prog.Underlying n) a = .ok b → R a b)
    (s s1 : State) (h : discover G fuel pkgs s = .ok s1) : R s s1 := by
  induction pkgs generalizing s with
  | nil =>
    simp only [discover, Except.ok.injEq] at h
    subst h
    exact hrefl s
  | cons x rest ih =>
    obtain ⟨root, info⟩ := x
    have ihr := ih (fun r i hm => hcall r i (List.mem_cons_of_mem _ hm))
    simp only [discover] at h
    cases hc : findStructs G fuel info s with
    | error e => rw [hc] at h; cases h
    | ok s2 =>
      rw [hc] at h
      exact htrans _ _ _
        (findStructsLoop_rel_mem G R hrefl htrans fuel info.Pkg info.Defs
          (hcall root info (List.mem_cons_self _ _)) s s2 hc)
        (ihr s2 h)
/-! ## Depth -/

theorem hasParent_mono (m m1 : List (String × structType)) (h : Extends m m1) (k : String)
    (e : structType) (hp : HasParent m k e) : HasParent m1 k e := by
  obtain ⟨kp, ep, f, T, q, h1, h2⟩ := hp
  exact ⟨kp, ep, f, T, q, h _ _ h1, h2⟩

theorem parentRel_refl (s : State) : ParentRel s s :=
  ⟨extends_refl _, fun k e h1 h2 => by rw [h1] at h2; cases h2⟩

theorem parentRel_trans (a b c : State) (h1 : ParentRel a b) (h2 : ParentRel b c) :
    ParentRel a c := by
  refine ⟨extends_trans _ _ _ h1.1 h2.1, fun k e ha hc => ?_⟩
  cases hb : b.structs.lookup k with
  | none => exact h2.2 k e hb hc
  | some e1 =>
    have := h2.1 k e1 hb
    rw [hc] at this
    cases this
    exact hasParent_mono _ _ h2.1 k e (h1.2 k e ha hb)

theorem rootRel_refl (prog : Program) (s : State) : RootRel prog s s :=
  ⟨extends_refl _, fun k e h1 h2 => by rw [h1] at h2; cases h2⟩

theorem rootRel_trans (prog : Program) (a b c : State) (h1 : RootRel prog a b)
    (h2 : RootRel prog b c) : RootRel prog a c := by
  refine ⟨extends_trans _ _ _ h1.1 h2.1, fun k e ha hc => ?_⟩
  cases hb : b.structs.lookup k with
  | none => exact h2.2 k e hb hc
  | some e1 =>
    have := h2.1 k e1 hb
    rw [hc] at this
    cases this
    rcases h1.2 k e ha hb with h | h
    · exact Or.inl h
    · exact Or.inr (hasParent_mono _ _ h2.1 k e h)

theorem lookup_none_of_isSome_false (m : List (String × structType)) (k : String)
    (h : (m.lookup k).isSome = false) : m.lookup k = none := by
  cases hl : m.lookup k with
  | none => rfl
  | some v => rw [hl] at h; cases h

theorem addStruct_depthPost {L : RegexpLib} (G : Env L) (fuel d : Nat) (p n : String)
    (u : Underlying) (s s1 : State) (h : addStruct G fuel d p n u s = .ok s1) :
    DepthPost d p n s s1 := by
  refine addStruct_induct G (fun d p n _ s s1 => DepthPost d p n s s1) ?_ ?_ ?_
    fuel d p n u s s1 h
  · intro d p n u s
    exact ⟨extends_refl _, fun k e h1 h2 => by rw [h1] at h2; cases h2⟩
  · intro d p n methods s habs hinc
    refine ⟨storeIface_extends G s d p n methods habs, fun k e h1 h2 => ?_⟩
    left
    have h3 : (mapSet s.structs (p ++ "." ++ n) (ifaceEntity G d p n methods)).lookup k =
        some e := h2
    rw [lookup_mapSet] at h3
    by_cases hk : k = p ++ "." ++ n
    · simp only [hk, if_true, Option.some.injEq] at h3
      subst h3
      exact ⟨hk, rfl, rfl, rfl⟩
    · simp only [hk, if_false] at h3
      rw [h1] at h3
      cases h3
  · intro fuel d p n fields s s1 habs hinc ih hrun
    have hK : (storeStruct G d p n fields s).structs.lookup (p ++ "." ++ n) =
        some (structEntity G d p n fields) := by
      show (mapSet _ _ _).lookup _ = _
      rw [lookup_mapSet]
      simp
    have hrel : ParentRel (storeStruct G d p n fields s) s1 := by
      refine followFields_rel_mem G ParentRel parentRel_refl parentRel_trans
        (fun a => a.structs.lookup (p ++ "." ++ n) = some (structEntity G d p n fields))
        (fun a b hab ha => hab.1 _ _ ha) (addStruct G fuel) (d + 1) fields ?_
        _ s1 hK hrun
      intro f hf T hT q hq a b ha hc
      obtain ⟨hext, hnew⟩ := ih (d + 1) q T.name _ a b hc
      refine ⟨hext, fun k e h1 h2 => ?_⟩
      rcases hnew k e h1 h2 with ⟨hk, hd, _, _⟩ | hpar
      · exact ⟨p ++ "." ++ n, structEntity G d p n fields, mkField G p f.name f.type, T, q,
          hext _ _ ha, by rw [hd]; rfl, List.mem_map.mpr ⟨f, hf, rfl⟩, hT, hq, hk⟩
      · exact hpar
    refine ⟨extends_trans _ _ _ (storeStruct_extends G s d p n fields habs) hrel.1,
      fun k e h1 h2 => ?_⟩
    by_cases hk : k = p ++ "." ++ n
    · left
      have := hrel.1 _ _ hK
      rw [← hk, h2] at this
      cases this
      exact ⟨hk, rfl, rfl, rfl⟩
    · right
      apply hrel.2 k e ?_ h2
      show (mapSet _ _ _).lookup _ = _
      rw [lookup_mapSet]
      simp only [hk, if_false]
      exact h1

theorem discover_rootRel {L : RegexpLib} (G : Env L) (fuel : Nat) (s s1 : State)
    (h : discover G fuel G.prog.Imported s = .ok s1) : RootRel G.prog s s1 := by
  refine discover_rel_mem G (RootRel G.prog) (rootRel_refl _) (rootRel_trans _) fuel
    G.prog.Imported ?_ s s1 h
  intro root info hmem name n hdef a b hc
  obtain ⟨hext, hnew⟩ := addStruct_depthPost G fuel 0 info.Pkg name _ a b hc
  refine ⟨hext, fun k e h1 h2 => ?_⟩
  rcases hnew k e h1 h2 with ⟨_, hd, hp, hn⟩ | hpar
  · left
    refine ⟨hd, root, info, GoType.named n, hmem, hp.symm, ?_⟩
    rw [hn]
    exact hdef
  · exact Or.inr hpar

/-- C12 (counterexample): in root `app` with `A{B *B}` and `B{A *A}`, `B`
enumerated first, the Entity of `A` is created through the field of `B`: it
has depth 1 although `A` is declared at top level of the root package. -/
theorem root_type_at_depth_one :
    ¬ (∀ s, discover (Example.envOf Example.pair [] []) 3 Example.pair.Imported State.empty =
          .ok s →
        ∀ k e, s.structs.lookup k = some e → RootDef Example.pair e.pkg e.Name →
          e.Depth = 0) := by
  intro hall
  have h1 := hall (mutualState (Example.envOf Example.pair [] []) "app" "B" "A" "A" "B"
      (Example.ptrTo "app" "A") (Example.ptrTo "app" "B"))
    (by rfl) "app.A"
    (structEntity (Example.envOf Example.pair [] []) 1 "app" "A"
      [{ name := "B", type := Example.ptrTo "app" "B" }])
    (by rfl)
    ⟨"app", { Pkg := "app", Defs := [Example.typeDef "app" "B", Example.typeDef "app" "A"] },
      GoType.named { pkg := some "app", name := "A" }, by decide, rfl, by decide⟩
  revert h1
  decide

/-- C12 (amended): after discovery over all root packages, in whatever order
they and their definitions are enumerated, every Entity of depth 0 is a type
declared at top level of a root package, and every Entity of depth `d + 1` is
referenced, through a named type of one of its fields, by an Entity of depth
`d` in `structs`; an Entity that `addStruct` creates for a call at depth 0,
as `findStructs` makes them, has depth 0. -/
theorem depth_is_chain_length {L : RegexpLib} (G : Env L) (fuel : Nat) (s : State)
    (h : discover G fuel G.prog.Imported State.empty = .ok s) :
    (∀ k e, s.structs.lookup k = some e →
      (e.Depth = 0 ∧ RootDef G.prog e.pkg e.Name) ∨
      (∃ kp ep f T q, s.structs.lookup kp = some ep ∧ ep.Depth + 1 = e.Depth ∧
        f ∈ ep.Fields ∧ T ∈ findNamedTypes f.Type_ ∧ T.pkg = some q ∧
        k = q ++ "." ++ T.name)) ∧
    (∀ fuel1 pkg name u (a b : State),
      (a.structs.lookup (pkg ++ "." ++ name)).isSome = false →
      include_ G pkg name = true → u ≠ Underlying.other →
      addStruct G fuel1 0 pkg name u a = .ok b →
      ∃ e, b.structs.lookup (pkg ++ "." ++ name) = some e ∧ e.Depth = 0) := by
  constructor
  · intro k e hk
    exact (discover_rootRel G fuel State.empty s h).2 k e rfl hk
  · intro fuel1 pkg name u a b habs hinc hu hc
    rcases addStruct_stores G fuel1 0 pkg name u a b hc hinc hu with
      ⟨hp, _⟩ | ⟨_, e, he, hd, _⟩
    · rw [habs] at hp; cases hp
    · exact ⟨e, he, hd⟩

/-- C12 (witness): root `app` with `A{B *B}` and `B{A *A}`, `B` enumerated
first: `B` has depth 0 and `A`, referenced by `B`, depth 1. -/
theorem depth_is_chain_length_witness :
    discover (Example.envOf Example.pair [] []) 3
      (Example.envOf Example.pair [] []).prog.Imported State.empty =
      .ok (mutualState (Example.envOf Example.pair [] []) "app" "B" "A" "A" "B"
      (Example.ptrTo "app" "A") (Example.ptrTo "app" "B")) ∧
    (mutualState (Example.envOf Example.pair [] []) "app" "B" "A" "A" "B"
      (Example.ptrTo "app" "A") (Example.ptrTo "app" "B")).structs.map
      (fun x => (x.1, x.2.Depth)) = [("app.A", 1), ("app.B", 0)] ∧
    ((∀ k e,
      (mutualState (Example.envOf Example.pair [] []) "app" "B" "A" "A" "B"
      (Example.ptrTo "app" "A") (Example.ptrTo "app" "B")).structs.lookup k =
        some e →
      (e.Depth = 0 ∧ RootDef (Example.envOf Example.pair [] []).prog e.pkg e.Name) ∨
      (∃ kp ep f T q,
        (mutualState (Example.envOf Example.pair [] []) "app" "B" "A" "A" "B"
      (Example.ptrTo "app" "A") (Example.ptrTo "app" "B")).structs.lookup kp =
          some ep ∧
        ep.Depth + 1 = e.Depth ∧ f ∈ ep.Fields ∧ T ∈ findNamedTypes f.Type_ ∧
        T.pkg = some q ∧ k = q ++ "." ++ T.name)) ∧
    (∀ fuel1 pkg name u (a b : State),
      (a.structs.lookup (pkg ++ "." ++ name)).isSome = false →
      include_ (Example.envOf Example.pair [] []) pkg name = true → u ≠ Underlying.other →
      addStruct (Example.envOf Example.pair [] []) fuel1 0 pkg name u a = .ok b →
      ∃ e, b.structs.lookup (pkg ++ "." ++ name) = some e ∧ e.Depth = 0)) :=
  ⟨by rfl, by decide,
    depth_is_chain_length (Example.envOf Example.pair [] []) 3
      (mutualState (Example.envOf Example.pair [] []) "app" "B" "A" "A" "B"
      (Example.ptrTo "app" "A") (Example.ptrTo "app" "B")) (by rfl)⟩
/-! ## The set of keys that discovery reaches -/

theorem requestOf_eq_some_iff (prog : Program) (pkg : String) (o : Object)
    (r : String × String × Underlying) :
    requestOf prog pkg o = some r ↔
      ∃ n t, o = Object.typeName n true (GoType.named t) ∧ r = (pkg, n, prog.Underlying t) := by
  cases o with
  | other => simp [requestOf]
  | typeName n atScope type =>
    cases atScope <;> cases type <;> simp [requestOf, eq_comm]
    constructor
    · intro h
      exact ⟨_, _, ⟨rfl, rfl⟩, h⟩
    · rintro ⟨_, _, ⟨rfl, rfl⟩, h⟩
      exact h

theorem mem_rootRequests_iff (prog : Program) (pkgs : List (String × PackageInfo))
    (r : String × String × Underlying) :
    r ∈ rootRequests prog pkgs ↔
      ∃ root info t, (root, info) ∈ pkgs ∧ info.Pkg = r.1 ∧
        Object.typeName r.2.1 true (GoType.named t) ∈ info.Defs ∧
        r.2.2 = prog.Underlying t := by
  induction pkgs with
  | nil => simp [rootRequests]
  | cons x rest ih =>
    obtain ⟨root0, info0⟩ := x
    simp only [rootRequests, List.mem_append, ih, List.mem_filterMap, requestOf_eq_some_iff,
      List.mem_cons]
    constructor
    · rintro (⟨o, ho, n, t, rfl, rfl⟩ | ⟨root, info, t, hm, h1, h2, h3⟩)
      · exact ⟨root0, info0, t, Or.inl rfl, rfl, ho, rfl⟩
      · exact ⟨root, info, t, Or.inr hm, h1, h2, h3⟩
    · rintro ⟨root, info, t, hm | hm, h1, h2, h3⟩
      · left
        cases hm
        obtain ⟨r1, r2, r3⟩ := r
        simp only at h1 h2 h3
        subst h1 h3
        exact ⟨_, h2, r2, t, rfl, rfl⟩
      · exact Or.inr ⟨root, info, t, hm, h1, h2, h3⟩

theorem rootRequest_mem_requests (prog : Program) (p n : String) (u : Underlying)
    (h : RootRequest prog p n u) : (p, n, u) ∈ requests prog := by
  obtain ⟨root, info, t, h1, h2, h3, h4⟩ := h
  exact List.mem_append_left _
    ((mem_rootRequests_iff prog prog.Imported (p, n, u)).mpr ⟨root, info, t, h1, h2, h3, h4⟩)

theorem named_mem_requests (prog : Program) (T : Named) (q : String) (hq : T.pkg = some q)
    (hu : prog.Underlying T ≠ Underlying.other) :
    (q, T.name, prog.Underlying T) ∈ requests prog := by
  obtain ⟨d, hd, hdn⟩ := underlying_decl prog T hu
  apply List.mem_append_right
  refine List.mem_filterMap.mpr ⟨d, hd, ?_⟩
  simp [declRequest, hdn, hq]

theorem reach_mem_requests {L : RegexpLib} (G : Env L) (p n : String) (u : Underlying)
    (h : Reach G p n u) : (p, n, u) ∈ requests G.prog ∧ u ≠ Underlying.other := by
  cases h with
  | root h1 _ h3 => exact ⟨rootRequest_mem_requests _ _ _ _ h1, h3⟩
  | step _ _ _ h4 _ h6 => exact ⟨named_mem_requests _ _ _ h4 h6, h6⟩

theorem reach_coherent {L : RegexpLib} (G : Env L) (hcoh : Coherent G.prog)
    (p n : String) (u : Underlying) (p1 n1 : String) (u1 : Underlying)
    (h : Reach G p n u) (h1 : Reach G p1 n1 u1)
    (hk : p ++ "." ++ n = p1 ++ "." ++ n1) : p = p1 ∧ n = n1 ∧ u = u1 := by
  obtain ⟨hm, hu⟩ := reach_mem_requests G p n u h
  obtain ⟨hm1, hu1⟩ := reach_mem_requests G p1 n1 u1 h1
  have := hcoh _ hm _ hm1 hu hu1 hk
  simp only [Prod.mk.injEq] at this
  exact this

theorem reachInv_mapSet {L : RegexpLib} (G : Env L) (m : List (String × structType))
    (p n : String) (u : Underlying) (e : structType) (hr : Reach G p n u)
    (he : (∃ d fields, u = Underlying.struct fields ∧ e = structEntity G d p n fields) ∨
      (∃ d methods, u = Underlying.interface methods ∧ e = ifaceEntity G d p n methods))
    (hm : ReachInv G m) : ReachInv G (mapSet m (p ++ "." ++ n) e) := by
  intro k e1 hk
  rw [lookup_mapSet] at hk
  by_cases hkk : k = p ++ "." ++ n
  · simp only [hkk, if_true, Option.some.injEq] at hk
    subst hk
    exact ⟨p, n, u, hr, hkk, he⟩
  · simp only [hkk, if_false] at hk
    exact hm k e1 hk

theorem addStruct_reachInv {L : RegexpLib} (G : Env L) (fuel d : Nat) (p n : String)
    (u : Underlying) (s s1 : State) (h : addStruct G fuel d p n u s = .ok s1)
    (hpre : include_ G p n = true → u ≠ Underlying.other → Reach G p n u)
    (hs : ReachInv G s.structs) : ReachInv G s1.structs := by
  refine addStruct_induct G
    (fun _ p n u s s1 => (include_ G p n = true → u ≠ Underlying.other → Reach G p n u) →
      ReachInv G s.structs → ReachInv G s1.structs) ?_ ?_ ?_ fuel d p n u s s1 h hpre hs
  · intro d p n u s _ hs
    exact hs
  · intro d p n methods s _ hinc hpre hs
    exact reachInv_mapSet G s.structs p n _ _ (hpre hinc (by simp))
      (Or.inr ⟨d, methods, rfl, rfl⟩) hs
  · intro fuel d p n fields s s1 _ hinc ih hrun hpre hs
    have hreach : Reach G p n (Underlying.struct fields) := hpre hinc (by simp)
    have hs1 : ReachInv G (storeStruct G d p n fields s).structs :=
      reachInv_mapSet G s.structs p n _ _ hreach (Or.inl ⟨d, fields, rfl, rfl⟩) hs
    refine followFields_rel_mem G
      (fun a b => ReachInv G a.structs → ReachInv G b.structs)
      (fun _ h => h) (fun _ _ _ h1 h2 h => h2 (h1 h)) (fun _ => True) (fun _ _ _ _ => trivial)
      (addStruct G fuel) (d + 1) fields ?_ _ s1 trivial hrun hs1
    intro f hf T hT q hq a b _ hc
    exact ih (d + 1) q T.name _ a b hc (fun hi hu => Reach.step hreach hf hT hq hi hu)

theorem discover_reachInv {L : RegexpLib} (G : Env L) (fuel : Nat) (s s1 : State)
    (h : discover G fuel G.prog.Imported s = .ok s1) (hs : ReachInv G s.structs) :
    ReachInv G s1.structs := by
  refine discover_rel_mem G (fun a b => ReachInv G a.structs → ReachInv G b.structs)
    (fun _ h => h) (fun _ _ _ h1 h2 h => h2 (h1 h)) fuel G.prog.Imported ?_ s s1 h hs
  intro root info hmem name n hdef a b hc
  exact addStruct_reachInv G fuel 0 info.Pkg name _ a b hc
    (fun hi hu => Reach.root ⟨root, info, n, hmem, rfl, hdef, rfl⟩ hi hu)

theorem closedEnt_mono {L : RegexpLib} (G : Env L) (m m1 : List (String × structType))
    (h : Extends m m1) (e : structType) (he : ClosedEnt G m e) : ClosedEnt G m1 e :=
  fun f hf T hT q hq hi hu => extends_keys m m1 h _ (he f hf T hT q hq hi hu)

theorem closedRel_refl {L : RegexpLib} (G : Env L) (s : State) : ClosedRel G s s :=
  ⟨extends_refl _, fun k e h1 h2 => by rw [h1] at h2; cases h2⟩

theorem closedRel_trans {L : RegexpLib} (G : Env L) (a b c : State) (h1 : ClosedRel G a b)
    (h2 : ClosedRel G b c) : ClosedRel G a c := by
  refine ⟨extends_trans _ _ _ h1.1 h2.1, fun k e ha hc => ?_⟩
  cases hb : b.structs.lookup k with
  | none => exact h2.2 k e hb hc
  | some e1 =>
    have := h2.1 k e1 hb
    rw [hc] at this
    cases this
    exact closedEnt_mono G _ _ h2.1 e (h1.2 k e ha hb)

theorem addStruct_closedRel {L : RegexpLib} (G : Env L) (fuel d : Nat) (p n : String)
    (u : Underlying) (s s1 : State) (h : addStruct G fuel d p n u s = .ok s1) :
    ClosedRel G s s1 := by
  refine addStruct_induct G (fun _ _ _ _ s s1 => ClosedRel G s s1) ?_ ?_ ?_
    fuel d p n u s s1 h
  · intro _ _ _ _ s
    exact closedRel_refl G s
  · intro d p n methods s habs _
    refine ⟨storeIface_extends G s d p n methods habs, fun k e h1 h2 => ?_⟩
    have h3 : (mapSet s.structs (p ++ "." ++ n) (ifaceEntity G d p n methods)).lookup k =
        some e := h2
    rw [lookup_mapSet] at h3
    by_cases hk : k = p ++ "." ++ n
    · simp only [hk, if_true, Option.some.injEq] at h3
      subst h3
      intro f hf T hT
      obtain ⟨m, _, rfl⟩ := List.mem_map.mp hf
      cases hT
    · simp only [hk, if_false] at h3
      rw [h1] at h3
      cases h3
  · intro fuel d p n fields s s1 habs _ ih hrun
    have hK : (storeStruct G d p n fields s).structs.lookup (p ++ "." ++ n) =
        some (structEntity G d p n fields) := by
      show (mapSet _ _ _).lookup _ = _
      rw [lookup_mapSet]
      simp
    have hrel : ClosedRel G (storeStruct G d p n fields s) s1 :=
      followFields_rel G (ClosedRel G) (closedRel_refl G) (closedRel_trans G) _
        (fun d1 p1 n1 u1 a b hc => ih d1 p1 n1 u1 a b hc) _ _ _ _ hrun
    refine ⟨extends_trans _ _ _ (storeStruct_extends G s d p n fields habs) hrel.1,
      fun k e h1 h2 => ?_⟩
    by_cases hk : k = p ++ "." ++ n
    · have := hrel.1 _ _ hK
      rw [← hk, h2] at this
      cases this
      intro f hf T hT q hq hi hu
      obtain ⟨v, hv, rfl⟩ := List.mem_map.mp hf
      obtain ⟨a, b, _, hcall, hb1⟩ :=
        followFields_visits G (fun x y => Extends x.structs y.structs)
          (fun _ => extends_refl _) (fun _ _ _ => extends_trans _ _ _) _
          (fun d1 p1 n1 u1 x y hc => addStruct_extends G fuel d1 p1 n1 u1 x y hc)
          _ _ _ _ hrun v hv T hT q hq
      apply extends_keys _ _ hb1
      rw [mem_keys_iff]
      rcases addStruct_stores G fuel (d + 1) q T.name _ a b hcall hi hu with
        ⟨hp, hba⟩ | ⟨_, e1, he1, _⟩
      · rw [hba]; exact hp
      · rw [he1]; rfl
    · apply hrel.2 k e ?_ h2
      show (mapSet _ _ _).lookup _ = _
      rw [lookup_mapSet]
      simp only [hk, if_false]
      exact h1

theorem discover_closedRel {L : RegexpLib} (G : Env L) (fuel : Nat)
    (pkgs : List (String × PackageInfo)) (s s1 : State)
    (h : discover G fuel pkgs s = .ok s1) : ClosedRel G s s1 :=
  discover_rel_mem G (ClosedRel G) (closedRel_refl G) (closedRel_trans G) fuel pkgs
    (fun _ info _ name _ _ a b hc => addStruct_closedRel G fuel 0 info.Pkg name _ a b hc)
    s s1 h

theorem findStructsLoop_visits {L : RegexpLib} (G : Env L) (fuel : Nat) (pkg : String)
    (defs : List Object) (s s1 : State) (h : findStructsLoop G fuel pkg defs s = .ok s1)
    (name : String) (n : Named)
    (hm : Object.typeName name true (GoType.named n) ∈ defs) :
    ∃ a b, addStruct G fuel 0 pkg name (G.prog.Underlying n) a = .ok b ∧
      Extends b.structs s1.structs := by
  have hext : ∀ defs a b, findStructsLoop G fuel pkg defs a = .ok b →
      Extends a.structs b.structs := fun defs a b hc =>
    findStructsLoop_rel_mem G (fun x y => Extends x.structs y.structs)
      (fun _ => extends_refl _) (fun _ _ _ => extends_trans _ _ _) fuel pkg defs
      (fun nm t _ x y hx => addStruct_extends G fuel 0 pkg nm _ x y hx) a b hc
  induction defs generalizing s with
  | nil => cases hm
  | cons d rest ih =>
    rcases List.mem_cons.mp hm with hd | hm1
    · subst hd
      simp only [findStructsLoop, Bool.not_true, Bool.false_eq_true, if_false] at h
      cases hc : addStruct G fuel 0 pkg name (G.prog.Underlying n) s with
      | error e => rw [hc] at h; cases h
      | ok s2 =>
        rw [hc] at h
        exact ⟨s, s2, hc, hext rest s2 s1 h⟩
    · cases d with
      | other =>
        simp only [findStructsLoop] at h
        exact ih s h hm1
      | typeName nm atScope type =>
        cases atScope with
        | false =>
          simp only [findStructsLoop, Bool.not_false, if_true] at h
          exact ih s h hm1
        | true =>
          simp only [findStructsLoop, Bool.not_true, Bool.false_eq_true, if_false] at h
          cases type with
          | named t =>
            simp only at h
            cases hc : addStruct G fuel 0 pkg nm (G.prog.Underlying t) s with
            | error e => rw [hc] at h; cases h
            | ok s2 =>
              rw [hc] at h
              exact ih s2 h hm1
          | _ => cases h

theorem discover_visits {L : RegexpLib} (G : Env L) (fuel : Nat)
    (pkgs : List (String × PackageInfo)) (s s1 : State)
    (h : discover G fuel pkgs s = .ok s1) (root : String) (info : PackageInfo)
    (hmem : (root, info) ∈ pkgs) (name : String) (n : Named)
    (hm : Object.typeName name true (GoType.named n) ∈ info.Defs) :
    ∃ a b, addStruct G fuel 0 info.Pkg name (G.prog.Underlying n) a = .ok b ∧
      Extends b.structs s1.structs := by
  induction pkgs generalizing s with
  | nil => cases hmem
  | cons x rest ih =>
    obtain ⟨root0, info0⟩ := x
    simp only [discover] at h
    cases hc : findStructs G fuel info0 s with
    | error e => rw [hc] at h; cases h
    | ok s2 =>
      rw [hc] at h
      rcases List.mem_cons.mp hmem with hx | hmem1
      · cases hx
        obtain ⟨a, b, h1, h2⟩ := findStructsLoop_visits G fuel _ _ s s2 hc name n hm
        exact ⟨a, b, h1, extends_trans _ _ _ h2 (discover_closedRel G fuel rest s2 s1 h).1⟩
      · exact ih s2 h hmem1

theorem reachInv_nil {L : RegexpLib} (G : Env L) : ReachInv G [] :=
  fun _ _ h => by cases h

/-- Completeness: the full name of every type of the least set is a key
after discovery. -/
theorem reach_key_mem {L : RegexpLib} (G : Env L) (hcoh : Coherent G.prog) (fuel : Nat)
    (s : State) (h : discover G fuel G.prog.Imported State.empty = .ok s)
    (p n : String) (u : Underlying) (hr : Reach G p n u) :
    (p ++ "." ++ n) ∈ keys s.structs := by
  induction hr with
  | root h1 hinc hne =>
    obtain ⟨root, info, t, hmem, hpkg, hdef, hu⟩ := h1
    subst hpkg hu
    obtain ⟨a, b, hcall, hext⟩ := discover_visits G fuel _ _ s h root info hmem _ t hdef
    apply extends_keys _ _ hext
    rw [mem_keys_iff]
    rcases addStruct_stores G fuel 0 info.Pkg _ _ a b hcall hinc hne with
      ⟨hp, hba⟩ | ⟨_, e1, he1, _⟩
    · rw [hba]; exact hp
    · rw [he1]; rfl
  | @step p n q fields f T hr0 hf hT hq hi hu ih =>
    obtain ⟨e, he, _⟩ := mem_of_lookup_isSome s.structs _ ((mem_keys_iff _ _).mp ih)
    obtain ⟨p1, n1, u1, hr1, hk, hshape⟩ :=
      discover_reachInv G fuel State.empty s h (reachInv_nil G) _ e he
    obtain ⟨hp, hn, hu1⟩ := reach_coherent G hcoh _ _ _ _ _ _ hr0 hr1 hk
    subst hp hn hu1
    have hclosed : ClosedEnt G s.structs e :=
      (discover_closedRel G fuel _ State.empty s h).2 _ e rfl he
    rcases hshape with ⟨d, fs, hfs, hes⟩ | ⟨d, ms, hms, _⟩
    · cases hfs
      refine hclosed (mkField G p f.name f.type) ?_ T hT q hq hi hu
      rw [hes]
      exact List.mem_map.mpr ⟨f, hf, rfl⟩
    · cases hms

theorem keys_eq_reach {L : RegexpLib} (G : Env L) (hcoh : Coherent G.prog) (fuel : Nat)
    (s : State) (h : discover G fuel G.prog.Imported State.empty = .ok s) (k : String) :
    k ∈ keys s.structs ↔ ∃ p n u, Reach G p n u ∧ k = p ++ "." ++ n := by
  constructor
  · intro hk
    obtain ⟨e, he, _⟩ := mem_of_lookup_isSome s.structs _ ((mem_keys_iff _ _).mp hk)
    obtain ⟨p, n, u, hr, hkey, _⟩ :=
      discover_reachInv G fuel State.empty s h (reachInv_nil G) _ e he
    exact ⟨p, n, u, hr, hkey⟩
  · rintro ⟨p, n, u, hr, rfl⟩
    exact reach_key_mem G hcoh fuel s h p n u hr

/-! ## Enumerating the roots in another order -/

theorem forall₂_mem_left {α β : Type} (R : α → β → Prop) (l1 : List α) (l2 : List β)
    (h : List.Forall₂ R l1 l2) (a : α) (ha : a ∈ l1) : ∃ b ∈ l2, R a b := by
  induction h with
  | nil => cases ha
  | cons hab _ ih =>
    rcases List.mem_cons.mp ha with rfl | ha
    · exact ⟨_, List.mem_cons_self _ _, hab⟩
    · obtain ⟨b, hb, hr⟩ := ih ha
      exact ⟨b, List.mem_cons_of_mem _ hb, hr⟩

theorem forall₂_mem_right {α β : Type} (R : α → β → Prop) (l1 : List α) (l2 : List β)
    (h : List.Forall₂ R l1 l2) (b : β) (hb : b ∈ l2) : ∃ a ∈ l1, R a b := by
  induction h with
  | nil => cases hb
  | cons hab _ ih =>
    rcases List.mem_cons.mp hb with rfl | hb
    · exact ⟨_, List.mem_cons_self _ _, hab⟩
    · obtain ⟨a, ha, hr⟩ := ih hb
      exact ⟨a, List.mem_cons_of_mem _ ha, hr⟩

theorem reordered_underlying (prog prog2 : Program) (h : Reordered prog prog2) (T : Named) :
    prog2.Underlying T = prog.Underlying T := by
  unfold Program.Underlying
  rw [h.1]

/-- Under a reordering every root package is found again, with the same key
and path and the same definitions. -/
theorem reordered_roots (prog prog2 : Program) (h : Reordered prog prog2) :
    (∀ root info, (root, info) ∈ prog.Imported →
      ∃ info2, (root, info2) ∈ prog2.Imported ∧ info2.Pkg = info.Pkg ∧
        ∀ o, o ∈ info.Defs ↔ o ∈ info2.Defs) ∧
    (∀ root info2, (root, info2) ∈ prog2.Imported →
      ∃ info, (root, info) ∈ prog.Imported ∧ info.Pkg = info2.Pkg ∧
        ∀ o, o ∈ info2.Defs ↔ o ∈ info.Defs) := by
  obtain ⟨_, mid, hperm, hall⟩ := h
  constructor
  · intro root info hmem
    obtain ⟨b, hb, h1, h2, h3⟩ := forall₂_mem_left _ _ _ hall (root, info) (hperm.symm.subset hmem)
    obtain ⟨root2, info2⟩ := b
    simp only at h1 h2 h3
    subst h1
    exact ⟨info2, hb, h2.symm, fun o => h3.mem_iff⟩
  · intro root info2 hmem
    obtain ⟨a, ha, h1, h2, h3⟩ := forall₂_mem_right _ _ _ hall (root, info2) hmem
    obtain ⟨root1, info⟩ := a
    simp only at h1 h2 h3
    subst h1
    exact ⟨info, hperm.subset ha, h2, fun o => h3.mem_iff.symm⟩

theorem reordered_rootRequest (prog prog2 : Program) (h : Reordered prog prog2)
    (p n : String) (u : Underlying) :
    RootRequest prog p n u ↔ RootRequest prog2 p n u := by
  obtain ⟨h1, h2⟩ := reordered_roots prog prog2 h
  constructor
  · rintro ⟨root, info, t, hmem, hp, hd, hu⟩
    obtain ⟨info2, hm2, hp2, hdefs⟩ := h1 root info hmem
    exact ⟨root, info2, t, hm2, by rw [hp2, hp], (hdefs _).mp hd,
      by rw [reordered_underlying prog prog2 h]; exact hu⟩
  · rintro ⟨root, info2, t, hmem, hp, hd, hu⟩
    obtain ⟨info, hm, hp1, hdefs⟩ := h2 root info2 hmem
    exact ⟨root, info, t, hm, by rw [hp1, hp], (hdefs _).mp hd,
      by rw [← reordered_underlying prog prog2 h]; exact hu⟩

theorem reordered_include {L : RegexpLib} (G : Env L) (prog2 : Program)
    (h : Reordered G.prog prog2) (p n : String) :
    include_ { G with prog := prog2 } p n = include_ G p n := by
  obtain ⟨h1, h2⟩ := reordered_roots G.prog prog2 h
  rw [Bool.eq_iff_iff, include_eq_true_iff, include_eq_true_iff]
  have hk : p ∈ prog2.Imported.map Prod.fst ↔ p ∈ G.prog.Imported.map Prod.fst := by
    constructor
    · intro hp
      obtain ⟨x, hx, rfl⟩ := List.mem_map.mp hp
      obtain ⟨info, hm, _⟩ := h2 x.1 x.2 hx
      exact List.mem_map.mpr ⟨(x.1, info), hm, rfl⟩
    · intro hp
      obtain ⟨x, hx, rfl⟩ := List.mem_map.mp hp
      obtain ⟨info2, hm, _⟩ := h1 x.1 x.2 hx
      exact List.mem_map.mpr ⟨(x.1, info2), hm, rfl⟩
  show _ ∧ (p ∈ prog2.Imported.map Prod.fst ∨ _) ↔ _
  rw [hk]

theorem reach_transfer {L : RegexpLib} (G G2 : Env L)
    (hinc : ∀ p n, include_ G2 p n = include_ G p n)
    (hU : ∀ T, G2.prog.Underlying T = G.prog.Underlying T)
    (hroot : ∀ p n u, RootRequest G.prog p n u → RootRequest G2.prog p n u)
    (p n : String) (u : Underlying) (h : Reach G p n u) : Reach G2 p n u := by
  induction h with
  | root h1 h2 h3 => exact Reach.root (hroot _ _ _ h1) (by rw [hinc]; exact h2) h3
  | @step p n q fields f T _ hf hT hq hi hu ih =>
    rw [← hU]
    exact Reach.step ih hf hT hq (by rw [hinc]; exact hi) (by rw [hU]; exact hu)

theorem reordered_requests (prog prog2 : Program) (h : Reordered prog prog2)
    (r : String × String × Underlying) : r ∈ requests prog2 ↔ r ∈ requests prog := by
  have hdecl : declRequest prog2 = declRequest prog := by
    funext d
    simp only [declRequest, reordered_underlying prog prog2 h]
  unfold requests
  rw [List.mem_append, List.mem_append, hdecl, h.1]
  have hroot : r ∈ rootRequests prog2 prog2.Imported ↔ r ∈ rootRequests prog prog.Imported := by
    rw [mem_rootRequests_iff, mem_rootRequests_iff]
    exact (reordered_rootRequest prog prog2 h r.1 r.2.1 r.2.2).symm
  rw [hroot]

theorem reordered_coherent (prog prog2 : Program) (h : Reordered prog prog2)
    (hc : Coherent prog) : Coherent prog2 :=
  fun r1 h1 r2 h2 => hc r1 ((reordered_requests prog prog2 h r1).mp h1) r2
    ((reordered_requests prog prog2 h r2).mp h2)

/-! ## The runs return -/

theorem findStructsLoop_ok_named {L : RegexpLib} (G : Env L) (fuel : Nat) (pkg : String)
    (defs : List Object) (s s1 : State) (h : findStructsLoop G fuel pkg defs s = .ok s1)
    (name : String) (type : GoType) (hm : Object.typeName name true type ∈ defs) :
    ∃ n, type = GoType.named n := by
  induction defs generalizing s with
  | nil => cases hm
  | cons d rest ih =>
    cases d with
    | other =>
      simp only [findStructsLoop] at h
      rcases List.mem_cons.mp hm with hd | hd
      · cases hd
      · exact ih s h hd
    | typeName name1 atScope type1 =>
      simp only [findStructsLoop] at h
      cases atScope with
      | false =>
        simp only [Bool.not_false, if_true] at h
        rcases List.mem_cons.mp hm with hd | hd
        · cases hd
        · exact ih s h hd
      | true =>
        simp only [Bool.not_true, Bool.false_eq_true, if_false] at h
        cases type1 with
        | named n =>
          simp only at h
          rcases List.mem_cons.mp hm with hd | hd
          · cases hd; exact ⟨n, rfl⟩
          · cases hc : addStruct G fuel 0 pkg name1 (G.prog.Underlying n) s with
            | ok s2 => rw [hc] at h; exact ih s2 h hd
            | error e => rw [hc] at h; cases h
        | _ => cases h

theorem discover_ok_named {L : RegexpLib} (G : Env L) (fuel : Nat)
    (pkgs : List (String × PackageInfo)) (s s1 : State) (h : discover G fuel pkgs s = .ok s1)
    (root : String) (info : PackageInfo) (hmem : (root, info) ∈ pkgs)
    (name : String) (type : GoType) (hm : Object.typeName name true type ∈ info.Defs) :
    ∃ n, type = GoType.named n := by
  induction pkgs generalizing s with
  | nil => cases hmem
  | cons p rest ih =>
    obtain ⟨k, pkg⟩ := p
    simp only [discover] at h
    cases hc : findStructs G fuel pkg s with
    | error e => rw [hc] at h; cases h
    | ok s2 =>
      rw [hc] at h
      rcases List.mem_cons.mp hmem with hd | hd
      · cases hd
        exact findStructsLoop_ok_named G fuel _ _ s s2 hc name type hm
      · exact ih s2 h hd

theorem findStructsLoop_returns {L : RegexpLib} (G : Env L) (pkg : String)
    (defs : List Object) (s : State)
    (hn : ∀ name type, Object.typeName name true type ∈ defs → ∃ n, type = GoType.named n) :
    ∃ s1, findStructsLoop G (fuelBound G) pkg defs s = .ok s1 := by
  induction defs generalizing s with
  | nil => exact ⟨s, rfl⟩
  | cons d rest ih =>
    have hrest : ∀ name type, Object.typeName name true type ∈ rest →
        ∃ n, type = GoType.named n :=
      fun name type hm => hn name type (List.mem_cons_of_mem _ hm)
    cases d with
    | other => simp only [findStructsLoop]; exact ih s hrest
    | typeName name atScope type =>
      simp only [findStructsLoop]
      cases atScope with
      | false => simp only [Bool.not_false, if_true]; exact ih s hrest
      | true =>
        simp only [Bool.not_true, Bool.false_eq_true, if_false]
        obtain ⟨n, rfl⟩ := hn name type (List.mem_cons_self _ _)
        simp only
        obtain ⟨s1, h1⟩ := addStruct_total G 0 pkg name (G.prog.Underlying n) s
        rw [h1]
        exact ih s1 hrest

theorem discover_returns {L : RegexpLib} (G : Env L) (pkgs : List (String × PackageInfo))
    (s : State)
    (hn : ∀ root info, (root, info) ∈ pkgs → ∀ name type,
      Object.typeName name true type ∈ info.Defs → ∃ n, type = GoType.named n) :
    ∃ s1, discover G (fuelBound G) pkgs s = .ok s1 := by
  induction pkgs generalizing s with
  | nil => exact ⟨s, rfl⟩
  | cons p rest ih =>
    obtain ⟨k, pkg⟩ := p
    simp only [discover]
    obtain ⟨s1, h1⟩ := findStructsLoop_returns G pkg.Pkg pkg.Defs s
      (hn k pkg (List.mem_cons_self _ _))
    unfold findStructs
    rw [h1]
    exact ih s1 (fun root info hm => hn root info (List.mem_cons_of_mem _ hm))

theorem reordered_keys {L : RegexpLib} (G : Env L) (hcoh : Coherent G.prog)
    (fuel : Nat) (s : State) (h : discover G fuel G.prog.Imported State.empty = .ok s)
    (prog2 : Program) (hre : Reordered G.prog prog2) (fuel2 : Nat) (s2 : State)
    (h2 : discover { G with prog := prog2 } fuel2 prog2.Imported State.empty = .ok s2)
    (k : String) : k ∈ keys s.structs ↔ k ∈ keys s2.structs := by
  have hcoh2 : Coherent ({ G with prog := prog2 } : Env L).prog :=
    reordered_coherent G.prog prog2 hre hcoh
  rw [keys_eq_reach G hcoh fuel s h k,
    keys_eq_reach { G with prog := prog2 } hcoh2 fuel2 s2 h2 k]
  have hU := reordered_underlying G.prog prog2 hre
  have hI := reordered_include G prog2 hre
  have hR := reordered_rootRequest G.prog prog2 hre
  constructor
  · rintro ⟨p, n, u, hr, hk⟩
    exact ⟨p, n, u, reach_transfer G { G with prog := prog2 } hI hU
      (fun p n u => (hR p n u).mp) p n u hr, hk⟩
  · rintro ⟨p, n, u, hr, hk⟩
    exact ⟨p, n, u, reach_transfer { G with prog := prog2 } G (fun p n => (hI p n).symm)
      (fun T => (hU T).symm) (fun p n u => (hR p n u).mpr) p n u hr, hk⟩

/-- C19: order independence of discovery.  Let the program be one in which
a full name identifies one struct or interface type (`Coherent`, as in every
Go program), and let discovery over all root packages, from the empty map,
return the state `s`.  Then the keys of `structs` are exactly the full names
of the types of `Reach`, the least set that contains every top-level
struct or interface root type accepted by `include` and that is closed under
"a struct of the set has a field whose named types include an accepted struct
or interface type": the keys are the full names of such a set `S` whenever `S`
has these two closure properties.  For every other order of enumeration of
the root packages and of the definitions of each (`Reordered`), discovery
returns as well, and every run that returns leaves the same set of keys. -/
theorem discovery_order_independent {L : RegexpLib} (G : Env L) (hcoh : Coherent G.prog)
    (fuel : Nat) (s : State)
    (h : discover G fuel G.prog.Imported State.empty = .ok s) :
    (∀ k, k ∈ keys s.structs ↔ ∃ p n u, Reach G p n u ∧ k = p ++ "." ++ n) ∧
    (∀ S : String → String → Underlying → Prop,
      (∀ p n u, RootRequest G.prog p n u → include_ G p n = true →
        u ≠ Underlying.other → S p n u) →
      (∀ p n q fields f T, S p n (Underlying.struct fields) → f ∈ fields →
        T ∈ findNamedTypes f.type → T.pkg = some q → include_ G q T.name = true →
        G.prog.Underlying T ≠ Underlying.other → S q T.name (G.prog.Underlying T)) →
      ∀ k, k ∈ keys s.structs → ∃ p n u, S p n u ∧ k = p ++ "." ++ n) ∧
    (∀ prog2, Reordered G.prog prog2 →
      (∃ s2, discover { G with prog := prog2 } (fuelBound { G with prog := prog2 })
        prog2.Imported State.empty = .ok s2) ∧
      ∀ fuel2 s2,
        discover { G with prog := prog2 } fuel2 prog2.Imported State.empty = .ok s2 →
        ∀ k, k ∈ keys s.structs ↔ k ∈ keys s2.structs) := by
  refine ⟨keys_eq_reach G hcoh fuel s h, ?_, ?_⟩
  · intro S hroot hstep k hk
    obtain ⟨p, n, u, hr, hkey⟩ := (keys_eq_reach G hcoh fuel s h k).mp hk
    refine ⟨p, n, u, ?_, hkey⟩
    clear hkey hk
    induction hr with
    | root h1 h2 h3 => exact hroot _ _ _ h1 h2 h3
    | step _ hf hT hq hi hu ih => exact hstep _ _ _ _ _ _ ih hf hT hq hi hu
  · intro prog2 hre
    refine ⟨?_, fun fuel2 s2 h2 => reordered_keys G hcoh fuel s h prog2 hre fuel2 s2 h2⟩
    apply discover_returns
    intro root info2 hm name type hdef
    obtain ⟨info, hm1, _, hdefs⟩ := (reordered_roots G.prog prog2 hre).2 root info2 hm
    exact discover_ok_named G fuel _ _ s h root info hm1 name type ((hdefs _).mp hdef)

/-- C19 (witness): root `app` with `A{B *B}` and `B{A *A}`.  With `B`
enumerated first discovery leaves `B` at depth 0 and `A` at depth 1, with `A`
first it leaves `A` at depth 0 and `B` at depth 1; the keys are `app.A` and
`app.B` in both runs. -/
theorem discovery_order_independent_witness :
    Coherent (Example.envOf Example.pair [] []).prog ∧
    discover (Example.envOf Example.pair [] []) 3
        (Example.envOf Example.pair [] []).prog.Imported State.empty =
      .ok (mutualState (Example.envOf Example.pair [] []) "app" "B" "A" "A" "B"
      (Example.ptrTo "app" "A") (Example.ptrTo "app" "B")) ∧
    Reordered (Example.envOf Example.pair [] []).prog Example.pairAB ∧
    discover { Example.envOf Example.pair [] [] with prog := Example.pairAB } 3
        Example.pairAB.Imported State.empty =
      .ok (mutualState (Example.envOf Example.pairAB [] []) "app" "A" "B" "B" "A"
      (Example.ptrTo "app" "B") (Example.ptrTo "app" "A")) ∧
    ((∀ k, k ∈ keys (mutualState (Example.envOf Example.pair [] [])
          "app" "B" "A" "A" "B"
      (Example.ptrTo "app" "A") (Example.ptrTo "app" "B")).structs ↔
        ∃ p n u, Reach (Example.envOf Example.pair [] []) p n u ∧ k = p ++ "." ++ n) ∧
     (∀ S : String → String → Underlying → Prop,
        (∀ p n u, RootRequest (Example.envOf Example.pair [] []).prog p n u →
          include_ (Example.envOf Example.pair [] []) p n = true →
          u ≠ Underlying.other → S p n u) →
        (∀ p n q fields f T, S p n (Underlying.struct fields) → f ∈ fields →
          T ∈ findNamedTypes f.type → T.pkg = some q →
          include_ (Example.envOf Example.pair [] []) q T.name = true →
          (Example.envOf Example.pair [] []).prog.Underlying T ≠ Underlying.other →
          S q T.name ((Example.envOf Example.pair [] []).prog.Underlying T)) →
        ∀ k, k ∈ keys (mutualState (Example.envOf Example.pair [] [])
            "app" "B" "A" "A" "B"
      (Example.ptrTo "app" "A") (Example.ptrTo "app" "B")).structs → ∃ p n u, S p n u ∧ k = p ++ "." ++ n) ∧
     (∀ prog2, Reordered (Example.envOf Example.pair [] []).prog prog2 →
        (∃ s2, discover { Example.envOf Example.pair [] [] with prog := prog2 }
          (fuelBound { Example.envOf Example.pair [] [] with prog := prog2 })
          prog2.Imported State.empty = .ok s2) ∧
        ∀ fuel2 s2,
          discover { Example.envOf Example.pair [] [] with prog := prog2 } fuel2
            prog2.Imported State.empty = .ok s2 →
          ∀ k, k ∈ keys (mutualState (Example.envOf Example.pair [] [])
              "app" "B" "A" "A" "B"
      (Example.ptrTo "app" "A") (Example.ptrTo "app" "B")).structs ↔ k ∈ keys s2.structs)) :=
  ⟨by unfold Coherent; decide, by rfl,
    ⟨rfl, Example.pair.Imported, List.Perm.refl _,
      List.Forall₂.cons ⟨rfl, rfl, by decide⟩ List.Forall₂.nil⟩,
    by rfl,
    discovery_order_independent (Example.envOf Example.pair [] [])
      (by unfold Coherent; decide) 3
      (mutualState (Example.envOf Example.pair [] []) "app" "B" "A" "A" "B"
      (Example.ptrTo "app" "A") (Example.ptrTo "app" "B")) (by rfl)⟩
/-! ## Discovery through references -/

/-- Every entry that a call of `addStruct` at depth `d` adds is the Entity of
the call, at depth `d`, or lies at depth `d + 1` or below. -/
theorem addStruct_depth_ge {L : RegexpLib} (G : Env L) (fuel d : Nat) (p n : String)
    (u : Underlying) (s s1 : State) (h : addStruct G fuel d p n u s = .ok s1) :
    Extends s.structs s1.structs ∧
    ∀ k e, s.structs.lookup k = none → s1.structs.lookup k = some e →
      (k = p ++ "." ++ n ∧ e.Depth = d) ∨ d + 1 ≤ e.Depth := by
  refine addStruct_induct G
    (fun d p n _ s s1 => Extends s.structs s1.structs ∧
      ∀ k e, s.structs.lookup k = none → s1.structs.lookup k = some e →
        (k = p ++ "." ++ n ∧ e.Depth = d) ∨ d + 1 ≤ e.Depth) ?_ ?_ ?_
    fuel d p n u s s1 h
  · intro d p n u s
    exact ⟨extends_refl _, fun k e h1 h2 => by rw [h1] at h2; cases h2⟩
  · intro d p n methods s habs hinc
    refine ⟨storeIface_extends G s d p n methods habs, fun k e h1 h2 => ?_⟩
    left
    have h3 : (mapSet s.structs (p ++ "." ++ n) (ifaceEntity G d p n methods)).lookup k =
        some e := h2
    rw [lookup_mapSet] at h3
    by_cases hk : k = p ++ "." ++ n
    · simp only [hk, if_true, Option.some.injEq] at h3
      subst h3
      exact ⟨hk, rfl⟩
    · simp only [hk, if_false] at h3
      rw [h1] at h3
      cases h3
  · intro fuel d p n fields s s1 habs hinc ih hrun
    have hK : (storeStruct G d p n fields s).structs.lookup (p ++ "." ++ n) =
        some (structEntity G d p n fields) := by
      show (mapSet _ _ _).lookup _ = _
      rw [lookup_mapSet]
      simp
    have hrel : Extends (storeStruct G d p n fields s).structs s1.structs ∧
        ∀ k e, (storeStruct G d p n fields s).structs.lookup k = none →
          s1.structs.lookup k = some e → d + 1 ≤ e.Depth := by
      refine followFields_rel_mem G
        (fun a b => Extends a.structs b.structs ∧
          ∀ k e, a.structs.lookup k = none → b.structs.lookup k = some e → d + 1 ≤ e.Depth)
        (fun a => ⟨extends_refl _, fun k e h1 h2 => by rw [h1] at h2; cases h2⟩)
        ?_ (fun _ => True) (fun _ _ _ _ => trivial) (addStruct G fuel) (d + 1) fields ?_
        _ s1 trivial hrun
      · intro a b c hab hbc
        refine ⟨extends_trans _ _ _ hab.1 hbc.1, fun k e ha hc => ?_⟩
        cases hb : b.structs.lookup k with
        | none => exact hbc.2 k e hb hc
        | some e1 =>
          have := hbc.1 k e1 hb
          rw [hc] at this
          cases this
          exact hab.2 k e ha hb
      · intro f _ T _ q _ a b _ hc
        obtain ⟨hext, hnew⟩ := ih (d + 1) q T.name _ a b hc
        refine ⟨hext, fun k e h1 h2 => ?_⟩
        rcases hnew k e h1 h2 with ⟨_, hd⟩ | hd
        · omega
        · omega
    refine ⟨extends_trans _ _ _ (storeStruct_extends G s d p n fields habs) hrel.1,
      fun k e h1 h2 => ?_⟩
    by_cases hk : k = p ++ "." ++ n
    · left
      have := hrel.1 _ _ hK
      rw [← hk, h2] at this
      cases this
      exact ⟨hk, rfl⟩
    · right
      apply hrel.2 k e ?_ h2
      show (mapSet _ _ _).lookup _ = _
      rw [lookup_mapSet]
      simp only [hk, if_false]
      exact h1

/-- C8 (counterexample): root `app` with `S{F1 *X; F2 *T}`, `X{G *T}` and
`T{}`.  `addStruct` at depth 0 creates the Entity of `S`; `T` is a named type
of the field `F2` of `S`, has a package, is a struct, is accepted by
`include` and is not a key before the call.  The call returns with `T` at
depth 2, not 1: the Entity of `T` was created through the field `G` of `X`,
before `follow` came to `F2`. -/
theorem referenced_type_below_next_depth :
    (State.empty.structs.lookup "app.S").isSome = false ∧
    (State.empty.structs.lookup "app.T").isSome = false ∧
    Example.chain.Underlying { pkg := some "app", name := "S" } =
      Underlying.struct
        [{ name := "F1", type := Example.ptrTo "app" "X" },
         { name := "F2", type := Example.ptrTo "app" "T" }] ∧
    findNamedTypes (Example.ptrTo "app" "T") = [{ pkg := some "app", name := "T" }] ∧
    Example.chain.Underlying { pkg := some "app", name := "T" } = Underlying.struct [] ∧
    include_ (Example.envOf Example.chain [] []) "app" "S" = true ∧
    include_ (Example.envOf Example.chain [] []) "app" "T" = true ∧
    addStruct (Example.envOf Example.chain [] []) 4 0 "app" "S"
        (Example.chain.Underlying { pkg := some "app", name := "S" }) State.empty =
      .ok (Example.stateOf (Example.envOf Example.chain [] []) 4
        [Call.addStruct 0 "app" "S"
          (Example.chain.Underlying { pkg := some "app", name := "S" })]) ∧
    (Example.stateOf (Example.envOf Example.chain [] []) 4
        [Call.addStruct 0 "app" "S"
          (Example.chain.Underlying { pkg := some "app", name := "S" })]).structs.map
      (fun x => (x.1, x.2.Depth)) = [("app.T", 2), ("app.X", 1), ("app.S", 0)] := by
  refine ⟨by decide, by decide, by decide, by decide, by decide, by decide, by decide,
    by rfl, by decide⟩

/-- C8 (amended): let `addStruct` at depth `d` create the Entity of a struct
`S` and return, and let `T` be a named type of one of the fields of `S` that
has a package (with a non-empty path), a struct or interface as underlying
type, and is accepted by `include`.  Then the Entity of `S` is in `structs`
and the full name of `T` is a key of `structs`.  Wherever `T` occurs in the
fields, the run of `follow` reaches that occurrence in a state `a`, and if
the key is not in the map then, the Entity of `T` is created there, at depth
`d + 1`, and is in `structs` when `addStruct` for `S` returns.  If the key
was not in the map before the call, and `T` is not `S` itself, its Entity was
created during the call at a depth of at least `d + 1`.  The link
construction, run on any later map that keeps these entries, in any visiting
order, yields the link from the field of `S` to `T`.  None of this depends
on the package of `T` being a root. -/
theorem cross_namespace_discovery {L : RegexpLib} (G : Env L) (fuel d : Nat)
    (pkg typName : String) (fields : List Var) (s s1 : State)
    (hnew : (s.structs.lookup (pkg ++ "." ++ typName)).isSome = false)
    (hinc : include_ G pkg typName = true)
    (hrun : addStruct G (fuel + 1) d pkg typName (Underlying.struct fields) s = .ok s1)
    (f : Var) (hf : f ∈ fields) (T : Named) (hT : T ∈ findNamedTypes f.type)
    (p : String) (hp : T.pkg = some p) (hpne : p ≠ "")
    (hshape : G.prog.Underlying T ≠ Underlying.other)
    (hincT : include_ G p T.name = true) :
    s1.structs.lookup (pkg ++ "." ++ typName) = some (structEntity G d pkg typName fields) ∧
    (p ++ "." ++ T.name) ∈ keys s1.structs ∧
    (∀ pre post npre npost, fields = pre ++ f :: post →
      findNamedTypes f.type = npre ++ T :: npost →
      ∃ a0 a : State,
        followFields G (addStruct G fuel) (d + 1) pre
          (storeStruct G d pkg typName fields s) = .ok a0 ∧
        followNames G (addStruct G fuel) (d + 1) npre a0 = .ok a ∧
        ((a.structs.lookup (p ++ "." ++ T.name)).isSome = false →
          ∃ e, s1.structs.lookup (p ++ "." ++ T.name) = some e ∧ e.Depth = d + 1 ∧
            e.pkg = p ∧ e.Name = T.name)) ∧
    ((s.structs.lookup (p ++ "." ++ T.name)).isSome = false →
      p ++ "." ++ T.name ≠ pkg ++ "." ++ typName →
      ∃ e, s1.structs.lookup (p ++ "." ++ T.name) = some e ∧ d + 1 ≤ e.Depth) ∧
    (∀ final order, Extends s1.structs final → order.Perm final →
      ({ FromStruct := pkg ++ "." ++ typName, FromField := f.name
         ToStruct := p ++ "." ++ T.name } : useInfo) ∈
        (linkStructs final order { links := [], nonOrphans := [] }).links) := by
  have hge := (addStruct_depth_ge G (fuel + 1) d pkg typName _ s s1 hrun).2
  have hext : ∀ fl dd pp nn uu (x y : State),
      addStruct G fl dd pp nn uu x = .ok y → Extends x.structs y.structs :=
    fun fl dd pp nn uu x y hc => addStruct_extends G fl dd pp nn uu x y hc
  -- the Entity of `S`
  have hS : s1.structs.lookup (pkg ++ "." ++ typName) =
      some (structEntity G d pkg typName fields) := by
    rcases addStruct_stores G (fuel + 1) d pkg typName _ s s1 hrun hinc (by simp) with
      ⟨h, _⟩ | ⟨_, e, he, _, _, _, h | h⟩
    · rw [hnew] at h; cases h
    · obtain ⟨fs, h1, h2⟩ := h
      cases h1
      rw [he, h2]
    · obtain ⟨ms, h1, _⟩ := h
      cases h1
  rw [addStruct_succ] at hrun
  simp only [hnew, hinc, Bool.not_true, Bool.false_eq_true, if_false] at hrun
  -- every occurrence of `T`
  have hocc : ∀ pre post npre npost, fields = pre ++ f :: post →
      findNamedTypes f.type = npre ++ T :: npost →
      ∃ a0 a : State,
        followFields G (addStruct G fuel) (d + 1) pre
          (storeStruct G d pkg typName fields s) = .ok a0 ∧
        followNames G (addStruct G fuel) (d + 1) npre a0 = .ok a ∧
        ∃ e, s1.structs.lookup (p ++ "." ++ T.name) = some e ∧
          ((a.structs.lookup (p ++ "." ++ T.name)).isSome = false →
            e.Depth = d + 1 ∧ e.pkg = p ∧ e.Name = T.name) := by
    intro pre post npre npost hfields hnames
    have hrun1 : followFields G (addStruct G fuel) (d + 1) (pre ++ f :: post)
        (storeStruct G d pkg typName fields s) = .ok s1 := by
      rw [← hfields]; exact hrun
    obtain ⟨a0, a, b, a1, h0, h1, hcall, h3, h4⟩ :=
      followFields_at G (addStruct G fuel) (d + 1) pre post f npre npost T p hp hnames _ _ hrun1
    have hb1 : Extends b.structs s1.structs :=
      extends_trans _ _ _
        (followNames_rel G (fun x y => Extends x.structs y.structs) (fun _ => extends_refl _)
          (fun _ _ _ => extends_trans _ _ _) _ (hext fuel) _ _ _ _ h3)
        (followFields_rel G (fun x y => Extends x.structs y.structs) (fun _ => extends_refl _)
          (fun _ _ _ => extends_trans _ _ _) _ (hext fuel) _ _ _ _ h4)
    refine ⟨a0, a, h0, h1, ?_⟩
    rcases addStruct_stores G fuel (d + 1) p T.name _ a b hcall hincT hshape with
      ⟨h, hba⟩ | ⟨_, e, he, h5, h6, h7, _⟩
    · subst hba
      cases hl : b.structs.lookup (p ++ "." ++ T.name) with
      | none => rw [hl] at h; cases h
      | some e =>
        refine ⟨e, hb1 _ _ hl, fun habs => ?_⟩
        cases habs
    · exact ⟨e, hb1 _ _ he, fun _ => ⟨h5, h6, h7⟩⟩
  obtain ⟨pre, post, hfields⟩ := List.append_of_mem hf
  obtain ⟨npre, npost, hnames⟩ := List.append_of_mem hT
  obtain ⟨_, _, _, _, e, he, _⟩ := hocc pre post npre npost hfields hnames
  have hkey : (p ++ "." ++ T.name) ∈ keys s1.structs := by
    rw [mem_keys_iff, he]; rfl
  refine ⟨hS, hkey, ?_, ?_, ?_⟩
  · intro pre post npre npost hfields hnames
    obtain ⟨a0, a, h0, h1, e, he, hd⟩ := hocc pre post npre npost hfields hnames
    exact ⟨a0, a, h0, h1, fun habs => ⟨e, he, hd habs⟩⟩
  · intro habs hne
    refine ⟨e, he, ?_⟩
    rcases hge _ e (lookup_none_of_isSome_false _ _ habs) he with ⟨hk, _⟩ | h
    · exact absurd hk hne
    · exact h
  · intro final order hfin hperm
    have hTs : T.String = p ++ "." ++ T.name := by
      simp [Named.String, hp, hpne]
    have hmemS : (pkg ++ "." ++ typName, structEntity G d pkg typName fields) ∈ order :=
      hperm.symm.subset (mem_of_lookup _ _ _ (hfin _ _ hS))
    have hfield : mkField G pkg f.name f.type ∈ (structEntity G d pkg typName fields).Fields :=
      List.mem_map.mpr ⟨f, hf, rfl⟩
    have := linkStructs_mem final order { links := [], nonOrphans := [] } _ _ hmemS
      (mkField G pkg f.name f.type) hfield T hT (by rw [hTs, hfin _ _ he]; rfl)
    rw [hTs] at this
    exact this

/-- C8 (witness): root `pkg1` with `Shipment{Dest pkg2.Address}` and the
inclusion `pkg2:.*`; `pkg2` is not a root. -/
theorem cross_namespace_discovery_witness :
    ("pkg2" ∉ Example.shipping.Imported.map Prod.fst) ∧
    (Example.shippingState.structs.lookup ("pkg1" ++ "." ++ "Shipment") =
      some (structEntity (Example.envOf Example.shipping ["pkg2:.*"] []) 0 "pkg1" "Shipment"
        [{ name := "Dest", type := GoType.named { pkg := some "pkg2", name := "Address" } }]) ∧
    ("pkg2" ++ "." ++ "Address") ∈ keys Example.shippingState.structs ∧
    (∀ pre post npre npost,
      [({ name := "Dest"
          type := GoType.named { pkg := some "pkg2", name := "Address" } } : Var)] =
        pre ++ { name := "Dest"
                 type := GoType.named { pkg := some "pkg2", name := "Address" } } :: post →
      findNamedTypes (GoType.named { pkg := some "pkg2", name := "Address" }) =
        npre ++ { pkg := some "pkg2", name := "Address" } :: npost →
      ∃ a0 a : State,
        followFields (Example.envOf Example.shipping ["pkg2:.*"] [])
          (addStruct (Example.envOf Example.shipping ["pkg2:.*"] []) 2) (0 + 1) pre
          (storeStruct (Example.envOf Example.shipping ["pkg2:.*"] []) 0 "pkg1" "Shipment"
            [{ name := "Dest"
               type := GoType.named { pkg := some "pkg2", name := "Address" } }]
            State.empty) = .ok a0 ∧
        followNames (Example.envOf Example.shipping ["pkg2:.*"] [])
          (addStruct (Example.envOf Example.shipping ["pkg2:.*"] []) 2) (0 + 1) npre a0 =
            .ok a ∧
        ((a.structs.lookup ("pkg2" ++ "." ++ "Address")).isSome = false →
          ∃ e, Example.shippingState.structs.lookup ("pkg2" ++ "." ++ "Address") = some e ∧
            e.Depth = 0 + 1 ∧ e.pkg = "pkg2" ∧ e.Name = "Address")) ∧
    ((State.empty.structs.lookup ("pkg2" ++ "." ++ "Address")).isSome = false →
      "pkg2" ++ "." ++ "Address" ≠ "pkg1" ++ "." ++ "Shipment" →
      ∃ e, Example.shippingState.structs.lookup ("pkg2" ++ "." ++ "Address") = some e ∧
        0 + 1 ≤ e.Depth) ∧
    (∀ final order, Extends Example.shippingState.structs final → order.Perm final →
      ({ FromStruct := "pkg1" ++ "." ++ "Shipment", FromField := "Dest"
         ToStruct := "pkg2" ++ "." ++ "Address" } : useInfo) ∈
        (linkStructs final order { links := [], nonOrphans := [] }).links)) :=
  ⟨by decide,
    cross_namespace_discovery (Example.envOf Example.shipping ["pkg2:.*"] []) 2 0
      "pkg1" "Shipment"
      [{ name := "Dest", type := GoType.named { pkg := some "pkg2", name := "Address" } }]
      State.empty Example.shippingState (by decide) (by decide) (by rfl)
      { name := "Dest", type := GoType.named { pkg := some "pkg2", name := "Address" } }
      (by decide) { pkg := some "pkg2", name := "Address" } (by decide) "pkg2" rfl (by decide)
      (by decide) (by decide)⟩

end Typegraph
